import Mathlib

/-! # Sequencer entity walker, object binding node and level sequence editor module

A shallow embedding of `SequencerEntityVisitor.cpp` (the marquee range, the three
intersection tests and the display-node traversal) together with the properties
proved about it.  Times and vertical positions are rationals, sums and differences of
them are rounded to float32; the visitor is modelled by the sequence of calls it receives.

The second part embeds the class lookup and the add-track property menu of
`SequencerObjectBindingNode.cpp` and the viewport layout registration of
`LevelSequenceEditorModule.cpp`.  Menu names are strings; `==` on them ignores letter case.
-/

namespace Sequencer

/-- The `TRange<float>` argument of the first range constructor, reduced to the two
bound values the constructor reads. -/
structure TRange where
  LowerBoundValue : ℚ
  UpperBoundValue : ℚ

/-- The `FVector2D` record of two coordinates. -/
structure FVector2D where
  X : ℚ
  Y : ℚ

/-- The `UMovieSceneSection` object, reduced to the two accessors the walker reads. -/
structure UMovieSceneSection where
  StartTime : ℚ
  EndTime : ℚ

/-- The `ISequencerSection` interface, reduced to `GetSectionObject`. -/
structure ISequencerSection where
  GetSectionObject : UMovieSceneSection

/-- Key handles are opaque identifiers. -/
abbrev FKeyHandle := Nat

/-- The `IKeyArea` interface, reduced to the two accessors the walker reads. -/
structure IKeyArea where
  GetUnsortedKeyHandles : List FKeyHandle
  GetKeyTime : FKeyHandle → ℚ

/-- The node kinds of `ESequencerNode`. -/
inductive ESequencerNode where
  | Track
  | Category
  | KeyArea
  | Object
  | Folder
  deriving DecidableEq, Repr

/-- A display node with the accessors the walker reads.  `GetSections` and
`HasTopLevelKeyNode` (`GetTopLevelKeyNode().IsValid()`) are meaningful on track nodes;
`GetKeyArea` is what the walker obtains from the node when it treats it as a
`FSectionKeyAreaNode`; `UpdateKeyGrouping` is the grouped key area per section index. -/
inductive FSequencerDisplayNode where
  | mk (GetType : ESequencerNode) (IsHidden : Bool) (IsExpanded : Bool)
      (GetVirtualTop : ℚ) (GetVirtualBottom : ℚ)
      (GetSections : List ISequencerSection) (HasTopLevelKeyNode : Bool)
      (GetKeyArea : Nat → IKeyArea) (UpdateKeyGrouping : Nat → IKeyArea)
      (GetChildNodes : List FSequencerDisplayNode)

namespace FSequencerDisplayNode

def GetType : FSequencerDisplayNode → ESequencerNode
  | mk t _ _ _ _ _ _ _ _ _ => t

def IsHidden : FSequencerDisplayNode → Bool
  | mk _ h _ _ _ _ _ _ _ _ => h

def IsExpanded : FSequencerDisplayNode → Bool
  | mk _ _ e _ _ _ _ _ _ _ => e

def GetVirtualTop : FSequencerDisplayNode → ℚ
  | mk _ _ _ t _ _ _ _ _ _ => t

def GetVirtualBottom : FSequencerDisplayNode → ℚ
  | mk _ _ _ _ b _ _ _ _ _ => b

def GetSections : FSequencerDisplayNode → List ISequencerSection
  | mk _ _ _ _ _ s _ _ _ _ => s

def HasTopLevelKeyNode : FSequencerDisplayNode → Bool
  | mk _ _ _ _ _ _ k _ _ _ => k

def GetKeyArea : FSequencerDisplayNode → Nat → IKeyArea
  | mk _ _ _ _ _ _ _ a _ _ => a

def UpdateKeyGrouping : FSequencerDisplayNode → Nat → IKeyArea
  | mk _ _ _ _ _ _ _ _ g _ => g

def GetChildNodes : FSequencerDisplayNode → List FSequencerDisplayNode
  | mk _ _ _ _ _ _ _ _ _ c => c

end FSequencerDisplayNode

/-! ## Float32 arithmetic

The walker computes with `float`.  Finite float32 values are rationals; a sum, difference or
quotient is the exact result rounded to the nearest float32 value, ties to the even
mantissa.  Infinities and NaN are outside the model: the exponent is not bounded above. -/

/-- Rounding of a rational to the nearest integer, ties to the even integer. -/
def RoundHalfEven (y : ℚ) : ℤ :=
  let f := ⌊y⌋
  if y - f < 1 / 2 then f
  else if y - f > 1 / 2 then f + 1
  else if f % 2 = 0 then f else f + 1

/-- The binary exponent of the float32 binade of `x`: the `e` with `2 ^ e ≤ |x| < 2 ^ (e + 1)`,
and `-126` throughout the subnormal range. -/
def FloatExponent (x : ℚ) : ℤ := max (Int.log 2 |x|) (-126)

/-- The float32 value nearest to `x`: float32 has 24 mantissa bits, so the values of the
binade of exponent `e` are the multiples of `2 ^ (e - 23)`. -/
def RoundFloat (x : ℚ) : ℚ :=
  (RoundHalfEven (x / 2 ^ (FloatExponent x - 23)) : ℚ) * 2 ^ (FloatExponent x - 23)

/-- The number is a float32 value. -/
def IsFloat (x : ℚ) : Prop := RoundFloat x = x

/-- The float32 sum `A + B`. -/
def FloatAdd (A B : ℚ) : ℚ := RoundFloat (A + B)

/-- The float32 difference `A - B`. -/
def FloatSub (A B : ℚ) : ℚ := RoundFloat (A - B)

/-- The float32 quotient `A / B`. -/
def FloatDiv (A B : ℚ) : ℚ := RoundFloat (A / B)

/-- The marquee range: a time interval and an optional vertical extent. -/
structure FSequencerEntityRange where
  StartTime : ℚ
  EndTime : ℚ
  VerticalTop : Option ℚ
  VerticalBottom : Option ℚ

/-- `TOptional::GetValue`.  The source asserts that the optional is set; both range
constructors set `VerticalTop` and `VerticalBottom` together, and the value is only
read after `VerticalTop.IsSet()`, so the default is never read on a constructed range. -/
def GetValue (o : Option ℚ) : ℚ := o.getD 0

/-- Constructor `FSequencerEntityRange(const TRange<float>&)`. -/
def FSequencerEntityRange.ofRange (InRange : TRange) : FSequencerEntityRange :=
  { StartTime := InRange.LowerBoundValue, EndTime := InRange.UpperBoundValue,
    VerticalTop := none, VerticalBottom := none }

/-- Constructor `FSequencerEntityRange(FVector2D TopLeft, FVector2D BottomRight)`. -/
def FSequencerEntityRange.ofCorners (TopLeft BottomRight : FVector2D) : FSequencerEntityRange :=
  { StartTime := TopLeft.X, EndTime := BottomRight.X,
    VerticalTop := some TopLeft.Y, VerticalBottom := some BottomRight.Y }

/-- `IntersectSection` (lines 21-24). -/
def FSequencerEntityRange.IntersectSection (r : FSequencerEntityRange)
    (InSection : UMovieSceneSection) : Bool :=
  decide (InSection.StartTime ≤ r.EndTime) && decide (InSection.EndTime ≥ r.StartTime)

/-- `IntersectNode` (lines 26-33). -/
def FSequencerEntityRange.IntersectNode (r : FSequencerEntityRange)
    (InNode : FSequencerDisplayNode) : Bool :=
  if r.VerticalTop.isSome then
    decide (InNode.GetVirtualTop ≤ GetValue r.VerticalBottom)
      && decide (InNode.GetVirtualBottom ≥ GetValue r.VerticalTop)
  else true

/-- `IntersectKeyArea` (lines 35-43), in float32 arithmetic. -/
def FSequencerEntityRange.IntersectKeyArea (r : FSequencerEntityRange)
    (InNode : FSequencerDisplayNode) (VirtualKeyHeight : ℚ) : Bool :=
  if r.VerticalTop.isSome then
    let NodeCenter := FloatAdd InNode.GetVirtualTop
      (FloatDiv (FloatSub InNode.GetVirtualBottom InNode.GetVirtualTop) 2)
    decide (FloatAdd NodeCenter (FloatDiv VirtualKeyHeight 2) > GetValue r.VerticalTop)
      && decide (FloatSub NodeCenter (FloatDiv VirtualKeyHeight 2) < GetValue r.VerticalBottom)
  else true

/-- One call received by the `ISequencerEntityVisitor`. -/
inductive Call where
  | VisitSection (Section : UMovieSceneSection)
  | VisitKey (KeyHandle : FKeyHandle) (KeyPosition : ℚ) (KeyArea : IKeyArea)
      (Section : UMovieSceneSection)

/-- The walker: the range and the virtual key size it was constructed with. -/
structure FSequencerEntityWalker where
  Range : FSequencerEntityRange
  VirtualKeySize : FVector2D

namespace FSequencerEntityWalker

/-- `HandleKeyArea` (lines 156-167): one `VisitKey` per key handle whose widened position,
computed in float32 arithmetic, meets the time interval, in the order of
`GetUnsortedKeyHandles`. -/
def HandleKeyArea (w : FSequencerEntityWalker) (KeyArea : IKeyArea)
    (Section : UMovieSceneSection) : List Call :=
  KeyArea.GetUnsortedKeyHandles.flatMap fun KeyHandle =>
    let KeyPosition := KeyArea.GetKeyTime KeyHandle
    if FloatAdd KeyPosition (FloatDiv w.VirtualKeySize.X 2) > w.Range.StartTime ∧
        FloatSub KeyPosition (FloatDiv w.VirtualKeySize.X 2) < w.Range.EndTime then
      [Call.VisitKey KeyHandle KeyPosition KeyArea Section]
    else []

/-- The loop of `HandleKeyAreaNode` (lines 138-153), from section index `SectionIndex` on. -/
def HandleKeyAreaNodeFrom (w : FSequencerEntityWalker) (KeyAreaNode : FSequencerDisplayNode) :
    Nat → List ISequencerSection → List Call
  | _, [] => []
  | SectionIndex, s :: rest =>
    (if w.Range.IntersectSection s.GetSectionObject then
        Call.VisitSection s.GetSectionObject ::
          (if w.Range.IntersectKeyArea KeyAreaNode w.VirtualKeySize.X then
            w.HandleKeyArea (KeyAreaNode.GetKeyArea SectionIndex) s.GetSectionObject
          else [])
      else [])
    ++ HandleKeyAreaNodeFrom w KeyAreaNode (SectionIndex + 1) rest

/-- `HandleKeyAreaNode` (lines 136-154). -/
def HandleKeyAreaNode (w : FSequencerEntityWalker) (KeyAreaNode : FSequencerDisplayNode)
    (InSections : List ISequencerSection) : List Call :=
  HandleKeyAreaNodeFrom w KeyAreaNode 0 InSections

/-- The fallback loop of the three-argument `HandleNode` (lines 105-119), from index
`SectionIndex` on. -/
def HandleFallbackFrom (w : FSequencerEntityWalker) (InNode : FSequencerDisplayNode) :
    Nat → List ISequencerSection → List Call
  | _, [] => []
  | SectionIndex, s :: rest =>
    (if w.Range.IntersectSection s.GetSectionObject then
        Call.VisitSection s.GetSectionObject ::
          (if InNode.GetChildNodes.length ≠ 0 ∧
              w.Range.IntersectKeyArea InNode w.VirtualKeySize.X then
            w.HandleKeyArea (InNode.UpdateKeyGrouping SectionIndex) s.GetSectionObject
          else [])
      else [])
    ++ HandleFallbackFrom w InNode (SectionIndex + 1) rest

/-- The part of the three-argument `HandleNode` that concerns the node itself (lines
82-121, everything before the loop over the children).  On a track whose top-level key
node is valid, line 95 hands `InNode` itself to `HandleKeyAreaNode`, so the key areas read
there are those of `InNode.GetKeyArea`.  The track is not an `FSectionKeyAreaNode`: in the
source the read of line 149 through that cast has no defined result, and the trace given
here is the source's only up to the first such read (`ReadsKeyAreaOfTrack` below says when
it is executed). -/
def HandleNodeSelf (w : FSequencerEntityWalker) (InNode : FSequencerDisplayNode)
    (InSections : List ISequencerSection) : List Call :=
  if w.Range.IntersectNode InNode then
    let bNodeHasKeyArea : Bool :=
      if InNode.GetType = ESequencerNode.KeyArea then true
      else if InNode.GetType = ESequencerNode.Track then InNode.HasTopLevelKeyNode
      else false
    (if bNodeHasKeyArea then w.HandleKeyAreaNode InNode InSections else [])
    ++ (if !bNodeHasKeyArea && (!InNode.IsExpanded || InNode.GetChildNodes.length == 0) then
          HandleFallbackFrom w InNode 0 InSections
        else [])
  else []

mutual
/-- The three-argument `HandleNode(Visitor, InNode, InSections)` (lines 80-134). -/
def HandleNodeSections (w : FSequencerEntityWalker) :
    FSequencerDisplayNode → List ISequencerSection → List Call
  | .mk t h e top bot ss k ka g cs, InSections =>
    w.HandleNodeSelf (.mk t h e top bot ss k ka g cs) InSections
    ++ (if e then HandleChildrenSections w cs InSections else [])
/-- The loop over the children in the three-argument `HandleNode` (lines 126-132). -/
def HandleChildrenSections (w : FSequencerEntityWalker) :
    List FSequencerDisplayNode → List ISequencerSection → List Call
  | [], _ => []
  | Child :: rest, InSections =>
    (if !Child.IsHidden then HandleNodeSections w Child InSections else [])
    ++ HandleChildrenSections w rest InSections
end

mutual
/-- The two-argument `HandleNode(Visitor, InNode)` (lines 61-78). -/
def HandleNode (w : FSequencerEntityWalker) : FSequencerDisplayNode → List Call
  | .mk t h e top bot ss k ka g cs =>
    (if t = ESequencerNode.Track then
        w.HandleNodeSections (.mk t h e top bot ss k ka g cs) ss
      else [])
    ++ (if e then Traverse w cs else [])
/-- `Traverse` (lines 50-59); the loop over the children in the two-argument `HandleNode`
(lines 70-76) is the same loop. -/
def Traverse (w : FSequencerEntityWalker) : List FSequencerDisplayNode → List Call
  | [] => []
  | Child :: rest =>
    (if !Child.IsHidden then HandleNode w Child else []) ++ Traverse w rest
end

end FSequencerEntityWalker

/-! ## Sample data -/

/-- A key area without keys. -/
def noKeys : IKeyArea := ⟨[], fun _ => 0⟩

/-- A key area with the single key `7` at time `3`. -/
def oneKey : IKeyArea := ⟨[7], fun _ => 3⟩

/-- A key area with the single key `7` at time `0`. -/
def edgeKey : IKeyArea := ⟨[7], fun _ => 0⟩

/-- A key area with the key `7` at time `3` and the key `8` at time `9`. -/
def twoKeys : IKeyArea := ⟨[7, 8], fun KeyHandle => if KeyHandle = 7 then 3 else 9⟩

/-- The section `[0, 10]`. -/
def sampleSection : ISequencerSection := ⟨⟨0, 10⟩⟩

/-- A collapsed track without children whose top-level key node is valid, occupying the
rows `[0, 10]`, with the section `[0, 10]` and the key area `oneKey`. -/
def keyedTrack : FSequencerDisplayNode :=
  .mk .Track false false 0 10 [sampleSection] true (fun _ => oneKey) (fun _ => noKeys) []

/-- The time interval `[1, 5]` without vertical extent, keys of size `2 × 2`. -/
def sampleWalker : FSequencerEntityWalker := ⟨⟨1, 5, none, none⟩, ⟨2, 2⟩⟩

/-- A collapsed track without top-level key node, occupying the rows `[0, 10]`, with the
section `[0, 10]`, the grouped key area `oneKey` and one child (`keyedTrack`). -/
def collapsedTrack : FSequencerDisplayNode :=
  .mk .Track false false 0 10 [sampleSection] false (fun _ => noKeys) (fun _ => oneKey)
    [keyedTrack]

/-- A hidden expanded folder holding `keyedTrack`. -/
def hiddenFolder : FSequencerDisplayNode :=
  .mk .Folder true true 3 4 [] false (fun _ => noKeys) (fun _ => noKeys) [keyedTrack]

/-- The node `collapsedTrack` with another child list. -/
def collapsedTrackOver (cs : List FSequencerDisplayNode) : FSequencerDisplayNode :=
  .mk .Track false false 0 10 [sampleSection] false (fun _ => noKeys) (fun _ => oneKey) cs

/-- The time interval `[1, 5]` with the vertical extent `[0, 5]`, keys of size `2 × 2`. -/
def marqueeWalker : FSequencerEntityWalker := ⟨⟨1, 5, some 0, some 5⟩, ⟨2, 2⟩⟩

/-- A visible key area node on the rows `[11, 20]`, below the extent of `marqueeWalker`. -/
def lowKeyArea : FSequencerDisplayNode :=
  .mk .KeyArea false false 11 20 [] false (fun _ => oneKey) (fun _ => noKeys) []

/-- An expanded track without top-level key node on the rows `[0, 10]`, with the section
`[0, 10]` and the child `lowKeyArea`. -/
def expandedTrack : FSequencerDisplayNode :=
  .mk .Track false true 0 10 [sampleSection] false (fun _ => noKeys) (fun _ => noKeys)
    [lowKeyArea]

/-- A visible collapsed key area node on the rows `[top, bot]` with the key area `oneKey`. -/
def keyAreaRow (top bot : ℚ) : FSequencerDisplayNode :=
  .mk .KeyArea false false top bot [] false (fun _ => oneKey) (fun _ => noKeys) []

/-- An expanded folder on the rows `[20, 30]`, outside the extent of `marqueeWalker`, with
a key area child on the rows `[0, 2]`. -/
def outsideFolder : FSequencerDisplayNode :=
  .mk .Folder false true 20 30 [] false (fun _ => noKeys) (fun _ => noKeys) [keyAreaRow 0 2]

/-- An expanded track without top-level key node, with the section `[0, 10]` and two key
area children on the rows `[0, 2]` and `[3, 5]`. -/
def twoRowTrack : FSequencerDisplayNode :=
  .mk .Track false true 0 5 [sampleSection] false (fun _ => noKeys) (fun _ => noKeys)
    [keyAreaRow 0 2, keyAreaRow 3 5]

/-- A hidden key area node on the rows `[0, 2]` with the key area `KeyArea`. -/
def hiddenKeyAreaRow (KeyArea : IKeyArea) : FSequencerDisplayNode :=
  .mk .KeyArea true false 0 2 [] false (fun _ => KeyArea) (fun _ => noKeys) []

/-- A hidden expanded folder holding a key area row. -/
def hiddenGroup : FSequencerDisplayNode :=
  .mk .Folder true true 3 4 [] false (fun _ => noKeys) (fun _ => noKeys) [keyAreaRow 0 2]

/-- An expanded folder with the children `c` and `twoRowTrack`. -/
def folderOver (c : FSequencerDisplayNode) : FSequencerDisplayNode :=
  .mk .Folder false true 0 10 [] false (fun _ => noKeys) (fun _ => noKeys) [c, twoRowTrack]

/-- A visible collapsed category on the rows `[0, 2]` with a key area child. -/
def categoryRow : FSequencerDisplayNode :=
  .mk .Category false false 0 2 [] false (fun _ => noKeys) (fun _ => oneKey) [keyAreaRow 2 4]

/-- An expanded track without top-level key node on the rows `[0, 5]`, with the section
`[0, 10]` and the child `categoryRow`. -/
def trackOverCategory : FSequencerDisplayNode :=
  .mk .Track false true 0 5 [sampleSection] false (fun _ => noKeys) (fun _ => noKeys)
    [categoryRow]

/-- Modelled from the spec: the grouped key area that `UpdateKeyGrouping` returns for a node
(`SequencerDisplayNode.cpp`, not part of this repository fragment) holds the keys of the key
areas of the node's key area children for the section, whether the children are hidden or
not; key `i` of the group is the `i`-th of these keys. -/
def GroupedKeyArea (ChildNodes : List FSequencerDisplayNode) (SectionIndex : Nat) : IKeyArea :=
  let KeyTimes : List ℚ := ChildNodes.flatMap fun Child =>
    if Child.GetType = ESequencerNode.KeyArea then
      (Child.GetKeyArea SectionIndex).GetUnsortedKeyHandles.map
        (Child.GetKeyArea SectionIndex).GetKeyTime
    else []
  ⟨List.range KeyTimes.length, fun KeyHandle => KeyTimes.getD KeyHandle 0⟩

/-- A visible collapsed track without top-level key node, with the section `[0, 10]`, the
children `cs` and the key grouping of these children. -/
def groupedTrack (cs : List FSequencerDisplayNode) : FSequencerDisplayNode :=
  .mk .Track false false 0 10 [sampleSection] false (fun _ => noKeys) (GroupedKeyArea cs) cs

/-! ## Vocabulary of the properties -/

/-- The section handed to the visitor lies on the time interval, both bounds included. -/
def SectionInRange (w : FSequencerEntityWalker) (s : UMovieSceneSection) : Prop :=
  s.StartTime ≤ w.Range.EndTime ∧ s.EndTime ≥ w.Range.StartTime

/-- What a visitor call promises: its section meets the time interval and, for a key,
the key widened by half the key width on either side meets it too. -/
def Call.InRange (w : FSequencerEntityWalker) : Call → Prop
  | .VisitSection s => SectionInRange w s
  | .VisitKey _ t _ s => SectionInRange w s ∧
      t + w.VirtualKeySize.X / 2 ≥ w.Range.StartTime ∧
      t - w.VirtualKeySize.X / 2 ≤ w.Range.EndTime

/-- The walker was given float32 values: the two time bounds and the key width. -/
def FloatInputs (w : FSequencerEntityWalker) : Prop :=
  IsFloat w.Range.StartTime ∧ IsFloat w.Range.EndTime ∧ IsFloat w.VirtualKeySize.X

/-- Whether the call is a `VisitKey`. -/
def Call.isVisitKey : Call → Bool
  | .VisitSection _ => false
  | .VisitKey _ _ _ _ => true

/-- The sections passed to `VisitSection`, in call order. -/
def VisitedSections : List Call → List UMovieSceneSection
  | [] => []
  | .VisitSection s :: rest => s :: VisitedSections rest
  | .VisitKey _ _ _ _ :: rest => VisitedSections rest

/-- A node is visible to `Traverse` on the forest `Nodes`: it is a top-level node or a child
of a visible expanded node, and it is not hidden. -/
inductive Visible (Nodes : List FSequencerDisplayNode) : FSequencerDisplayNode → Prop
  | top {n : FSequencerDisplayNode} : n ∈ Nodes → n.IsHidden = false → Visible Nodes n
  | child {p c : FSequencerDisplayNode} : Visible Nodes p → p.IsExpanded = true →
      c ∈ p.GetChildNodes → c.IsHidden = false → Visible Nodes c

mutual
/-- The node, or a node reached from it through expanded, non-hidden nodes, intersects the
range vertically and reports the sections it is handled with: it is a key area node or a
track with a valid top-level key node (lines 85-98), or it is collapsed or childless and
takes the fallback branch (line 100). -/
def ReportsSections (w : FSequencerEntityWalker) : FSequencerDisplayNode → Bool
  | .mk t h e top bot ss k ka g cs =>
    (w.Range.IntersectNode (.mk t h e top bot ss k ka g cs) &&
      (decide (t = ESequencerNode.KeyArea) || (decide (t = ESequencerNode.Track) && k) ||
        !e || cs.length == 0))
    || (e && AnyChildReportsSections w cs)
/-- Some non-hidden node of the list reports sections. -/
def AnyChildReportsSections (w : FSequencerEntityWalker) : List FSequencerDisplayNode → Bool
  | [] => false
  | Child :: rest =>
    (!Child.IsHidden && ReportsSections w Child) || AnyChildReportsSections w rest
end

/-- Handling the node with these sections executes line 149 on a track: the node is a track
with a valid top-level key node, which line 95 hands to `HandleKeyAreaNode` as if it were
a key area node, it intersects the range vertically, its key band intersects too, and one
of the sections intersects the time interval. -/
def ReadsKeyAreaOfTrack (w : FSequencerEntityWalker) (InNode : FSequencerDisplayNode)
    (InSections : List ISequencerSection) : Bool :=
  decide (InNode.GetType = ESequencerNode.Track) && InNode.HasTopLevelKeyNode &&
    w.Range.IntersectNode InNode && w.Range.IntersectKeyArea InNode w.VirtualKeySize.X &&
    InSections.any (fun s => w.Range.IntersectSection s.GetSectionObject)

mutual
/-- The three-argument `HandleNode` executes line 149 on a track, for the node or below. -/
def ReadsKeyAreaOfTrackInSections (w : FSequencerEntityWalker) :
    FSequencerDisplayNode → List ISequencerSection → Bool
  | .mk t h e top bot ss k ka g cs, InSections =>
    ReadsKeyAreaOfTrack w (.mk t h e top bot ss k ka g cs) InSections
      || (e && ReadsKeyAreaOfTrackInChildren w cs InSections)
/-- The child loop of the three-argument `HandleNode` executes line 149 on a track. -/
def ReadsKeyAreaOfTrackInChildren (w : FSequencerEntityWalker) :
    List FSequencerDisplayNode → List ISequencerSection → Bool
  | [], _ => false
  | Child :: rest, InSections =>
    (!Child.IsHidden && ReadsKeyAreaOfTrackInSections w Child InSections)
      || ReadsKeyAreaOfTrackInChildren w rest InSections
end

mutual
/-- The two-argument `HandleNode` executes line 149 on a track, for the node or below. -/
def ReadsKeyAreaOfTrackInNode (w : FSequencerEntityWalker) : FSequencerDisplayNode → Bool
  | .mk t h e top bot ss k ka g cs =>
    (decide (t = ESequencerNode.Track) &&
        ReadsKeyAreaOfTrackInSections w (.mk t h e top bot ss k ka g cs) ss)
      || (e && ReadsKeyAreaOfTrackInForest w cs)
/-- `Traverse` executes line 149 on a track somewhere in the forest. -/
def ReadsKeyAreaOfTrackInForest (w : FSequencerEntityWalker) :
    List FSequencerDisplayNode → Bool
  | [] => false
  | Child :: rest =>
    (!Child.IsHidden && ReadsKeyAreaOfTrackInNode w Child)
      || ReadsKeyAreaOfTrackInForest w rest
end

mutual
/-- Two nodes agree except below hidden nodes: either both are hidden (and otherwise
arbitrary), or they carry the same data and their children agree pairwise. -/
def SameUpToHidden : FSequencerDisplayNode → FSequencerDisplayNode → Prop
  | .mk t h e top bot ss k ka g cs, .mk t' h' e' top' bot' ss' k' ka' g' cs' =>
    (h = true ∧ h' = true) ∨
    (t = t' ∧ h = h' ∧ e = e' ∧ top = top' ∧ bot = bot' ∧ ss = ss' ∧ k = k' ∧ ka = ka' ∧
      g = g' ∧ SameUpToHiddenList cs cs')
/-- Pairwise agreement of two forests except below hidden nodes. -/
def SameUpToHiddenList : List FSequencerDisplayNode → List FSequencerDisplayNode → Prop
  | [], [] => True
  | a :: as, b :: bs => SameUpToHidden a b ∧ SameUpToHiddenList as bs
  | [], _ :: _ => False
  | _ :: _, [] => False
end

mutual
/-- Two nodes agree except for the child lists of collapsed nodes: they carry the same data
(the key grouping included), and either the node is collapsed and both child lists are
non-empty, or their children agree pairwise. -/
def SameUpToCollapsed : FSequencerDisplayNode → FSequencerDisplayNode → Prop
  | .mk t h e top bot ss k ka g cs, .mk t' h' e' top' bot' ss' k' ka' g' cs' =>
    (t = t' ∧ h = h' ∧ e = e' ∧ top = top' ∧ bot = bot' ∧ ss = ss' ∧ k = k' ∧ ka = ka' ∧
      g = g') ∧
    ((e = false ∧ cs ≠ [] ∧ cs' ≠ []) ∨ SameUpToCollapsedList cs cs')
/-- Pairwise agreement of two forests except for the child lists of collapsed nodes. -/
def SameUpToCollapsedList : List FSequencerDisplayNode → List FSequencerDisplayNode → Prop
  | [], [] => True
  | a :: as, b :: bs => SameUpToCollapsed a b ∧ SameUpToCollapsedList as bs
  | [], _ :: _ => False
  | _ :: _, [] => False
end

/-! ## Object binding node: class lookup (`SequencerObjectBindingNode.cpp`) -/

/-- A `UClass` object: an identifier and the class `GetSuperClass` returns (`none` for a
null pointer). -/
inductive UClass where
  | mk (Id : Nat) (SuperClass : Option UClass)

/-- `UClass::GetSuperClass`. -/
def UClass.GetSuperClass : UClass → Option UClass
  | .mk _ s => s

/-- Object binding identifiers. -/
abbrev FGuid := Nat

/-- The `FMovieSceneSpawnable` entry, reduced to `GetClass` (`none` for a null pointer). -/
structure FMovieSceneSpawnable where
  GetClass : Option UClass

/-- The `FMovieScenePossessable` entry, reduced to `GetPossessedObjectClass`. -/
structure FMovieScenePossessable where
  GetPossessedObjectClass : Option UClass

/-- The focused `UMovieScene`, reduced to its two lookups (`none` for a null pointer). -/
structure UMovieScene where
  FindSpawnable : FGuid → Option FMovieSceneSpawnable
  FindPossessable : FGuid → Option FMovieScenePossessable

/-- The two `check` assertions of `GetClassForObjectBinding`. -/
inductive CheckFailed where
  | ExactlyOneBinding
  | SpawnableHasClass
  deriving DecidableEq, Repr

/-- `FSequencerObjectBindingNode::GetClassForObjectBinding` (lines 351-363) on the focused
movie scene; a failed `check` is an error.  After the first check the possessable is set
whenever the spawnable is not, so the last branch is never taken. -/
def GetClassForObjectBinding (MovieScene : UMovieScene) (ObjectBinding : FGuid) :
    Except CheckFailed (Option UClass) :=
  let Spawnable := MovieScene.FindSpawnable ObjectBinding
  let Possessable := MovieScene.FindPossessable ObjectBinding
  if Bool.xor Spawnable.isSome Possessable.isSome = false then
    .error .ExactlyOneBinding
  else
    match Spawnable with
    | some sp =>
      match sp.GetClass with
      | none => .error .SpawnableHasClass
      | some c => .ok c.GetSuperClass
    | none =>
      match Possessable with
      | some p => .ok p.GetPossessedObjectClass
      | none => .error .ExactlyOneBinding

/-- A movie scene in which binding `1` is a spawnable of class `11` (a subclass of class
`10`), binding `2` a possessable of class `12`, binding `3` both, and no other is bound. -/
def sampleMovieScene : UMovieScene where
  FindSpawnable := fun g =>
    if g = 1 ∨ g = 3 then some ⟨some (.mk 11 (some (.mk 10 none)))⟩ else none
  FindPossessable := fun g =>
    if g = 2 ∨ g = 3 then some ⟨some (.mk 12 none)⟩ else none

/-! ## Level sequence editor module (`LevelSequenceEditorModule.cpp`) -/

/-- The `FCustomViewportLayoutDefinition` record: the layout type it was made from and the
three fields the module fills in. -/
structure FCustomViewportLayoutDefinition where
  FromType : String
  DisplayName : String
  Description : String
  Icon : String

/-- Modelled from the spec: the registry of custom viewport layouts kept by the host's
`FLevelEditorModule`, whose code is not part of this repository fragment.  It is a table
keyed by layout name. -/
structure FLevelEditorModule where
  CustomViewportLayouts : List (String × FCustomViewportLayoutDefinition)

/-- Modelled from the spec: `FLevelEditorModule::RegisterCustomViewportLayout` of the host
puts the definition under the name, replacing an entry of the same name. -/
def FLevelEditorModule.RegisterCustomViewportLayout (m : FLevelEditorModule)
    (InName : String) (Definition : FCustomViewportLayoutDefinition) : FLevelEditorModule :=
  ⟨(InName, Definition) :: m.CustomViewportLayouts.filter (fun e => e.1 != InName)⟩

/-- Modelled from the spec: `FLevelEditorModule::UnRegisterCustomViewportLayout` of the
host removes the entry stored under the name, and no other. -/
def FLevelEditorModule.UnRegisterCustomViewportLayout (m : FLevelEditorModule)
    (InName : String) : FLevelEditorModule :=
  ⟨m.CustomViewportLayouts.filter (fun e => e.1 != InName)⟩

/-- Whether a layout is registered under the name. -/
def FLevelEditorModule.IsRegistered (m : FLevelEditorModule) (InName : String) : Bool :=
  m.CustomViewportLayouts.any (fun e => e.1 == InName)

/-- The module manager, reduced to the `LevelEditor` module: `none` while it is not loaded. -/
structure FModuleManager where
  LevelEditor : Option FLevelEditorModule

/-- `FModuleManager::LoadModuleChecked<FLevelEditorModule>("LevelEditor")`: the loaded
module, loaded with an empty registry if it was not loaded yet. -/
def FModuleManager.LoadModuleChecked (mgr : FModuleManager) : FLevelEditorModule :=
  mgr.LevelEditor.getD ⟨[]⟩

/-- `RegisterMenuExtensions` (lines 101-118) as far as the layout registry goes: it loads
the `LevelEditor` module; the toolbar extender it adds is kept in another table. -/
def RegisterMenuExtensions (mgr : FModuleManager) : FModuleManager :=
  ⟨some mgr.LoadModuleChecked⟩

/-- `RegisterLevelEditorExtensions` (lines 83-98). -/
def RegisterLevelEditorExtensions (mgr : FModuleManager) : FModuleManager :=
  let LevelEditorModule := mgr.LoadModuleChecked
  let TwoPaneDefinition : FCustomViewportLayoutDefinition :=
    { FromType := "FCinematicLevelViewportLayout_OnePane",
      DisplayName := "Cinematic",
      Description := "A viewport layout tailored to cinematic preview",
      Icon := "LevelSequenceEditor.OnePaneCinematicViewportLayout" }
  let LevelEditorModule :=
    LevelEditorModule.RegisterCustomViewportLayout "OnePaneCinematic" TwoPaneDefinition
  let OnePaneDefinition : FCustomViewportLayoutDefinition :=
    { FromType := "FCinematicLevelViewportLayout_TwoPane",
      DisplayName := "Two Pane Cinematic",
      Description :=
        "A viewport layout comprising an edit viewport, and a cinematic preview viewport",
      Icon := "LevelSequenceEditor.TwoPaneCinematicViewportLayout" }
  ⟨some (LevelEditorModule.RegisterCustomViewportLayout "TwoPaneCinematic" OnePaneDefinition)⟩

/-- `UnregisterLevelEditorExtensions` (lines 179-186). -/
def UnregisterLevelEditorExtensions (mgr : FModuleManager) : FModuleManager :=
  match mgr.LevelEditor with
  | some LevelEditorModule => ⟨some (LevelEditorModule.UnRegisterCustomViewportLayout "Cinematic")⟩
  | none => mgr

/-- `StartupModule` (lines 31-41) on the layout registry.  Of its six steps only
`RegisterMenuExtensions` and `RegisterLevelEditorExtensions` reach the `LevelEditor` module;
the asset tools, property editor, placement mode and settings steps act on other modules. -/
def StartupModule (mgr : FModuleManager) : FModuleManager :=
  RegisterLevelEditorExtensions (RegisterMenuExtensions mgr)

/-- `ShutdownModule` (lines 43-51) on the layout registry.  `UnregisterMenuExtensions`
removes the toolbar extender only, and the other four steps act on other modules. -/
def ShutdownModule (mgr : FModuleManager) : FModuleManager :=
  UnregisterLevelEditorExtensions mgr

/-! ## Object binding node: the add-track property menu (`SequencerObjectBindingNode.cpp`) -/

/-- A `UProperty` object: its identity and the two names the menu code reads from it,
`GetDisplayNameText().ToString()` and `FObjectEditorUtils::GetCategoryFName(...).ToString()`. -/
structure UProperty where
  Id : Nat
  GetDisplayNameText : String
  GetCategoryFName : String
  deriving DecidableEq, Repr

/-- The `PropertyMenuData` record (lines 58 ff.). -/
structure PropertyMenuData where
  MenuName : String
  PropertyPath : List UProperty
  deriving DecidableEq, Repr

/-- What the menu code does with the menu builder.  `PropertyMenuItems` is a direct call of
`AddPropertyMenuItems` (line 465); `SubMenuNew` is `AddSubMenu` with the delegate
`HandleAddTrackSubMenuNew` bound to the paths (lines 484-487); `SubMenuItems` is
`AddSubMenu` with the delegate `AddPropertyMenuItems` bound to the paths and the two name
indices (lines 560-563). -/
inductive MenuEntry where
  | PropertyMenuItems (KeyableProperties : List (List UProperty))
  | SubMenuNew (Label : String) (KeyablePropertyPaths : List (List UProperty))
  | SubMenuItems (Label : String) (KeyableProperties : List (List UProperty))
      (PropertyNameIndexStart PropertyNameIndexEnd : Nat)
  deriving DecidableEq, Repr

/-- The property paths an entry hands on. -/
def MenuEntry.Paths : MenuEntry → List (List UProperty)
  | .PropertyMenuItems ps => ps
  | .SubMenuNew _ ps => ps
  | .SubMenuItems _ ps _ _ => ps

/-- `FString::Compare`, case sensitive. -/
def Compare (A B : String) : Int :=
  if A < B then -1 else if A = B then 0 else 1

/-- Lower case of a string: the letters `A` to `Z` are mapped to `a` to `z`. -/
def ToLower (S : String) : String := ⟨S.data.map Char.toLower⟩

/-- `FString::operator==` of the host (`Containers/UnrealString.h`, which compares with
`Stricmp`): equality without regard to letter case. -/
def EqualsIgnoreCase (A B : String) : Bool := ToLower A == ToLower B

/-- The predicate given to `Sort` at lines 447-451 and 532-536. -/
def MenuNameLess (A B : PropertyMenuData) : Bool :=
  let CompareResult := Compare A.MenuName B.MenuName
  decide (CompareResult < 0)

/-- The inner loop at lines 471-482 and at lines 544-555 (the same text).  `Current` is the
entry at `MenuDataIndex`, the list holds the entries after it, `Paths` is
`KeyableSubMenuPropertyPaths`.  The result is the entry at the final `MenuDataIndex`, the
gathered paths and the entries after the final index. -/
def GatherSameName : PropertyMenuData → List PropertyMenuData → List (List UProperty) →
    PropertyMenuData × List (List UProperty) × List PropertyMenuData
  | Current, [], Paths => (Current, Paths, [])
  | Current, Next :: Rest, Paths =>
    if EqualsIgnoreCase Current.MenuName Next.MenuName then
      GatherSameName Next Rest (Paths ++ [Next.PropertyPath])
    else (Current, Paths, Next :: Rest)

/-- The loop at lines 507-529, with `PropertiesTraversed` as a list.  A path of the form
`_ :: Property :: _` is one with `Num() > 1`, and `Property` is `KeyablePropertyPath[1]`. -/
def CollectSubMenuData : List (List UProperty) → List UProperty → List PropertyMenuData
  | [], _ => []
  | KeyablePropertyPath :: Rest, PropertiesTraversed =>
    match KeyablePropertyPath with
    | _ :: Property :: _ =>
      if Property ∈ PropertiesTraversed then CollectSubMenuData Rest PropertiesTraversed
      else
        ⟨Property.GetCategoryFName, KeyablePropertyPath⟩ ::
          CollectSubMenuData Rest (Property :: PropertiesTraversed)
    | _ => CollectSubMenuData Rest PropertiesTraversed

/-- The loop at lines 539-566 over the entries from `MenuDataIndex` on. -/
def SubMenuLoop : List PropertyMenuData → List MenuEntry
  | [] => []
  | First :: Rest =>
    let r := GatherSameName First Rest [First.PropertyPath]
    MenuEntry.SubMenuItems r.1.MenuName r.2.1 1 2 :: SubMenuLoop r.2.2
termination_by l => l.length
decreasing_by
  have key : ∀ (l : List PropertyMenuData) (c : PropertyMenuData)
      (ps : List (List UProperty)), (GatherSameName c l ps).2.2.length ≤ l.length := by
    intro l
    induction l with
    | nil => intro _ _; simp [GatherSameName]
    | cons n rest ih =>
      intro c ps
      rw [GatherSameName]
      split
      · exact Nat.le_succ_of_le (ih n _)
      · exact Nat.le_refl _
  exact Nat.lt_succ_of_le (key Rest First [First.PropertyPath])

/-- `HandleAddTrackSubMenuNew` (lines 498-567).  `ArraySort` is `TArray::Sort` of the host. -/
def HandleAddTrackSubMenuNew
    (ArraySort : (PropertyMenuData → PropertyMenuData → Bool) → List PropertyMenuData →
      List PropertyMenuData)
    (KeyablePropertyPaths : List (List UProperty)) : List MenuEntry :=
  let KeyablePropertyMenuData := CollectSubMenuData KeyablePropertyPaths []
  SubMenuLoop (ArraySort MenuNameLess KeyablePropertyMenuData)

/-- The loop at lines 438-444: the menu name is the display name of `KeyablePropertyPath[0]`;
indexing an empty path is an assertion failure (`none`). -/
def CollectMenuData : List (List UProperty) → Option (List PropertyMenuData)
  | [] => some []
  | KeyablePropertyPath :: Rest =>
    match KeyablePropertyPath with
    | [] => none
    | Property :: _ =>
      match CollectMenuData Rest with
      | none => none
      | some Data => some (⟨Property.GetDisplayNameText, KeyablePropertyPath⟩ :: Data)

/-- The loop at lines 456-491 over the entries from `MenuDataIndex` on. -/
def ComboMenuLoop (bUseSubMenus : Bool) : List PropertyMenuData → List MenuEntry
  | [] => []
  | First :: Rest =>
    if First.PropertyPath.length = 1 ∨ bUseSubMenus = false then
      MenuEntry.PropertyMenuItems [First.PropertyPath] :: ComboMenuLoop bUseSubMenus Rest
    else
      let r := GatherSameName First Rest [First.PropertyPath]
      MenuEntry.SubMenuNew r.1.MenuName r.2.1 :: ComboMenuLoop bUseSubMenus r.2.2
termination_by l => l.length
decreasing_by
  · exact Nat.lt_succ_self _
  · have key : ∀ (l : List PropertyMenuData) (c : PropertyMenuData)
        (ps : List (List UProperty)), (GatherSameName c l ps).2.2.length ≤ l.length := by
      intro l
      induction l with
      | nil => intro _ _; simp [GatherSameName]
      | cons n rest ih =>
        intro c ps
        rw [GatherSameName]
        split
        · exact Nat.le_succ_of_le (ih n _)
        · exact Nat.le_refl _
    exact Nat.lt_succ_of_le (key Rest First [First.PropertyPath])

/-- The properties section of `HandleAddTrackComboButtonGetMenuContent` (lines 436-492),
from the keyable property paths on.  `ArraySort` is `TArray::Sort` of the host. -/
def HandleAddTrackComboButtonGetMenuContent
    (ArraySort : (PropertyMenuData → PropertyMenuData → Bool) → List PropertyMenuData →
      List PropertyMenuData)
    (bUseSubMenus : Bool) (KeyablePropertyPaths : List (List UProperty)) :
    Option (List MenuEntry) :=
  match CollectMenuData KeyablePropertyPaths with
  | none => none
  | some KeyablePropertyMenuData =>
    some (ComboMenuLoop bUseSubMenus (ArraySort MenuNameLess KeyablePropertyMenuData))

/-- A menu entry made by `AddMenuEntry` (line 346): its label and the property path its
action is bound to. -/
structure FMenuEntry where
  Label : String
  PropertyPath : List UProperty
  deriving DecidableEq, Repr

/-- The loop at lines 321-324: the display names of `KeyableProperty[PropertyNameIndex]` for
the next `Count` indices; an index outside the path is an assertion failure (`none`). -/
def PropertyNamesFrom (KeyableProperty : List UProperty) : Nat → Int → Option (List String)
  | 0, _ => some []
  | Count + 1, PropertyNameIndex =>
    if PropertyNameIndex < 0 then none
    else
      match KeyableProperty[PropertyNameIndex.toNat]? with
      | none => none
      | some Property =>
        match PropertyNamesFrom KeyableProperty Count (PropertyNameIndex + 1) with
        | none => none
        | some Names => some (Property.GetDisplayNameText :: Names)

/-- The loop at lines 307-333 of `AddPropertyMenuItems`.  The parameter
`PropertyNameIndexEnd` is overwritten at line 312 and keeps its new value for the paths
that follow. -/
def CollectPropertyMenuData : List (List UProperty) → Int → Int →
    Option (List PropertyMenuData)
  | [], _, _ => some []
  | KeyableProperty :: Rest, PropertyNameIndexStart, PropertyNameIndexEnd =>
    let PropertyNameIndexEnd : Int :=
      if PropertyNameIndexEnd = -1 then (KeyableProperty.length : Int)
      else PropertyNameIndexEnd
    if PropertyNameIndexStart ≥ (KeyableProperty.length : Int) then
      CollectPropertyMenuData Rest PropertyNameIndexStart PropertyNameIndexEnd
    else
      match PropertyNamesFrom KeyableProperty
          (PropertyNameIndexEnd - PropertyNameIndexStart).toNat PropertyNameIndexStart with
      | none => none
      | some PropertyNames =>
        match CollectPropertyMenuData Rest PropertyNameIndexStart PropertyNameIndexEnd with
        | none => none
        | some Data => some (⟨".".intercalate PropertyNames, KeyableProperty⟩ :: Data)

/-- `AddPropertyMenuItems` (lines 303-348): the menu entries it adds, in order. -/
def AddPropertyMenuItems
    (ArraySort : (PropertyMenuData → PropertyMenuData → Bool) → List PropertyMenuData →
      List PropertyMenuData)
    (KeyableProperties : List (List UProperty))
    (PropertyNameIndexStart PropertyNameIndexEnd : Int) : Option (List FMenuEntry) :=
  match CollectPropertyMenuData KeyableProperties PropertyNameIndexStart
      PropertyNameIndexEnd with
  | none => none
  | some KeyablePropertyMenuData =>
    some ((ArraySort MenuNameLess KeyablePropertyMenuData).map
      (fun d => ⟨d.MenuName, d.PropertyPath⟩))

/-- The second-level properties `PropertyPath[1]` of the paths that have one. -/
def SecondProperties (Paths : List (List UProperty)) : List UProperty :=
  Paths.filterMap (fun q => q[1]?)

/-- A sort to run the menu code with: insertion sort. -/
def insertionArraySort (Less : PropertyMenuData → PropertyMenuData → Bool)
    (Data : List PropertyMenuData) : List PropertyMenuData :=
  Data.insertionSort (fun A B => Less A B = true)

/-- The struct property `PostProcess Settings`. -/
def propPostProcess : UProperty := ⟨1, "PostProcess Settings", "Camera"⟩

/-- The property `Bloom1Tint`, in the category `Lens`. -/
def propBloomTint : UProperty := ⟨2, "Bloom1Tint", "Lens"⟩

/-- The channel `X`. -/
def propX : UProperty := ⟨3, "X", "Lens"⟩

/-- The channel `Y`. -/
def propY : UProperty := ⟨4, "Y", "Lens"⟩

/-- The property `Aspect Ratio`. -/
def propAspectRatio : UProperty := ⟨5, "Aspect Ratio", "Camera"⟩

/-- A struct property with the display name `Settings`. -/
def propSettingsUpper : UProperty := ⟨6, "Settings", "Camera"⟩

/-- Another struct property, with the display name `settings`. -/
def propSettingsLower : UProperty := ⟨7, "settings", "Camera"⟩

/-- Two keyable paths whose top-level display names differ by letter case only. -/
def caseClashPaths : List (List UProperty) :=
  [[propSettingsUpper, propX], [propSettingsLower, propY]]

/-- The keyable paths of the comment at lines 430-434, without the last two. -/
def samplePaths : List (List UProperty) :=
  [[propAspectRatio], [propPostProcess, propBloomTint, propX],
    [propPostProcess, propBloomTint, propY]]

end Sequencer

namespace Sequencer

open FSequencerEntityWalker

/-! ## Float32 rounding -/

theorem RoundHalfEven_near (y : ℚ) :
    (RoundHalfEven y : ℚ) - 1 / 2 ≤ y ∧ y ≤ (RoundHalfEven y : ℚ) + 1 / 2 := by
  have h1 : (⌊y⌋ : ℚ) ≤ y := Int.floor_le y
  have h2 : y < (⌊y⌋ : ℚ) + 1 := Int.lt_floor_add_one y
  unfold RoundHalfEven
  simp only []
  split_ifs with ha hb hc
  · constructor <;> linarith
  · push_cast
    constructor <;> linarith
  · constructor <;> linarith
  · push_cast
    constructor <;> linarith

theorem RoundHalfEven_intCast (n : ℤ) : RoundHalfEven (n : ℚ) = n := by
  unfold RoundHalfEven
  simp

theorem RoundHalfEven_mono {y₁ y₂ : ℚ} (h : y₁ ≤ y₂) : RoundHalfEven y₁ ≤ RoundHalfEven y₂ := by
  by_contra hlt
  push_neg at hlt
  have hge : (RoundHalfEven y₂ : ℚ) + 1 ≤ (RoundHalfEven y₁ : ℚ) := by exact_mod_cast hlt
  have n1 := RoundHalfEven_near y₁
  have n2 := RoundHalfEven_near y₂
  have heq : y₁ = y₂ := by linarith
  rw [heq] at hlt
  exact lt_irrefl _ hlt

theorem FloatQuantum_pos (x : ℚ) : (0 : ℚ) < 2 ^ (FloatExponent x - 23) := by positivity

theorem two_zpow_split (E : ℤ) :
    (2 : ℚ) ^ (E + 1) = (2 ^ 24 : ℤ) * 2 ^ (E - 23) ∧
    (2 : ℚ) ^ E = (2 ^ 23 : ℤ) * 2 ^ (E - 23) := by
  have h2 : (2 : ℚ) ≠ 0 := by norm_num
  constructor
  · have : E + 1 = 24 + (E - 23) := by ring
    rw [this, zpow_add₀ h2]
    norm_num
  · have : E = 23 + (E - 23) := by ring
    conv_lhs => rw [this]
    rw [zpow_add₀ h2]
    norm_num

theorem abs_lt_two_zpow_FloatExponent (x : ℚ) : |x| < 2 ^ (FloatExponent x + 1) := by
  have h1 : |x| < ((2 : ℕ) : ℚ) ^ (Int.log 2 |x| + 1) := Int.lt_zpow_succ_log_self (by norm_num) _
  have h2 : ((2 : ℕ) : ℚ) ^ (Int.log 2 |x| + 1) ≤ ((2 : ℕ) : ℚ) ^ (FloatExponent x + 1) := by
    apply zpow_le_zpow_right₀ (by norm_num)
    unfold FloatExponent
    have := le_max_left (Int.log 2 |x|) (-126)
    omega
  have h3 := lt_of_lt_of_le h1 h2
  simpa using h3

theorem two_zpow_FloatExponent_le_abs (x : ℚ) (hx : x ≠ 0) (hE : -126 < FloatExponent x) :
    2 ^ FloatExponent x ≤ |x| := by
  have hpos : 0 < |x| := abs_pos.mpr hx
  have hlog : FloatExponent x = Int.log 2 |x| := by
    unfold FloatExponent at hE ⊢
    rcases max_cases (Int.log 2 |x|) (-126) with ⟨h, -⟩ | ⟨h, -⟩
    · exact h
    · rw [h] at hE
      exact absurd hE (lt_irrefl _)
  rw [hlog]
  have := Int.zpow_log_le_self (b := 2) (r := |x|) (by norm_num) hpos
  simpa using this

theorem FloatExponent_mono_abs {x y : ℚ} (hx : x ≠ 0) (h : |x| ≤ |y|) :
    FloatExponent x ≤ FloatExponent y := by
  unfold FloatExponent
  exact max_le_max (Int.log_mono_right (abs_pos.mpr hx) h) (le_refl _)

theorem RoundFloat_nonneg {x : ℚ} (hx : 0 ≤ x) : 0 ≤ RoundFloat x := by
  unfold RoundFloat
  apply mul_nonneg _ (le_of_lt (FloatQuantum_pos x))
  have h0 : RoundHalfEven ((0 : ℤ) : ℚ) ≤ RoundHalfEven (x / 2 ^ (FloatExponent x - 23)) :=
    RoundHalfEven_mono (by
      push_cast
      exact div_nonneg hx (le_of_lt (FloatQuantum_pos x)))
  rw [RoundHalfEven_intCast] at h0
  exact_mod_cast h0

theorem RoundFloat_nonpos {x : ℚ} (hx : x ≤ 0) : RoundFloat x ≤ 0 := by
  unfold RoundFloat
  apply mul_nonpos_of_nonpos_of_nonneg _ (le_of_lt (FloatQuantum_pos x))
  have h0 : RoundHalfEven (x / 2 ^ (FloatExponent x - 23)) ≤ RoundHalfEven ((0 : ℤ) : ℚ) :=
    RoundHalfEven_mono (by
      push_cast
      exact div_nonpos_of_nonpos_of_nonneg hx (le_of_lt (FloatQuantum_pos x)))
  rw [RoundHalfEven_intCast] at h0
  exact_mod_cast h0

/-- A rounded value stays inside the closed binade of its argument, upper side. -/
theorem RoundFloat_le_of_lt_two_zpow (x : ℚ) : RoundFloat x ≤ 2 ^ (FloatExponent x + 1) := by
  have hq := FloatQuantum_pos x
  have hx : x < 2 ^ (FloatExponent x + 1) :=
    lt_of_le_of_lt (le_abs_self x) (abs_lt_two_zpow_FloatExponent x)
  rw [(two_zpow_split (FloatExponent x)).1] at hx ⊢
  unfold RoundFloat
  apply mul_le_mul_of_nonneg_right _ (le_of_lt hq)
  have h1 : x / 2 ^ (FloatExponent x - 23) ≤ ((2 ^ 24 : ℤ) : ℚ) := by
    rw [div_le_iff₀ hq]
    exact le_of_lt hx
  have h2 := RoundHalfEven_mono h1
  rw [RoundHalfEven_intCast] at h2
  exact_mod_cast h2

theorem RoundFloat_ge_of_neg_two_zpow (x : ℚ) : -2 ^ (FloatExponent x + 1) ≤ RoundFloat x := by
  have hq := FloatQuantum_pos x
  have hx : -2 ^ (FloatExponent x + 1) < x :=
    neg_lt_of_abs_lt (abs_lt_two_zpow_FloatExponent x)
  rw [(two_zpow_split (FloatExponent x)).1] at hx ⊢
  unfold RoundFloat
  rw [← neg_mul]
  apply mul_le_mul_of_nonneg_right _ (le_of_lt hq)
  have h1 : ((-(2 ^ 24) : ℤ) : ℚ) ≤ x / 2 ^ (FloatExponent x - 23) := by
    rw [le_div_iff₀ hq]
    push_cast
    rw [neg_mul]
    push_cast at hx
    exact le_of_lt hx
  have h2 := RoundHalfEven_mono h1
  rw [RoundHalfEven_intCast] at h2
  have h3 : ((-(2 ^ 24) : ℤ) : ℚ) ≤ (RoundHalfEven (x / 2 ^ (FloatExponent x - 23)) : ℚ) := by
    exact_mod_cast h2
  push_cast at h3 ⊢
  exact h3

theorem two_zpow_le_RoundFloat {x : ℚ} (hx : 0 < x) (hE : -126 < FloatExponent x) :
    2 ^ FloatExponent x ≤ RoundFloat x := by
  have hq := FloatQuantum_pos x
  have hle : 2 ^ FloatExponent x ≤ x := by
    have := two_zpow_FloatExponent_le_abs x (ne_of_gt hx) hE
    rwa [abs_of_pos hx] at this
  rw [(two_zpow_split (FloatExponent x)).2] at hle ⊢
  unfold RoundFloat
  apply mul_le_mul_of_nonneg_right _ (le_of_lt hq)
  have h1 : ((2 ^ 23 : ℤ) : ℚ) ≤ x / 2 ^ (FloatExponent x - 23) := by
    rw [le_div_iff₀ hq]
    exact hle
  have h2 := RoundHalfEven_mono h1
  rw [RoundHalfEven_intCast] at h2
  exact_mod_cast h2

theorem RoundFloat_le_neg_two_zpow {x : ℚ} (hx : x < 0) (hE : -126 < FloatExponent x) :
    RoundFloat x ≤ -2 ^ FloatExponent x := by
  have hq := FloatQuantum_pos x
  have hle : x ≤ -2 ^ FloatExponent x := by
    have := two_zpow_FloatExponent_le_abs x (ne_of_lt hx) hE
    rw [abs_of_neg hx] at this
    linarith
  rw [(two_zpow_split (FloatExponent x)).2] at hle ⊢
  unfold RoundFloat
  rw [← neg_mul]
  apply mul_le_mul_of_nonneg_right _ (le_of_lt hq)
  have h1 : x / 2 ^ (FloatExponent x - 23) ≤ ((-(2 ^ 23) : ℤ) : ℚ) := by
    rw [div_le_iff₀ hq]
    push_cast
    rw [neg_mul]
    push_cast at hle
    exact hle
  have h2 := RoundHalfEven_mono h1
  rw [RoundHalfEven_intCast] at h2
  have h3 : (RoundHalfEven (x / 2 ^ (FloatExponent x - 23)) : ℚ) ≤ ((-(2 ^ 23) : ℤ) : ℚ) := by
    exact_mod_cast h2
  push_cast at h3 ⊢
  exact h3

theorem RoundFloat_mono_same {x y : ℚ} (h : x ≤ y) (hE : FloatExponent x = FloatExponent y) :
    RoundFloat x ≤ RoundFloat y := by
  unfold RoundFloat
  rw [hE]
  apply mul_le_mul_of_nonneg_right _ (le_of_lt (FloatQuantum_pos y))
  have := RoundHalfEven_mono (div_le_div_of_nonneg_right h (le_of_lt (FloatQuantum_pos y)))
  exact_mod_cast this

/-- Rounding to float32 is monotone. -/
theorem RoundFloat_mono {x y : ℚ} (h : x ≤ y) : RoundFloat x ≤ RoundFloat y := by
  have h2 : (1 : ℚ) ≤ 2 := by norm_num
  rcases le_or_lt x 0 with hx | hx
  · rcases le_or_lt 0 y with hy | hy
    · exact le_trans (RoundFloat_nonpos hx) (RoundFloat_nonneg hy)
    · have hx' : x < 0 := lt_of_le_of_lt h hy
      have habs : |y| ≤ |x| := by
        rw [abs_of_neg hy, abs_of_neg hx']
        linarith
      have hEle := FloatExponent_mono_abs (ne_of_lt hy) habs
      rcases eq_or_lt_of_le hEle with hEeq | hElt
      · exact RoundFloat_mono_same h hEeq.symm
      · have hEx : -126 < FloatExponent x := by
          have : -126 ≤ FloatExponent y := le_max_right _ _
          omega
        calc RoundFloat x ≤ -2 ^ FloatExponent x := RoundFloat_le_neg_two_zpow hx' hEx
          _ ≤ -2 ^ (FloatExponent y + 1) := by
            apply neg_le_neg
            exact zpow_le_zpow_right₀ h2 (by omega)
          _ ≤ RoundFloat y := RoundFloat_ge_of_neg_two_zpow y
  · have hy : 0 < y := lt_of_lt_of_le hx h
    have habs : |x| ≤ |y| := by
      rw [abs_of_pos hx, abs_of_pos hy]
      exact h
    have hEle := FloatExponent_mono_abs (ne_of_gt hx) habs
    rcases eq_or_lt_of_le hEle with hEeq | hElt
    · exact RoundFloat_mono_same h hEeq
    · have hEy : -126 < FloatExponent y := by
        have : -126 ≤ FloatExponent x := le_max_right _ _
        omega
      calc RoundFloat x ≤ 2 ^ (FloatExponent x + 1) := RoundFloat_le_of_lt_two_zpow x
        _ ≤ 2 ^ FloatExponent y := zpow_le_zpow_right₀ h2 (by omega)
        _ ≤ RoundFloat y := two_zpow_le_RoundFloat hy hEy

theorem FloatExponent_le_of_abs_lt (x : ℚ) (e : ℤ) (he : 0 ≤ e) (h : |x| < 2 ^ (e + 1)) :
    FloatExponent x ≤ e := by
  unfold FloatExponent
  apply max_le _ (by omega)
  rcases eq_or_lt_of_le (abs_nonneg x) with h0 | hpos
  · rw [← h0, Int.log_zero_right]
    exact he
  · have := (Int.lt_zpow_iff_log_lt (b := 2) (x := e + 1) (r := |x|) (by norm_num) hpos).mp
      (by simpa using h)
    omega

/-- A multiple of the spacing of its binade is a float32 value. -/
theorem RoundFloat_of_multiple (x : ℚ) (m : ℤ)
    (h : x = (m : ℚ) * 2 ^ (FloatExponent x - 23)) : RoundFloat x = x := by
  have hq := FloatQuantum_pos x
  unfold RoundFloat
  have hdiv : x / 2 ^ (FloatExponent x - 23) = (m : ℚ) := by
    rw [div_eq_iff (ne_of_gt hq)]
    exact h
  rw [hdiv, RoundHalfEven_intCast]
  exact h.symm

/-- Every integer of magnitude below `2 ^ 24` is a float32 value. -/
theorem RoundFloat_intCast (n : ℤ) (h : |n| < 2 ^ 24) : RoundFloat (n : ℚ) = n := by
  have hE : FloatExponent (n : ℚ) ≤ 23 := by
    apply FloatExponent_le_of_abs_lt _ 23 (by norm_num)
    have : |(n : ℚ)| < ((2 ^ 24 : ℤ) : ℚ) := by
      rw [← Int.cast_abs]
      exact_mod_cast h
    calc |(n : ℚ)| < ((2 ^ 24 : ℤ) : ℚ) := this
      _ = 2 ^ ((23 : ℤ) + 1) := by norm_num
  have hElo : -126 ≤ FloatExponent (n : ℚ) := le_max_right _ _
  obtain ⟨k, hk⟩ : ∃ k : ℕ, (k : ℤ) = 23 - FloatExponent (n : ℚ) :=
    ⟨(23 - FloatExponent (n : ℚ)).toNat, by omega⟩
  apply RoundFloat_of_multiple _ (n * 2 ^ k)
  have hEk : FloatExponent (n : ℚ) - 23 = -(k : ℤ) := by omega
  rw [hEk, zpow_neg, zpow_natCast]
  push_cast
  field_simp

theorem RoundFloat_zero : RoundFloat 0 = 0 := by
  simpa using RoundFloat_intCast 0 (by norm_num)

theorem RoundFloat_one : RoundFloat 1 = 1 := by
  simpa using RoundFloat_intCast 1 (by norm_num)

theorem RoundFloat_two : RoundFloat 2 = 2 := by
  simpa using RoundFloat_intCast 2 (by norm_num)

theorem RoundFloat_four : RoundFloat 4 = 4 := by
  simpa using RoundFloat_intCast 4 (by norm_num)

theorem RoundFloat_neg_one : RoundFloat (-1) = -1 := by
  simpa using RoundFloat_intCast (-1) (by norm_num)

theorem FloatExponent_eq_of_bounds (x : ℚ) (e : ℤ) (he : 0 ≤ e) (hlo : 2 ^ e ≤ |x|)
    (hhi : |x| < 2 ^ (e + 1)) : FloatExponent x = e := by
  apply le_antisymm (FloatExponent_le_of_abs_lt x e he hhi)
  have hpos : 0 < |x| := lt_of_lt_of_le (by positivity) hlo
  have := (Int.zpow_le_iff_le_log (b := 2) (x := e) (r := |x|) (by norm_num) hpos).mp
    (by simpa using hlo)
  exact le_trans this (le_max_left _ _)

/-- The float32 sum `2 ^ 24 + 1` is `2 ^ 24`. -/
theorem RoundFloat_16777217 : RoundFloat 16777217 = 16777216 := by
  have hE : FloatExponent 16777217 = 24 := by
    apply FloatExponent_eq_of_bounds _ 24 (by norm_num)
    · norm_num
    · norm_num
  unfold RoundFloat
  rw [hE]
  have hfloor : ⌊(16777217 : ℚ) / 2 ^ ((24 : ℤ) - 23)⌋ = 8388608 := by
    rw [Int.floor_eq_iff]
    norm_num
  have hr : RoundHalfEven ((16777217 : ℚ) / 2 ^ ((24 : ℤ) - 23)) = 8388608 := by
    unfold RoundHalfEven
    simp only [hfloor]
    norm_num
  rw [hr]
  norm_num

theorem RoundFloat_five : RoundFloat 5 = 5 := by
  simpa using RoundFloat_intCast 5 (by norm_num)

/-- With a float32 bound `B`, a float32 sum above `B` has an exact value above `B`. -/
theorem lt_of_lt_FloatAdd {A H B : ℚ} (hB : IsFloat B) (h : B < FloatAdd A H) : B < A + H := by
  by_contra hle
  push_neg at hle
  have := RoundFloat_mono hle
  rw [hB] at this
  exact absurd h (not_lt.mpr this)

/-- With a float32 bound `B`, a float32 difference below `B` has an exact value below `B`. -/
theorem lt_of_FloatSub_lt {A H B : ℚ} (hB : IsFloat B) (h : FloatSub A H < B) : A - H < B := by
  by_contra hle
  push_neg at hle
  have := RoundFloat_mono hle
  rw [hB] at this
  exact absurd h (not_lt.mpr this)

/-- A number less than half above an integer rounds to that integer. -/
theorem RoundHalfEven_of_lt_half (k : ℤ) (z : ℚ) (h1 : (k : ℚ) ≤ z) (h2 : z < k + 1 / 2) :
    RoundHalfEven z = k := by
  have hfloor : ⌊z⌋ = k := by
    rw [Int.floor_eq_iff]
    constructor
    · exact h1
    · linarith
  unfold RoundHalfEven
  simp only [hfloor]
  rw [if_pos (by linarith)]

theorem FloatExponent_neg (x : ℚ) : FloatExponent (-x) = FloatExponent x := by
  unfold FloatExponent
  rw [abs_neg]

theorem FloatExponent_ge (x : ℚ) : -126 ≤ FloatExponent x := le_max_right _ _

theorem FloatExponent_le_of_abs_lt_of_ne (x : ℚ) (e : ℤ) (hx : x ≠ 0) (he : -126 ≤ e)
    (h : |x| < 2 ^ (e + 1)) : FloatExponent x ≤ e := by
  unfold FloatExponent
  apply max_le _ he
  have hpos : 0 < |x| := abs_pos.mpr hx
  have := (Int.lt_zpow_iff_log_lt (b := 2) (x := e + 1) (r := |x|) (by norm_num) hpos).mp
    (by simpa using h)
  omega

/-- A float32 value is a multiple of the spacing of its binade. -/
theorem IsFloat_eq_mul {B : ℚ} (hB : IsFloat B) :
    B = (RoundHalfEven (B / 2 ^ (FloatExponent B - 23)) : ℚ) * 2 ^ (FloatExponent B - 23) := by
  have h : RoundFloat B = B := hB
  unfold RoundFloat at h
  exact h.symm

/-- A float32 value is a multiple of every spacing that is not coarser than its own. -/
theorem IsFloat_multiple_of_le {B : ℚ} (hB : IsFloat B) {e : ℤ} (he : e ≤ FloatExponent B) :
    ∃ k : ℤ, B = (k : ℚ) * 2 ^ (e - 23) := by
  obtain ⟨n, hn⟩ : ∃ n : ℕ, (n : ℤ) = FloatExponent B - e := ⟨(FloatExponent B - e).toNat, by omega⟩
  obtain ⟨m, hm⟩ : ∃ m : ℤ, B = (m : ℚ) * 2 ^ (FloatExponent B - 23) := ⟨_, IsFloat_eq_mul hB⟩
  refine ⟨m * 2 ^ n, ?_⟩
  have hsplit : (2 : ℚ) ^ (FloatExponent B - 23) = 2 ^ n * 2 ^ (e - 23) := by
    have : FloatExponent B - 23 = (n : ℤ) + (e - 23) := by omega
    rw [this, zpow_add₀ (by norm_num), zpow_natCast]
  rw [hsplit] at hm
  rw [hm]
  push_cast
  ring

/-- Every float32 value is a multiple of `2 ^ (-149)`. -/
theorem IsFloat_multiple_of_min {B : ℚ} (hB : IsFloat B) :
    ∃ k : ℤ, B = (k : ℚ) * 2 ^ (-149 : ℤ) := by
  obtain ⟨k, hk⟩ := IsFloat_multiple_of_le hB (FloatExponent_ge B)
  exact ⟨k, by simpa using hk⟩

theorem two_zpow_neg_150 : (2 : ℚ) ^ (-150 : ℤ) = 2 ^ (-149 : ℤ) / 2 := by
  rw [show (-150 : ℤ) = -149 - 1 by norm_num, zpow_sub_one₀ (by norm_num)]
  ring

theorem FloatExponent_zero : FloatExponent 0 = 0 := by
  unfold FloatExponent
  simp [Int.log_zero_right]

theorem min_quantum_le (x : ℚ) : (2 : ℚ) ^ (-149 : ℤ) ≤ 2 ^ (FloatExponent x - 23) := by
  apply zpow_le_zpow_right₀ (by norm_num)
  have := FloatExponent_ge x
  omega

/-- A float32 value below zero is at most `-2 ^ (-149)`. -/
theorem IsFloat_le_neg_min {B : ℚ} (hB : IsFloat B) (hneg : B < 0) : B ≤ -2 ^ (-149 : ℤ) := by
  obtain ⟨k, hk⟩ := IsFloat_multiple_of_min hB
  have hq : (0 : ℚ) < 2 ^ (-149 : ℤ) := by positivity
  have hk0 : k < 0 := by
    by_contra hge
    push_neg at hge
    have : (0 : ℚ) ≤ (k : ℚ) * 2 ^ (-149 : ℤ) :=
      mul_nonneg (by exact_mod_cast hge) (le_of_lt hq)
    rw [← hk] at this
    exact absurd hneg (not_lt.mpr this)
  have hk1 : (k : ℚ) ≤ -1 := by exact_mod_cast (by omega : k ≤ -1)
  rw [hk]
  nlinarith

/-- A positive float32 value stays one spacing below the end of its binade. -/
theorem IsFloat_add_quantum_le {B : ℚ} (hB : IsFloat B) :
    B + 2 ^ (FloatExponent B - 23) ≤ 2 ^ (FloatExponent B + 1) := by
  have hq := FloatQuantum_pos B
  obtain ⟨m, hm⟩ : ∃ m : ℤ, B = (m : ℚ) * 2 ^ (FloatExponent B - 23) := ⟨_, IsFloat_eq_mul hB⟩
  have hlt : B < 2 ^ (FloatExponent B + 1) :=
    lt_of_le_of_lt (le_abs_self B) (abs_lt_two_zpow_FloatExponent B)
  rw [(two_zpow_split (FloatExponent B)).1] at hlt ⊢
  have hm24 : m < 2 ^ 24 := by
    by_contra hge
    push_neg at hge
    have h1 : ((2 ^ 24 : ℤ) : ℚ) ≤ (m : ℚ) := by exact_mod_cast hge
    have h2 : ((2 ^ 24 : ℤ) : ℚ) * 2 ^ (FloatExponent B - 23) ≤
        (m : ℚ) * 2 ^ (FloatExponent B - 23) :=
      mul_le_mul_of_nonneg_right h1 (le_of_lt hq)
    rw [← hm] at h2
    exact absurd hlt (not_lt.mpr h2)
  have h3 : (m : ℚ) + 1 ≤ ((2 ^ 24 : ℤ) : ℚ) := by exact_mod_cast (by omega : m + 1 ≤ 2 ^ 24)
  have h4 := mul_le_mul_of_nonneg_right h3 (le_of_lt hq)
  generalize (2 : ℚ) ^ (FloatExponent B - 23) = Q at *
  rw [hm]
  linarith

/-- A number less than half the finest spacing above a float32 value does not round to a
value above it. -/
theorem RoundFloat_le_of_lt_add {B y : ℚ} (hB : IsFloat B) (h : y < B + 2 ^ (-150 : ℤ)) :
    RoundFloat y ≤ B := by
  rcases le_or_lt y B with hyB | hyB
  · have := RoundFloat_mono hyB
    rw [hB] at this
    exact this
  · have hq0 : (0 : ℚ) < 2 ^ (-149 : ℤ) := by positivity
    have hEy : FloatExponent y ≤ FloatExponent B := by
      rcases lt_trichotomy B 0 with hneg | hzero | hpos
      · have hB1 := IsFloat_le_neg_min hB hneg
        rw [two_zpow_neg_150] at h
        have hy : y < 0 := by
          generalize (2 : ℚ) ^ (-149 : ℤ) = q at *
          linarith
        apply FloatExponent_mono_abs (ne_of_lt hy)
        rw [abs_of_neg hy, abs_of_neg hneg]
        linarith
      · subst hzero
        rw [FloatExponent_zero]
        apply FloatExponent_le_of_abs_lt y 0 (le_refl _)
        rw [abs_of_pos hyB]
        rw [two_zpow_neg_150] at h
        have h1 : (2 : ℚ) ^ (-149 : ℤ) ≤ 2 ^ (0 : ℤ) := zpow_le_zpow_right₀ (by norm_num) (by norm_num)
        have h2 : (2 : ℚ) ^ ((0 : ℤ) + 1) = 2 := by norm_num
        rw [h2]
        simp only [zpow_zero] at h1
        generalize (2 : ℚ) ^ (-149 : ℤ) = q at *
        linarith
      · have hy : 0 < y := lt_trans hpos hyB
        apply FloatExponent_le_of_abs_lt_of_ne y _ (ne_of_gt hy) (FloatExponent_ge B)
        rw [abs_of_pos hy]
        have h1 := IsFloat_add_quantum_le hB
        have h2 := min_quantum_le B
        rw [two_zpow_neg_150] at h
        generalize (2 : ℚ) ^ (-149 : ℤ) = q at *
        linarith
    obtain ⟨k, hk⟩ := IsFloat_multiple_of_le hB hEy
    have hq := FloatQuantum_pos y
    have hmin := min_quantum_le y
    have hr : RoundHalfEven (y / 2 ^ (FloatExponent y - 23)) = k := by
      apply RoundHalfEven_of_lt_half
      · rw [le_div_iff₀ hq, ← hk]
        exact le_of_lt hyB
      · rw [div_lt_iff₀ hq, add_mul, ← hk]
        rw [two_zpow_neg_150] at h
        generalize (2 : ℚ) ^ (-149 : ℤ) = q at *
        linarith
    unfold RoundFloat
    rw [hr, ← hk]

/-- Rounding to the nearest integer, ties to even, is odd. -/
theorem RoundHalfEven_neg (y : ℚ) : RoundHalfEven (-y) = -RoundHalfEven y := by
  have h1 : (⌊y⌋ : ℚ) ≤ y := Int.floor_le y
  have h2 : y < (⌊y⌋ : ℚ) + 1 := Int.lt_floor_add_one y
  rcases eq_or_lt_of_le h1 with heq | hlt
  · obtain ⟨n, hn⟩ : ∃ n : ℤ, y = (n : ℚ) := ⟨⌊y⌋, heq.symm⟩
    rw [hn, ← Int.cast_neg, RoundHalfEven_intCast, RoundHalfEven_intCast]
  · have hfloor : ⌊-y⌋ = -⌊y⌋ - 1 := by
      rw [Int.floor_eq_iff]
      push_cast
      constructor <;> linarith
    unfold RoundHalfEven
    simp only [hfloor]
    push_cast
    by_cases ha : y - ⌊y⌋ < 1 / 2
    · rw [if_pos ha, if_neg (by linarith), if_pos (by linarith)]
      ring
    · rw [if_neg ha]
      by_cases hb : y - ⌊y⌋ > 1 / 2
      · rw [if_pos hb, if_pos (by linarith)]
        ring
      · rw [if_neg hb, if_neg (by linarith), if_neg (by linarith)]
        by_cases hc : ⌊y⌋ % 2 = 0
        · rw [if_pos hc, if_neg (by omega)]
          ring
        · rw [if_neg hc, if_pos (by omega)]
          ring

theorem RoundFloat_neg (x : ℚ) : RoundFloat (-x) = -RoundFloat x := by
  unfold RoundFloat
  rw [FloatExponent_neg, neg_div, RoundHalfEven_neg]
  push_cast
  ring

theorem IsFloat_neg {B : ℚ} (hB : IsFloat B) : IsFloat (-B) := by
  unfold IsFloat at hB ⊢
  rw [RoundFloat_neg, hB]

/-- A number less than half the finest spacing below a float32 value does not round to a
value below it. -/
theorem le_RoundFloat_of_sub_lt {B y : ℚ} (hB : IsFloat B) (h : B - 2 ^ (-150 : ℤ) < y) :
    B ≤ RoundFloat y := by
  have h1 : -y < -B + 2 ^ (-150 : ℤ) := by linarith
  have h2 := RoundFloat_le_of_lt_add (IsFloat_neg hB) h1
  rw [RoundFloat_neg] at h2
  linarith

theorem FloatExponent_eq_of_bounds_of_ge (x : ℚ) (e : ℤ) (he : -126 ≤ e) (hlo : 2 ^ e ≤ |x|)
    (hhi : |x| < 2 ^ (e + 1)) : FloatExponent x = e := by
  have hpos : 0 < |x| := lt_of_lt_of_le (by positivity) hlo
  apply le_antisymm (FloatExponent_le_of_abs_lt_of_ne x e (abs_pos.mp hpos) he hhi)
  have := (Int.zpow_le_iff_le_log (b := 2) (x := e) (r := |x|) (by norm_num) hpos).mp
    (by simpa using hlo)
  exact le_trans this (le_max_left _ _)

/-- A rounded value is within half the spacing of the binade of its argument. -/
theorem RoundFloat_near (z : ℚ) :
    RoundFloat z - 2 ^ (FloatExponent z - 23) / 2 ≤ z ∧
      z ≤ RoundFloat z + 2 ^ (FloatExponent z - 23) / 2 := by
  have hq := FloatQuantum_pos z
  obtain ⟨n1, n2⟩ := RoundHalfEven_near (z / 2 ^ (FloatExponent z - 23))
  rw [le_div_iff₀ hq] at n1
  rw [div_le_iff₀ hq] at n2
  unfold RoundFloat
  constructor <;> linarith

/-- Half a float32 value is a float32 value up to half the finest spacing. -/
theorem RoundFloat_half_near {X : ℚ} (hX : IsFloat X) :
    RoundFloat (X / 2) - 2 ^ (-150 : ℤ) ≤ X / 2 ∧ X / 2 ≤ RoundFloat (X / 2) + 2 ^ (-150 : ℤ) := by
  by_cases hE : FloatExponent (X / 2) = -126
  · have h := RoundFloat_near (X / 2)
    rw [hE] at h
    have h149 : (-126 : ℤ) - 23 = -149 := by norm_num
    rw [h149, ← two_zpow_neg_150] at h
    exact h
  · have hgt : -126 < FloatExponent (X / 2) :=
      lt_of_le_of_ne (FloatExponent_ge _) (Ne.symm hE)
    suffices hfix : RoundFloat (X / 2) = X / 2 by
      rw [hfix]
      have : (0 : ℚ) < 2 ^ (-150 : ℤ) := by positivity
      constructor <;> linarith
    by_cases hz : X / 2 = 0
    · rw [hz, RoundFloat_zero]
    · have hlo := two_zpow_FloatExponent_le_abs (X / 2) hz hgt
      have hhi := abs_lt_two_zpow_FloatExponent (X / 2)
      have habs : |X / 2| = |X| / 2 := by
        rw [abs_div]
        norm_num
      rw [habs] at hlo hhi
      have hEX : FloatExponent X = FloatExponent (X / 2) + 1 := by
        apply FloatExponent_eq_of_bounds_of_ge X _ (by omega)
        · rw [zpow_add_one₀ (by norm_num)]
          linarith
        · rw [zpow_add_one₀ (by norm_num)]
          linarith
      obtain ⟨m, hm⟩ : ∃ m : ℤ, X = (m : ℚ) * 2 ^ (FloatExponent X - 23) := ⟨_, IsFloat_eq_mul hX⟩
      apply RoundFloat_of_multiple _ m
      have hexp : FloatExponent X - 23 = (FloatExponent (X / 2) - 23) + 1 := by omega
      rw [hexp, zpow_add_one₀ (by norm_num)] at hm
      generalize (2 : ℚ) ^ (FloatExponent (X / 2) - 23) = Q at *
      rw [hm]
      ring

/-- With float32 values `B` and `X`: when the float32 sum `t + X/2` is above `B`, the exact
sum is at least `B`. -/
theorem le_of_lt_FloatAdd_FloatDiv {t X B : ℚ} (hB : IsFloat B) (hX : IsFloat X)
    (h : B < FloatAdd t (FloatDiv X 2)) : B ≤ t + X / 2 := by
  by_contra hlt
  push_neg at hlt
  have hnear := (RoundFloat_half_near hX).1
  have h1 : t + RoundFloat (X / 2) < B + 2 ^ (-150 : ℤ) := by linarith
  have h2 := RoundFloat_le_of_lt_add hB h1
  exact absurd h (not_lt.mpr h2)

/-- With float32 values `B` and `X`: when the float32 difference `t - X/2` is below `B`, the
exact difference is at most `B`. -/
theorem le_of_FloatSub_FloatDiv_lt {t X B : ℚ} (hB : IsFloat B) (hX : IsFloat X)
    (h : FloatSub t (FloatDiv X 2) < B) : t - X / 2 ≤ B := by
  by_contra hlt
  push_neg at hlt
  have hnear := (RoundFloat_half_near hX).1
  have h1 : B - 2 ^ (-150 : ℤ) < t - RoundFloat (X / 2) := by linarith
  have h2 := le_RoundFloat_of_sub_lt hB h1
  exact absurd h (not_lt.mpr h2)

/-- Every rounded value is a multiple of `2 ^ (-149)`. -/
theorem RoundFloat_multiple_of_min (z : ℚ) : ∃ k : ℤ, RoundFloat z = (k : ℚ) * 2 ^ (-149 : ℤ) := by
  obtain ⟨n, hn⟩ : ∃ n : ℕ, (n : ℤ) = FloatExponent z + 126 :=
    ⟨(FloatExponent z + 126).toNat, by have := FloatExponent_ge z; omega⟩
  refine ⟨RoundHalfEven (z / 2 ^ (FloatExponent z - 23)) * 2 ^ n, ?_⟩
  have hsplit : (2 : ℚ) ^ (FloatExponent z - 23) = 2 ^ n * 2 ^ (-149 : ℤ) := by
    have : FloatExponent z - 23 = (n : ℤ) + (-149) := by omega
    rw [this, zpow_add₀ (by norm_num), zpow_natCast]
  unfold RoundFloat
  generalize RoundHalfEven (z / 2 ^ (FloatExponent z - 23)) = m
  rw [hsplit]
  push_cast
  ring

/-- Two float32 values and a float32 sum: a positive difference is at least the finest
spacing. -/
theorem min_quantum_le_of_lt {t d B : ℚ} (ht : IsFloat t) (hB : IsFloat B)
    (h : B < t + RoundFloat d) : B + 2 ^ (-149 : ℤ) ≤ t + RoundFloat d := by
  obtain ⟨a, ha⟩ := IsFloat_multiple_of_min ht
  obtain ⟨b, hb⟩ := RoundFloat_multiple_of_min d
  obtain ⟨c, hc⟩ := IsFloat_multiple_of_min hB
  have hq : (0 : ℚ) < 2 ^ (-149 : ℤ) := by positivity
  rw [ha, hb, hc] at h ⊢
  generalize (2 : ℚ) ^ (-149 : ℤ) = q at *
  have h1 : (c : ℚ) < (a : ℚ) + b := by
    by_contra hle
    push_neg at hle
    have := mul_le_mul_of_nonneg_right hle (le_of_lt hq)
    linarith
  have h2 : (c : ℚ) + 1 ≤ (a : ℚ) + b := by exact_mod_cast (by exact_mod_cast h1 : c < a + b)
  have := mul_le_mul_of_nonneg_right h2 (le_of_lt hq)
  linarith

/-- With float32 values `B`, `X` and `t`: when the float32 sum `t + X/2` is above `B`, so
is the exact sum. -/
theorem lt_of_lt_FloatAdd_FloatDiv {t X B : ℚ} (hB : IsFloat B) (hX : IsFloat X)
    (ht : IsFloat t) (h : B < FloatAdd t (FloatDiv X 2)) : B < t + X / 2 := by
  have h1 : B < t + RoundFloat (X / 2) := lt_of_lt_FloatAdd hB h
  have h2 := min_quantum_le_of_lt ht hB h1
  have hnear := (RoundFloat_half_near hX).1
  rw [two_zpow_neg_150] at hnear
  have hq : (0 : ℚ) < 2 ^ (-149 : ℤ) := by positivity
  generalize (2 : ℚ) ^ (-149 : ℤ) = q at *
  linarith

/-- With float32 values `B`, `X` and `t`: when the float32 difference `t - X/2` is below
`B`, so is the exact difference. -/
theorem lt_of_FloatSub_FloatDiv_lt {t X B : ℚ} (hB : IsFloat B) (hX : IsFloat X)
    (ht : IsFloat t) (h : FloatSub t (FloatDiv X 2) < B) : t - X / 2 < B := by
  have h1 : t - RoundFloat (X / 2) < B := lt_of_FloatSub_lt hB h
  have h1' : -B < -t + RoundFloat (X / 2) := by linarith
  have h2 := min_quantum_le_of_lt (IsFloat_neg ht) (IsFloat_neg hB) h1'
  have hnear := (RoundFloat_half_near hX).1
  rw [two_zpow_neg_150] at hnear
  have hq : (0 : ℚ) < 2 ^ (-149 : ℤ) := by positivity
  generalize (2 : ℚ) ^ (-149 : ℤ) = q at *
  linarith

/-! ## The three intersection tests -/

/-- C3: `IntersectSection` holds exactly when the section starts no later than `EndTime`
and ends no earlier than `StartTime`; a section that meets the interval only at its end
(`EndTime` of the section equal to `StartTime`) or only at its start intersects. -/
theorem IntersectSection_inclusive (r : FSequencerEntityRange) (s : UMovieSceneSection) :
    (r.IntersectSection s = true ↔ s.StartTime ≤ r.EndTime ∧ s.EndTime ≥ r.StartTime) ∧
    (s.EndTime = r.StartTime → s.StartTime ≤ r.EndTime → r.IntersectSection s = true) ∧
    (s.StartTime = r.EndTime → s.EndTime ≥ r.StartTime → r.IntersectSection s = true) := by
  have key : r.IntersectSection s = true ↔
      s.StartTime ≤ r.EndTime ∧ s.EndTime ≥ r.StartTime := by
    simp [FSequencerEntityRange.IntersectSection]
  refine ⟨key, ?_, ?_⟩
  · intro h1 h2
    exact key.mpr ⟨h2, ge_of_eq h1⟩
  · intro h1 h2
    exact key.mpr ⟨le_of_eq h1, h2⟩

/-- Witness for C3: the section `[0, 1]` touches the range `[1, 2]` at its end. -/
theorem IntersectSection_inclusive_witness :
    FSequencerEntityRange.IntersectSection ⟨1, 2, none, none⟩ ⟨0, 1⟩ = true :=
  (IntersectSection_inclusive ⟨1, 2, none, none⟩ ⟨0, 1⟩).2.1 rfl (by norm_num)

/-- C5: for a range with vertical extent `[top, bottom]`, `IntersectNode` holds exactly when
the node's top is at or before the extent's bottom and its bottom is at or after the
extent's top, both bounds included; a node touching the extent at a single edge intersects. -/
theorem IntersectNode_inclusive (StartTime EndTime top bottom : ℚ)
    (InNode : FSequencerDisplayNode) :
    let r : FSequencerEntityRange := ⟨StartTime, EndTime, some top, some bottom⟩
    (r.IntersectNode InNode = true ↔
      InNode.GetVirtualTop ≤ bottom ∧ InNode.GetVirtualBottom ≥ top) ∧
    (InNode.GetVirtualTop = bottom → InNode.GetVirtualBottom ≥ top →
      r.IntersectNode InNode = true) ∧
    (InNode.GetVirtualBottom = top → InNode.GetVirtualTop ≤ bottom →
      r.IntersectNode InNode = true) := by
  intro r
  have key : r.IntersectNode InNode = true ↔
      InNode.GetVirtualTop ≤ bottom ∧ InNode.GetVirtualBottom ≥ top := by
    simp [r, FSequencerEntityRange.IntersectNode, GetValue]
  refine ⟨key, ?_, ?_⟩
  · intro h1 h2
    exact key.mpr ⟨le_of_eq h1, h2⟩
  · intro h1 h2
    exact key.mpr ⟨h2, ge_of_eq h1⟩

/-- Witness for C5: a node occupying `[5, 9]` touches the extent `[0, 5]` at its bottom edge. -/
theorem IntersectNode_inclusive_witness :
    FSequencerEntityRange.IntersectNode ⟨0, 1, some 0, some 5⟩
      (.mk .Track false false 5 9 [] false (fun _ => ⟨[], fun _ => 0⟩)
        (fun _ => ⟨[], fun _ => 0⟩) []) = true :=
  (IntersectNode_inclusive 0 1 0 5
    (.mk .Track false false 5 9 [] false (fun _ => ⟨[], fun _ => 0⟩)
      (fun _ => ⟨[], fun _ => 0⟩) [])).2.1 rfl (by norm_num [FSequencerDisplayNode.GetVirtualBottom])

/-- C6: the range built from a `TRange` takes its two bound values, has no vertical extent,
and then `IntersectNode` and `IntersectKeyArea` accept every node and every key height; the
range built from two corners takes `X` for the times and `Y` for the vertical extent. -/
theorem FSequencerEntityRange_constructors :
    (∀ InRange : TRange,
      (FSequencerEntityRange.ofRange InRange).StartTime = InRange.LowerBoundValue ∧
      (FSequencerEntityRange.ofRange InRange).EndTime = InRange.UpperBoundValue ∧
      (FSequencerEntityRange.ofRange InRange).VerticalTop = none ∧
      (FSequencerEntityRange.ofRange InRange).VerticalBottom = none ∧
      ∀ (InNode : FSequencerDisplayNode) (VirtualKeyHeight : ℚ),
        (FSequencerEntityRange.ofRange InRange).IntersectNode InNode = true ∧
        (FSequencerEntityRange.ofRange InRange).IntersectKeyArea InNode VirtualKeyHeight
          = true) ∧
    (∀ TopLeft BottomRight : FVector2D,
      (FSequencerEntityRange.ofCorners TopLeft BottomRight).StartTime = TopLeft.X ∧
      (FSequencerEntityRange.ofCorners TopLeft BottomRight).EndTime = BottomRight.X ∧
      (FSequencerEntityRange.ofCorners TopLeft BottomRight).VerticalTop = some TopLeft.Y ∧
      (FSequencerEntityRange.ofCorners TopLeft BottomRight).VerticalBottom
        = some BottomRight.Y) := by
  refine ⟨fun InRange => ⟨rfl, rfl, rfl, rfl, fun InNode h => ⟨rfl, rfl⟩⟩,
    fun TopLeft BottomRight => ⟨rfl, rfl, rfl, rfl⟩⟩

/-! ## Keys -/

/-- Membership in the output of `HandleKeyArea`. -/
theorem mem_HandleKeyArea (w : FSequencerEntityWalker) (KeyArea : IKeyArea)
    (Section : UMovieSceneSection) (c : Call) :
    c ∈ w.HandleKeyArea KeyArea Section ↔
      ∃ h ∈ KeyArea.GetUnsortedKeyHandles,
        (FloatAdd (KeyArea.GetKeyTime h) (FloatDiv w.VirtualKeySize.X 2)
            > w.Range.StartTime ∧
          FloatSub (KeyArea.GetKeyTime h) (FloatDiv w.VirtualKeySize.X 2)
            < w.Range.EndTime) ∧
        c = Call.VisitKey h (KeyArea.GetKeyTime h) KeyArea Section := by
  unfold HandleKeyArea
  simp only [List.mem_flatMap]
  constructor
  · rintro ⟨h, hh, hc⟩
    by_cases hcond :
        FloatAdd (KeyArea.GetKeyTime h) (FloatDiv w.VirtualKeySize.X 2)
            > w.Range.StartTime ∧
          FloatSub (KeyArea.GetKeyTime h) (FloatDiv w.VirtualKeySize.X 2)
            < w.Range.EndTime
    · rw [if_pos hcond] at hc
      exact ⟨h, hh, hcond, List.mem_singleton.mp hc⟩
    · rw [if_neg hcond] at hc
      cases hc
  · rintro ⟨h, hh, hcond, rfl⟩
    refine ⟨h, hh, ?_⟩
    rw [if_pos hcond]
    exact List.mem_singleton.mpr rfl

/-- A key call with the key's own time is made exactly for the handles of the key area
that pass the strict test on the float32 sums. -/
theorem VisitKey_mem_HandleKeyArea_iff (w : FSequencerEntityWalker) (KeyArea : IKeyArea)
    (Section : UMovieSceneSection) (h : FKeyHandle) :
    Call.VisitKey h (KeyArea.GetKeyTime h) KeyArea Section ∈ w.HandleKeyArea KeyArea Section ↔
      h ∈ KeyArea.GetUnsortedKeyHandles ∧
      (FloatAdd (KeyArea.GetKeyTime h) (FloatDiv w.VirtualKeySize.X 2)
          > w.Range.StartTime ∧
        FloatSub (KeyArea.GetKeyTime h) (FloatDiv w.VirtualKeySize.X 2)
          < w.Range.EndTime) := by
  rw [mem_HandleKeyArea]
  constructor
  · rintro ⟨h', hh', hcond, heq⟩
    injection heq with e1 e2 e3 e4
    subst e1
    exact ⟨hh', hcond⟩
  · rintro ⟨hh, hcond⟩
    exact ⟨h, hh, hcond, rfl⟩

/-- C4, as stated, fails: with key width `2` and range `[1, 5]`, the key at time `0` has
`t + w/2 = StartTime` and `t - w/2 ≤ EndTime`, and `HandleKeyArea` makes no call. -/
theorem HandleKeyArea_edge_not_visited :
    ((0 : ℚ) + 2 / 2 ≥ 1 ∧ (0 : ℚ) - 2 / 2 ≤ 5) ∧
    FSequencerEntityWalker.HandleKeyArea ⟨⟨1, 5, none, none⟩, ⟨2, 2⟩⟩
      ⟨[7], fun _ => 0⟩ ⟨0, 10⟩ = [] := by
  refine ⟨by norm_num, ?_⟩
  norm_num [HandleKeyArea, FloatAdd, FloatSub, FloatDiv, RoundFloat_one]

/-- C4, amended: `HandleKeyArea` calls `VisitKey` for the key `h` of the key area, with its
own key time `t`, exactly when the float32 sum `t + w/2` is greater than `StartTime` and
the float32 difference `t - w/2` is less than `EndTime`.  When `StartTime`, `EndTime`, `w`
and `t` are float32 values, a visited key has `t + w/2 > StartTime` and
`t - w/2 < EndTime` in exact numbers: both bounds are strict, and a key with
`t + w/2 = StartTime` or `t - w/2 = EndTime` is not visited. -/
theorem HandleKeyArea_visits_iff_strict (w : FSequencerEntityWalker) (KeyArea : IKeyArea)
    (Section : UMovieSceneSection) (h : FKeyHandle) :
    (Call.VisitKey h (KeyArea.GetKeyTime h) KeyArea Section ∈
        w.HandleKeyArea KeyArea Section ↔
      h ∈ KeyArea.GetUnsortedKeyHandles ∧
      FloatAdd (KeyArea.GetKeyTime h) (FloatDiv w.VirtualKeySize.X 2) > w.Range.StartTime ∧
      FloatSub (KeyArea.GetKeyTime h) (FloatDiv w.VirtualKeySize.X 2) < w.Range.EndTime) ∧
    (FloatInputs w → IsFloat (KeyArea.GetKeyTime h) →
      (Call.VisitKey h (KeyArea.GetKeyTime h) KeyArea Section ∈
          w.HandleKeyArea KeyArea Section →
        KeyArea.GetKeyTime h + w.VirtualKeySize.X / 2 > w.Range.StartTime ∧
        KeyArea.GetKeyTime h - w.VirtualKeySize.X / 2 < w.Range.EndTime) ∧
      ((KeyArea.GetKeyTime h + w.VirtualKeySize.X / 2 = w.Range.StartTime ∨
          KeyArea.GetKeyTime h - w.VirtualKeySize.X / 2 = w.Range.EndTime) →
        Call.VisitKey h (KeyArea.GetKeyTime h) KeyArea Section ∉
          w.HandleKeyArea KeyArea Section)) := by
  have hiff := VisitKey_mem_HandleKeyArea_iff w KeyArea Section h
  have hexact : FloatInputs w → IsFloat (KeyArea.GetKeyTime h) →
      Call.VisitKey h (KeyArea.GetKeyTime h) KeyArea Section ∈
          w.HandleKeyArea KeyArea Section →
        KeyArea.GetKeyTime h + w.VirtualKeySize.X / 2 > w.Range.StartTime ∧
        KeyArea.GetKeyTime h - w.VirtualKeySize.X / 2 < w.Range.EndTime := by
    rintro ⟨hS, hE, hX⟩ ht hmem
    obtain ⟨-, h1, h2⟩ := hiff.mp hmem
    exact ⟨lt_of_lt_FloatAdd_FloatDiv hS hX ht h1, lt_of_FloatSub_FloatDiv_lt hE hX ht h2⟩
  refine ⟨hiff, fun hw ht => ⟨hexact hw ht, ?_⟩⟩
  intro hedge hmem
  obtain ⟨h1, h2⟩ := hexact hw ht hmem
  rcases hedge with hedge | hedge
  · rw [hedge] at h1
    exact lt_irrefl _ h1
  · rw [hedge] at h2
    exact lt_irrefl _ h2

/-- Witness for C4 (amended): on `sampleWalker` (interval `[1, 5]`, key width `2`) the key
`7` of `oneKey` at time `3` is visited, and `3 + 1 > 1`, `3 - 1 < 5`; the key of `edgeKey`
at time `0`, with `0 + 1 = StartTime`, is not visited. -/
theorem HandleKeyArea_visits_iff_strict_witness :
    FloatInputs sampleWalker ∧ IsFloat (oneKey.GetKeyTime 7) ∧ IsFloat (edgeKey.GetKeyTime 7) ∧
    Call.VisitKey 7 3 oneKey ⟨0, 10⟩ ∈ sampleWalker.HandleKeyArea oneKey ⟨0, 10⟩ ∧
    (3 : ℚ) + sampleWalker.VirtualKeySize.X / 2 > sampleWalker.Range.StartTime ∧
    (3 : ℚ) - sampleWalker.VirtualKeySize.X / 2 < sampleWalker.Range.EndTime ∧
    Call.VisitKey 7 0 edgeKey ⟨0, 10⟩ ∉ sampleWalker.HandleKeyArea edgeKey ⟨0, 10⟩ := by
  have hw : FloatInputs sampleWalker := by
    norm_num [FloatInputs, IsFloat, sampleWalker, RoundFloat_one, RoundFloat_two,
      RoundFloat_five]
  have ht : IsFloat (oneKey.GetKeyTime 7) := by
    have h3 : RoundFloat 3 = 3 := by
      simpa using RoundFloat_intCast 3 (by norm_num)
    simpa [IsFloat, oneKey] using h3
  have ht0 : IsFloat (edgeKey.GetKeyTime 7) := by
    simpa [IsFloat, edgeKey] using RoundFloat_zero
  have hmem : Call.VisitKey 7 3 oneKey ⟨0, 10⟩ ∈
      sampleWalker.HandleKeyArea oneKey ⟨0, 10⟩ := by
    norm_num [HandleKeyArea, sampleWalker, oneKey, FloatAdd, FloatSub, FloatDiv,
      RoundFloat_one, RoundFloat_two, RoundFloat_four]
  have hin := ((HandleKeyArea_visits_iff_strict sampleWalker oneKey ⟨0, 10⟩ 7).2 hw ht).1 hmem
  have hedge := ((HandleKeyArea_visits_iff_strict sampleWalker edgeKey ⟨0, 10⟩ 7).2 hw ht0).2
    (Or.inl (by norm_num [sampleWalker, edgeKey]))
  exact ⟨hw, ht, ht0, hmem, hin.1, hin.2, hedge⟩

/-! ## Soundness of the traversal -/

theorem mem_of_mem_ite {α : Type} {p : Prop} [Decidable p] {l : List α} {c : α}
    (h : c ∈ if p then l else []) : c ∈ l := by
  split at h
  · exact h
  · cases h

theorem SectionInRange_of_IntersectSection (w : FSequencerEntityWalker)
    (s : UMovieSceneSection) (h : w.Range.IntersectSection s = true) : SectionInRange w s := by
  simpa [FSequencerEntityRange.IntersectSection, SectionInRange] using h

theorem HandleKeyArea_InRange (w : FSequencerEntityWalker) (hw : FloatInputs w) (KeyArea : IKeyArea)
    (Section : UMovieSceneSection) (hs : SectionInRange w Section) :
    ∀ c ∈ w.HandleKeyArea KeyArea Section, c.InRange w := by
  intro c hc
  obtain ⟨h, -, ⟨h1, h2⟩, rfl⟩ := (mem_HandleKeyArea w KeyArea Section c).mp hc
  obtain ⟨hS, hE, hX⟩ := hw
  exact ⟨hs, le_of_lt_FloatAdd_FloatDiv hS hX h1, le_of_FloatSub_FloatDiv_lt hE hX h2⟩

theorem HandleKeyAreaNodeFrom_InRange (w : FSequencerEntityWalker) (hw : FloatInputs w)
    (KeyAreaNode : FSequencerDisplayNode) (InSections : List ISequencerSection) :
    ∀ (i : Nat), ∀ c ∈ HandleKeyAreaNodeFrom w KeyAreaNode i InSections, c.InRange w := by
  induction InSections with
  | nil => intro i c hc; simp [HandleKeyAreaNodeFrom] at hc
  | cons s rest ih =>
    intro i c hc
    rw [HandleKeyAreaNodeFrom, List.mem_append] at hc
    rcases hc with hc | hc
    · by_cases hsec : w.Range.IntersectSection s.GetSectionObject = true
      · have hs := SectionInRange_of_IntersectSection w _ hsec
        rw [if_pos hsec, List.mem_cons] at hc
        rcases hc with rfl | hc
        · exact hs
        · split at hc
          · exact HandleKeyArea_InRange w hw _ _ hs c hc
          · cases hc
      · rw [if_neg hsec] at hc
        cases hc
    · exact ih (i + 1) c hc

theorem HandleFallbackFrom_InRange (w : FSequencerEntityWalker) (hw : FloatInputs w)
    (InNode : FSequencerDisplayNode) (InSections : List ISequencerSection) :
    ∀ (i : Nat), ∀ c ∈ HandleFallbackFrom w InNode i InSections, c.InRange w := by
  induction InSections with
  | nil => intro i c hc; simp [HandleFallbackFrom] at hc
  | cons s rest ih =>
    intro i c hc
    rw [HandleFallbackFrom, List.mem_append] at hc
    rcases hc with hc | hc
    · by_cases hsec : w.Range.IntersectSection s.GetSectionObject = true
      · have hs := SectionInRange_of_IntersectSection w _ hsec
        rw [if_pos hsec, List.mem_cons] at hc
        rcases hc with rfl | hc
        · exact hs
        · split at hc
          · exact HandleKeyArea_InRange w hw _ _ hs c hc
          · cases hc
      · rw [if_neg hsec] at hc
        cases hc
    · exact ih (i + 1) c hc

theorem HandleNodeSelf_InRange (w : FSequencerEntityWalker) (hw : FloatInputs w)
    (InNode : FSequencerDisplayNode)
    (InSections : List ISequencerSection) :
    ∀ c ∈ w.HandleNodeSelf InNode InSections, c.InRange w := by
  intro c hc
  unfold HandleNodeSelf at hc
  have hc := mem_of_mem_ite hc
  rw [List.mem_append] at hc
  rcases hc with hc | hc
  · exact HandleKeyAreaNodeFrom_InRange w hw InNode InSections 0 c (mem_of_mem_ite hc)
  · exact HandleFallbackFrom_InRange w hw InNode InSections 0 c (mem_of_mem_ite hc)

mutual
theorem HandleNodeSections_InRange (w : FSequencerEntityWalker) (hw : FloatInputs w) :
    ∀ (InNode : FSequencerDisplayNode) (InSections : List ISequencerSection),
      ∀ c ∈ w.HandleNodeSections InNode InSections, c.InRange w
  | .mk t h e top bot ss k ka g cs, InSections => by
    intro c hc
    rw [HandleNodeSections, List.mem_append] at hc
    rcases hc with hc | hc
    · exact HandleNodeSelf_InRange w hw _ InSections c hc
    · split at hc
      · exact HandleChildrenSections_InRange w hw cs InSections c hc
      · cases hc
theorem HandleChildrenSections_InRange (w : FSequencerEntityWalker) (hw : FloatInputs w) :
    ∀ (Nodes : List FSequencerDisplayNode) (InSections : List ISequencerSection),
      ∀ c ∈ w.HandleChildrenSections Nodes InSections, c.InRange w
  | [], _ => by
    intro c hc
    simp [HandleChildrenSections] at hc
  | Child :: rest, InSections => by
    intro c hc
    rw [HandleChildrenSections, List.mem_append] at hc
    rcases hc with hc | hc
    · split at hc
      · exact HandleNodeSections_InRange w hw Child InSections c hc
      · cases hc
    · exact HandleChildrenSections_InRange w hw rest InSections c hc
end

mutual
theorem HandleNode_InRange (w : FSequencerEntityWalker) (hw : FloatInputs w) :
    ∀ (InNode : FSequencerDisplayNode), ∀ c ∈ w.HandleNode InNode, c.InRange w
  | .mk t h e top bot ss k ka g cs => by
    intro c hc
    rw [HandleNode, List.mem_append] at hc
    rcases hc with hc | hc
    · split at hc
      · exact HandleNodeSections_InRange w hw _ ss c hc
      · cases hc
    · split at hc
      · exact Traverse_InRange w hw cs c hc
      · cases hc
theorem Traverse_InRange (w : FSequencerEntityWalker) (hw : FloatInputs w) :
    ∀ (Nodes : List FSequencerDisplayNode), ∀ c ∈ w.Traverse Nodes, c.InRange w
  | [] => by
    intro c hc
    simp [Traverse] at hc
  | Child :: rest => by
    intro c hc
    rw [Traverse, List.mem_append] at hc
    rcases hc with hc | hc
    · split at hc
      · exact HandleNode_InRange w hw Child c hc
      · cases hc
    · exact Traverse_InRange w hw rest c hc
end

/-- C1: every call made during `Traverse` is in range: a `VisitSection` call has a section
with `start ≤ EndTime` and `end ≥ StartTime`, and a `VisitKey` call has such a section and
a key time `t` with `t + KeyWidth/2 ≥ StartTime` and `t - KeyWidth/2 ≤ EndTime`, the sums
taken as exact numbers.  The walker is one the code can be given: its time bounds and its
key width are float32 values. -/
theorem Traverse_sound (w : FSequencerEntityWalker) (hw : FloatInputs w)
    (Nodes : List FSequencerDisplayNode) (c : Call) (hc : c ∈ w.Traverse Nodes) :
    c.InRange w :=
  Traverse_InRange w hw Nodes c hc

/-- Witness for C1: the key of the first key area row of `twoRowTrack` is visited on
`[1, 5]`, and is in range. -/
theorem Traverse_sound_witness :
    FloatInputs sampleWalker ∧
    Call.VisitKey 7 3 oneKey ⟨0, 10⟩ ∈ sampleWalker.Traverse [twoRowTrack] ∧
    (Call.VisitKey 7 3 oneKey ⟨0, 10⟩).InRange sampleWalker := by
  have hw : FloatInputs sampleWalker := by
    norm_num [FloatInputs, IsFloat, sampleWalker, RoundFloat_one, RoundFloat_two,
      RoundFloat_five]
  have hmem : Call.VisitKey 7 3 oneKey ⟨0, 10⟩ ∈ sampleWalker.Traverse [twoRowTrack] := by
    norm_num [Traverse, HandleNode, HandleNodeSections, HandleNodeSelf, HandleKeyAreaNode,
      HandleKeyAreaNodeFrom, HandleKeyArea, HandleChildrenSections, twoRowTrack, keyAreaRow,
      sampleWalker, sampleSection, oneKey, FloatAdd, FloatSub, FloatDiv, RoundFloat_one,
      RoundFloat_two, RoundFloat_four, FSequencerEntityRange.IntersectNode,
      FSequencerEntityRange.IntersectSection, FSequencerEntityRange.IntersectKeyArea,
      FSequencerDisplayNode.IsHidden, FSequencerDisplayNode.GetType,
      FSequencerDisplayNode.HasTopLevelKeyNode, FSequencerDisplayNode.GetKeyArea,
      FSequencerDisplayNode.IsExpanded, FSequencerDisplayNode.GetChildNodes,
      (by decide : ¬ ESequencerNode.Track = ESequencerNode.KeyArea)]
  exact ⟨hw, hmem, Traverse_sound sampleWalker hw [twoRowTrack] _ hmem⟩

/-! ## The fallback branch -/

theorem VisitedSections_append (l₁ l₂ : List Call) :
    VisitedSections (l₁ ++ l₂) = VisitedSections l₁ ++ VisitedSections l₂ := by
  induction l₁ with
  | nil => rfl
  | cons c rest ih =>
    cases c with
    | VisitSection s => simp [VisitedSections, ih]
    | VisitKey h t ka s => simp [VisitedSections, ih]

theorem VisitedSections_HandleKeyArea (w : FSequencerEntityWalker) (KeyArea : IKeyArea)
    (Section : UMovieSceneSection) :
    VisitedSections (w.HandleKeyArea KeyArea Section) = [] := by
  unfold HandleKeyArea
  induction KeyArea.GetUnsortedKeyHandles with
  | nil => rfl
  | cons h rest ih =>
    rw [List.flatMap_cons, VisitedSections_append, ih]
    simp only []
    split <;> rfl

theorem VisitedSections_HandleFallbackFrom (w : FSequencerEntityWalker)
    (InNode : FSequencerDisplayNode) (InSections : List ISequencerSection) :
    ∀ i : Nat, VisitedSections (HandleFallbackFrom w InNode i InSections) =
      (InSections.map ISequencerSection.GetSectionObject).filter w.Range.IntersectSection := by
  induction InSections with
  | nil => intro i; rfl
  | cons s rest ih =>
    intro i
    rw [HandleFallbackFrom, VisitedSections_append, ih (i + 1), List.map_cons]
    by_cases hsec : w.Range.IntersectSection s.GetSectionObject = true
    · rw [if_pos hsec, List.filter_cons_of_pos hsec]
      split
      · simp [VisitedSections, VisitedSections_HandleKeyArea]
      · simp [VisitedSections]
    · rw [if_neg hsec, List.filter_cons_of_neg hsec]
      rfl

/-- The self part of the three-argument `HandleNode` when the fallback branch is taken. -/
theorem HandleNodeSelf_fallback (w : FSequencerEntityWalker) (InNode : FSequencerDisplayNode)
    (InSections : List ISequencerSection)
    (hI : w.Range.IntersectNode InNode = true)
    (hA : InNode.GetType ≠ ESequencerNode.KeyArea)
    (hK : InNode.GetType = ESequencerNode.Track → InNode.HasTopLevelKeyNode = false)
    (hF : InNode.IsExpanded = false ∨ InNode.GetChildNodes = []) :
    w.HandleNodeSelf InNode InSections = HandleFallbackFrom w InNode 0 InSections := by
  unfold HandleNodeSelf
  rw [if_pos hI]
  have hb : (if InNode.GetType = ESequencerNode.KeyArea then true
      else if InNode.GetType = ESequencerNode.Track then InNode.HasTopLevelKeyNode
      else false) = false := by
    rw [if_neg hA]
    split
    · next hT => exact hK hT
    · rfl
  simp only [hb]
  rcases hF with hF | hF
  · simp [hF]
  · simp [hF]

/-- C9: for a collapsed track without top-level key node that intersects the range
vertically, the `VisitSection` calls of `HandleNode(Visitor, Node, Sections)` are exactly
the sections that intersect the time interval, each once, in increasing section index. -/
theorem HandleNodeSections_collapsed_track (w : FSequencerEntityWalker)
    (InNode : FSequencerDisplayNode) (InSections : List ISequencerSection)
    (hT : InNode.GetType = ESequencerNode.Track)
    (hE : InNode.IsExpanded = false)
    (hK : InNode.HasTopLevelKeyNode = false)
    (hI : w.Range.IntersectNode InNode = true) :
    VisitedSections (w.HandleNodeSections InNode InSections) =
      (InSections.map ISequencerSection.GetSectionObject).filter w.Range.IntersectSection := by
  have hself := HandleNodeSelf_fallback w InNode InSections hI (by rw [hT]; decide)
    (fun _ => hK) (Or.inl hE)
  cases InNode with
  | mk t h e top bot ss k ka g cs =>
    have he : e = false := hE
    rw [HandleNodeSections, hself, he]
    simp [VisitedSections_HandleFallbackFrom]

/-- Witness for C9: `collapsedTrack` on the interval `[1, 5]` reports its section `[0, 10]`
once and skips the section `[6, 8]`. -/
theorem HandleNodeSections_collapsed_track_witness :
    VisitedSections
      (sampleWalker.HandleNodeSections collapsedTrack [sampleSection, ⟨⟨6, 8⟩⟩]) =
      [⟨0, 10⟩] :=
  (HandleNodeSections_collapsed_track sampleWalker collapsedTrack [sampleSection, ⟨⟨6, 8⟩⟩]
    rfl rfl rfl rfl).trans
    (by norm_num [List.filter, FSequencerEntityRange.IntersectSection, sampleWalker,
      sampleSection])

theorem HandleFallbackFrom_grouped (w : FSequencerEntityWalker)
    (InNode : FSequencerDisplayNode) (InSections : List ISequencerSection)
    (hc : InNode.GetChildNodes ≠ [] ∧
      w.Range.IntersectKeyArea InNode w.VirtualKeySize.X = true) :
    ∀ i : Nat, HandleFallbackFrom w InNode i InSections =
      (InSections.enumFrom i).flatMap fun p =>
        if w.Range.IntersectSection p.2.GetSectionObject then
          Call.VisitSection p.2.GetSectionObject ::
            w.HandleKeyArea (InNode.UpdateKeyGrouping p.1) p.2.GetSectionObject
        else [] := by
  have hc' : InNode.GetChildNodes.length ≠ 0 ∧
      w.Range.IntersectKeyArea InNode w.VirtualKeySize.X = true :=
    ⟨fun h => hc.1 (List.length_eq_zero.mp h), hc.2⟩
  induction InSections with
  | nil => intro i; rfl
  | cons s rest ih =>
    intro i
    rw [HandleFallbackFrom, ih (i + 1), List.enumFrom_cons, List.flatMap_cons, if_pos hc']

theorem HandleFallbackFrom_ungrouped (w : FSequencerEntityWalker)
    (InNode : FSequencerDisplayNode) (InSections : List ISequencerSection)
    (hc : ¬ (InNode.GetChildNodes ≠ [] ∧
      w.Range.IntersectKeyArea InNode w.VirtualKeySize.X = true)) :
    ∀ i : Nat, HandleFallbackFrom w InNode i InSections =
      ((InSections.map ISequencerSection.GetSectionObject).filter
        w.Range.IntersectSection).map Call.VisitSection := by
  have hc' : ¬ (InNode.GetChildNodes.length ≠ 0 ∧
      w.Range.IntersectKeyArea InNode w.VirtualKeySize.X = true) :=
    fun h => hc ⟨fun h0 => h.1 (by rw [h0]; rfl), h.2⟩
  induction InSections with
  | nil => intro i; rfl
  | cons s rest ih =>
    intro i
    rw [HandleFallbackFrom, ih (i + 1), if_neg hc', List.map_cons]
    by_cases hsec : w.Range.IntersectSection s.GetSectionObject = true
    · rw [if_pos hsec, List.filter_cons_of_pos hsec]
      rfl
    · rw [if_neg hsec, List.filter_cons_of_neg hsec]
      rfl

/-- C10: in the fallback loop of `HandleNode`, the grouped key area
`UpdateKeyGrouping(SectionIndex)` of an intersecting section is run through `HandleKeyArea`
when the node has a child and `IntersectKeyArea(node, key size)` holds, and otherwise the
loop emits the `VisitSection` calls alone, whatever the grouped key areas hold; a childless
node that takes the fallback branch makes `VisitSection` calls only. -/
theorem fallback_grouped_keys_iff (w : FSequencerEntityWalker)
    (InNode : FSequencerDisplayNode) (InSections : List ISequencerSection) :
    ((InNode.GetChildNodes ≠ [] ∧
        w.Range.IntersectKeyArea InNode w.VirtualKeySize.X = true) →
      HandleFallbackFrom w InNode 0 InSections =
        (InSections.enumFrom 0).flatMap fun p =>
          if w.Range.IntersectSection p.2.GetSectionObject then
            Call.VisitSection p.2.GetSectionObject ::
              w.HandleKeyArea (InNode.UpdateKeyGrouping p.1) p.2.GetSectionObject
          else []) ∧
    (¬ (InNode.GetChildNodes ≠ [] ∧
        w.Range.IntersectKeyArea InNode w.VirtualKeySize.X = true) →
      HandleFallbackFrom w InNode 0 InSections =
        ((InSections.map ISequencerSection.GetSectionObject).filter
          w.Range.IntersectSection).map Call.VisitSection) ∧
    (InNode.GetChildNodes = [] → w.Range.IntersectNode InNode = true →
      InNode.GetType ≠ ESequencerNode.KeyArea →
      (InNode.GetType = ESequencerNode.Track → InNode.HasTopLevelKeyNode = false) →
      w.HandleNodeSections InNode InSections =
        ((InSections.map ISequencerSection.GetSectionObject).filter
          w.Range.IntersectSection).map Call.VisitSection ∧
      ∀ c ∈ w.HandleNodeSections InNode InSections, c.isVisitKey = false) := by
  refine ⟨fun hc => HandleFallbackFrom_grouped w InNode InSections hc 0,
    fun hc => HandleFallbackFrom_ungrouped w InNode InSections hc 0, ?_⟩
  intro h0 hI hA hK
  have hself := HandleNodeSelf_fallback w InNode InSections hI hA hK (Or.inr h0)
  have hun := HandleFallbackFrom_ungrouped w InNode InSections (fun h => h.1 h0) 0
  have heq : w.HandleNodeSections InNode InSections =
      ((InSections.map ISequencerSection.GetSectionObject).filter
        w.Range.IntersectSection).map Call.VisitSection := by
    cases InNode with
    | mk t h e top bot ss k ka g cs =>
      have hcs : cs = [] := h0
      subst hcs
      rw [HandleNodeSections, hself, hun]
      cases e <;> simp [HandleChildrenSections]
  refine ⟨heq, ?_⟩
  intro c hc
  rw [heq, List.mem_map] at hc
  obtain ⟨s, -, rfl⟩ := hc
  rfl

/-- Witness for C10: `collapsedTrack` has a child and the range has no vertical extent, so
the key of its grouped key area is offered after its section. -/
theorem fallback_grouped_keys_iff_witness :
    (collapsedTrack.GetChildNodes ≠ [] ∧
      sampleWalker.Range.IntersectKeyArea collapsedTrack sampleWalker.VirtualKeySize.X = true) ∧
    HandleFallbackFrom sampleWalker collapsedTrack 0 [sampleSection] =
      [Call.VisitSection ⟨0, 10⟩, Call.VisitKey 7 3 oneKey ⟨0, 10⟩] :=
  have hc : collapsedTrack.GetChildNodes ≠ [] ∧
      sampleWalker.Range.IntersectKeyArea collapsedTrack sampleWalker.VirtualKeySize.X = true :=
    ⟨by simp [collapsedTrack, FSequencerDisplayNode.GetChildNodes], rfl⟩
  ⟨hc, ((fallback_grouped_keys_iff sampleWalker collapsedTrack [sampleSection]).1 hc).trans
    (by norm_num [List.enumFrom, HandleKeyArea, FSequencerEntityRange.IntersectSection,
      sampleWalker, sampleSection, collapsedTrack, oneKey, FloatAdd, FloatSub, FloatDiv,
      RoundFloat_one, RoundFloat_two, RoundFloat_four,
      FSequencerDisplayNode.UpdateKeyGrouping])⟩

/-! ## Independence from the child lists -/

/-- The loop of `HandleKeyAreaNode` does not read the child list of the node. -/
theorem HandleKeyAreaNodeFrom_children (w : FSequencerEntityWalker) (t : ESequencerNode)
    (h e : Bool) (top bot : ℚ) (ss : List ISequencerSection) (k : Bool)
    (ka g : Nat → IKeyArea) (cs cs' : List FSequencerDisplayNode)
    (InSections : List ISequencerSection) :
    ∀ i : Nat, HandleKeyAreaNodeFrom w (.mk t h e top bot ss k ka g cs) i InSections =
      HandleKeyAreaNodeFrom w (.mk t h e top bot ss k ka g cs') i InSections := by
  induction InSections with
  | nil => intro i; rfl
  | cons s rest ih =>
    intro i
    rw [HandleKeyAreaNodeFrom, HandleKeyAreaNodeFrom, ih (i + 1)]
    rfl

/-- The fallback loop reads of the child list only whether it is empty. -/
theorem HandleFallbackFrom_children (w : FSequencerEntityWalker) (t : ESequencerNode)
    (h e : Bool) (top bot : ℚ) (ss : List ISequencerSection) (k : Bool)
    (ka g : Nat → IKeyArea) (cs cs' : List FSequencerDisplayNode)
    (hcs : cs = [] ↔ cs' = []) (InSections : List ISequencerSection) :
    ∀ i : Nat, HandleFallbackFrom w (.mk t h e top bot ss k ka g cs) i InSections =
      HandleFallbackFrom w (.mk t h e top bot ss k ka g cs') i InSections := by
  have hlen : cs.length ≠ 0 ↔ cs'.length ≠ 0 := by
    rw [Ne, Ne, List.length_eq_zero, List.length_eq_zero, hcs]
  induction InSections with
  | nil => intro i; rfl
  | cons s rest ih =>
    intro i
    rw [HandleFallbackFrom, HandleFallbackFrom, ih (i + 1)]
    simp only [FSequencerDisplayNode.GetChildNodes, FSequencerDisplayNode.UpdateKeyGrouping,
      FSequencerEntityRange.IntersectKeyArea, FSequencerDisplayNode.GetVirtualTop,
      FSequencerDisplayNode.GetVirtualBottom, hlen]

/-- The self part of `HandleNode` reads of the child list only whether it is empty. -/
theorem HandleNodeSelf_children (w : FSequencerEntityWalker) (t : ESequencerNode)
    (h e : Bool) (top bot : ℚ) (ss : List ISequencerSection) (k : Bool)
    (ka g : Nat → IKeyArea) (cs cs' : List FSequencerDisplayNode)
    (hcs : cs = [] ↔ cs' = []) (InSections : List ISequencerSection) :
    w.HandleNodeSelf (.mk t h e top bot ss k ka g cs) InSections =
      w.HandleNodeSelf (.mk t h e top bot ss k ka g cs') InSections := by
  have hlen : (cs.length == 0) = (cs'.length == 0) := by
    rw [Bool.eq_iff_iff, beq_iff_eq, beq_iff_eq, List.length_eq_zero, List.length_eq_zero, hcs]
  unfold HandleNodeSelf HandleKeyAreaNode
  rw [HandleKeyAreaNodeFrom_children w t h e top bot ss k ka g cs cs' InSections 0,
    HandleFallbackFrom_children w t h e top bot ss k ka g cs cs' hcs InSections 0]
  simp only [FSequencerDisplayNode.GetChildNodes, FSequencerDisplayNode.GetType,
    FSequencerDisplayNode.HasTopLevelKeyNode, FSequencerDisplayNode.IsExpanded,
    FSequencerEntityRange.IntersectNode, FSequencerDisplayNode.GetVirtualTop,
    FSequencerDisplayNode.GetVirtualBottom, hlen]

/-! ## Hidden nodes -/

theorem SameUpToHidden_IsHidden :
    ∀ (a b : FSequencerDisplayNode), SameUpToHidden a b → a.IsHidden = b.IsHidden
  | .mk t h e top bot ss k ka g cs, .mk t' h' e' top' bot' ss' k' ka' g' cs' => by
    intro hab
    rw [SameUpToHidden] at hab
    rcases hab with ⟨h1, h2⟩ | ⟨-, h1, -⟩
    · simp [FSequencerDisplayNode.IsHidden, h1, h2]
    · simpa [FSequencerDisplayNode.IsHidden] using h1

theorem SameUpToHiddenList_nil_iff :
    ∀ (cs cs' : List FSequencerDisplayNode), SameUpToHiddenList cs cs' → (cs = [] ↔ cs' = [])
  | [], [] => fun _ => Iff.rfl
  | _ :: _, _ :: _ => fun _ => by simp
  | [], _ :: _ => fun h => by rw [SameUpToHiddenList] at h; exact h.elim
  | _ :: _, [] => fun h => by rw [SameUpToHiddenList] at h; exact h.elim

mutual
theorem HandleNodeSections_hidden (w : FSequencerEntityWalker) :
    ∀ (a b : FSequencerDisplayNode), SameUpToHidden a b → a.IsHidden = false →
      ∀ InSections, w.HandleNodeSections a InSections = w.HandleNodeSections b InSections
  | .mk t h e top bot ss k ka g cs, .mk t' h' e' top' bot' ss' k' ka' g' cs' => by
    intro hab hvis InSections
    rw [SameUpToHidden] at hab
    rcases hab with ⟨h1, -⟩ | ⟨rfl, rfl, rfl, rfl, rfl, rfl, rfl, rfl, rfl, hcs⟩
    · rw [FSequencerDisplayNode.IsHidden, h1] at hvis
      cases hvis
    · rw [HandleNodeSections, HandleNodeSections,
        HandleNodeSelf_children w t h e top bot ss k ka g cs cs'
          (SameUpToHiddenList_nil_iff cs cs' hcs) InSections,
        HandleChildrenSections_hidden w cs cs' hcs InSections]
theorem HandleChildrenSections_hidden (w : FSequencerEntityWalker) :
    ∀ (cs cs' : List FSequencerDisplayNode), SameUpToHiddenList cs cs' →
      ∀ InSections, w.HandleChildrenSections cs InSections =
        w.HandleChildrenSections cs' InSections
  | [], [] => fun _ _ => rfl
  | a :: as, b :: bs => by
    intro hab InSections
    rw [SameUpToHiddenList] at hab
    rw [HandleChildrenSections, HandleChildrenSections,
      HandleChildrenSections_hidden w as bs hab.2 InSections,
      ← SameUpToHidden_IsHidden a b hab.1]
    cases hvis : a.IsHidden
    · simp only [Bool.not_false, if_true]
      rw [HandleNodeSections_hidden w a b hab.1 hvis InSections]
    · rfl
  | [], _ :: _ => fun h => by rw [SameUpToHiddenList] at h; exact h.elim
  | _ :: _, [] => fun h => by rw [SameUpToHiddenList] at h; exact h.elim
end

mutual
theorem HandleNode_hidden (w : FSequencerEntityWalker) :
    ∀ (a b : FSequencerDisplayNode), SameUpToHidden a b → a.IsHidden = false →
      w.HandleNode a = w.HandleNode b
  | .mk t h e top bot ss k ka g cs, .mk t' h' e' top' bot' ss' k' ka' g' cs' => by
    intro hab hvis
    have hsec := HandleNodeSections_hidden w _ _ hab hvis
    rw [SameUpToHidden] at hab
    rcases hab with ⟨h1, -⟩ | ⟨rfl, rfl, rfl, rfl, rfl, rfl, rfl, rfl, rfl, hcs⟩
    · rw [FSequencerDisplayNode.IsHidden, h1] at hvis
      cases hvis
    · rw [HandleNode, HandleNode, hsec ss, Traverse_hidden w cs cs' hcs]
theorem Traverse_hidden (w : FSequencerEntityWalker) :
    ∀ (cs cs' : List FSequencerDisplayNode), SameUpToHiddenList cs cs' →
      w.Traverse cs = w.Traverse cs'
  | [], [] => fun _ => rfl
  | a :: as, b :: bs => by
    intro hab
    rw [SameUpToHiddenList] at hab
    rw [Traverse, Traverse, Traverse_hidden w as bs hab.2,
      ← SameUpToHidden_IsHidden a b hab.1]
    cases hvis : a.IsHidden
    · simp only [Bool.not_false, if_true]
      rw [HandleNode_hidden w a b hab.1 hvis]
    · rfl
  | [], _ :: _ => fun h => by rw [SameUpToHiddenList] at h; exact h.elim
  | _ :: _, [] => fun h => by rw [SameUpToHiddenList] at h; exact h.elim
end

theorem Traverse_all_hidden (w : FSequencerEntityWalker) :
    ∀ (Nodes : List FSequencerDisplayNode), (∀ n ∈ Nodes, n.IsHidden = true) →
      w.Traverse Nodes = []
  | [] => fun _ => rfl
  | a :: as => by
    intro hall
    rw [Traverse, Traverse_all_hidden w as (fun n hn => hall n (List.mem_cons_of_mem a hn)),
      hall a (List.mem_cons_self a as)]
    rfl

/-- C7, as stated, fails: the two forests differ only in the key area of a hidden child of a
collapsed track, and the track's key grouping gathers the keys of its children.  With the
key in the hidden child `Traverse` makes a `VisitKey` call, without it none. -/
theorem Traverse_sees_hidden_keys_through_grouping :
    (hiddenKeyAreaRow oneKey).IsHidden = true ∧ (hiddenKeyAreaRow noKeys).IsHidden = true ∧
    (sampleWalker.Traverse [groupedTrack [hiddenKeyAreaRow oneKey]]).map Call.isVisitKey
      = [false, true] ∧
    (sampleWalker.Traverse [groupedTrack [hiddenKeyAreaRow noKeys]]).map Call.isVisitKey
      = [false] ∧
    sampleWalker.Traverse [groupedTrack [hiddenKeyAreaRow oneKey]] ≠
      sampleWalker.Traverse [groupedTrack [hiddenKeyAreaRow noKeys]] := by
  have h1 : (sampleWalker.Traverse [groupedTrack [hiddenKeyAreaRow oneKey]]).map
      Call.isVisitKey = [false, true] := by
    norm_num [Traverse, HandleNode, HandleNodeSections, HandleNodeSelf, HandleFallbackFrom,
      HandleKeyArea, groupedTrack, hiddenKeyAreaRow, GroupedKeyArea, sampleWalker,
      sampleSection, oneKey, FloatAdd, FloatSub, FloatDiv, RoundFloat_one, RoundFloat_two,
      RoundFloat_four, Call.isVisitKey, List.range, List.range.loop,
      FSequencerEntityRange.IntersectNode, FSequencerEntityRange.IntersectSection,
      FSequencerEntityRange.IntersectKeyArea, FSequencerDisplayNode.IsHidden,
      FSequencerDisplayNode.GetType, FSequencerDisplayNode.HasTopLevelKeyNode,
      FSequencerDisplayNode.GetKeyArea, FSequencerDisplayNode.UpdateKeyGrouping,
      FSequencerDisplayNode.IsExpanded, FSequencerDisplayNode.GetChildNodes,
      (by decide : ¬ ESequencerNode.Track = ESequencerNode.KeyArea)]
  have h2 : (sampleWalker.Traverse [groupedTrack [hiddenKeyAreaRow noKeys]]).map
      Call.isVisitKey = [false] := by
    norm_num [Traverse, HandleNode, HandleNodeSections, HandleNodeSelf, HandleFallbackFrom,
      HandleKeyArea, groupedTrack, hiddenKeyAreaRow, GroupedKeyArea, sampleWalker,
      sampleSection, noKeys, Call.isVisitKey, List.range, List.range.loop,
      FSequencerEntityRange.IntersectNode, FSequencerEntityRange.IntersectSection,
      FSequencerEntityRange.IntersectKeyArea, FSequencerDisplayNode.IsHidden,
      FSequencerDisplayNode.GetType, FSequencerDisplayNode.HasTopLevelKeyNode,
      FSequencerDisplayNode.GetKeyArea, FSequencerDisplayNode.UpdateKeyGrouping,
      FSequencerDisplayNode.IsExpanded, FSequencerDisplayNode.GetChildNodes,
      (by decide : ¬ ESequencerNode.Track = ESequencerNode.KeyArea)]
  refine ⟨rfl, rfl, h1, h2, ?_⟩
  intro heq
  rw [heq, h2] at h1
  cases h1

/-- C7, amended: the calls made by `Traverse` are the same on two forests that differ only at
hidden nodes (data and subtree of a hidden node replaced by anything, the node staying
hidden) while every other node keeps its own data, its key grouping `UpdateKeyGrouping`
included; and a forest whose top-level nodes are all hidden produces no call. -/
theorem Traverse_ignores_hidden (w : FSequencerEntityWalker) :
    (∀ Nodes Nodes' : List FSequencerDisplayNode, SameUpToHiddenList Nodes Nodes' →
      w.Traverse Nodes = w.Traverse Nodes') ∧
    (∀ Nodes : List FSequencerDisplayNode, (∀ n ∈ Nodes, n.IsHidden = true) →
      w.Traverse Nodes = []) :=
  ⟨Traverse_hidden w, Traverse_all_hidden w⟩

/-- Witness for C7 (amended): a hidden key area row is replaced by a hidden expanded folder
with a child, and a forest of one hidden node produces no call. -/
theorem Traverse_ignores_hidden_witness :
    SameUpToHiddenList [folderOver (hiddenKeyAreaRow oneKey)] [folderOver hiddenGroup] ∧
    sampleWalker.Traverse [folderOver (hiddenKeyAreaRow oneKey)] =
      sampleWalker.Traverse [folderOver hiddenGroup] ∧
    sampleWalker.Traverse [hiddenGroup] = [] :=
  have hsame : SameUpToHiddenList [folderOver (hiddenKeyAreaRow oneKey)]
      [folderOver hiddenGroup] := by
    simp [SameUpToHiddenList, SameUpToHidden, folderOver, hiddenKeyAreaRow, hiddenGroup,
      twoRowTrack, keyAreaRow]
  ⟨hsame, (Traverse_ignores_hidden sampleWalker).1 _ _ hsame,
    (Traverse_ignores_hidden sampleWalker).2 [hiddenGroup] (by
      intro n hn
      rw [List.mem_singleton.mp hn]
      rfl)⟩

/-! ## Collapsed nodes -/

theorem SameUpToCollapsed_IsHidden :
    ∀ (a b : FSequencerDisplayNode), SameUpToCollapsed a b → a.IsHidden = b.IsHidden
  | .mk t h e top bot ss k ka g cs, .mk t' h' e' top' bot' ss' k' ka' g' cs' => by
    intro hab
    rw [SameUpToCollapsed] at hab
    simpa [FSequencerDisplayNode.IsHidden] using hab.1.2.1

theorem SameUpToCollapsedList_nil_iff :
    ∀ (cs cs' : List FSequencerDisplayNode),
      SameUpToCollapsedList cs cs' → (cs = [] ↔ cs' = [])
  | [], [] => fun _ => Iff.rfl
  | _ :: _, _ :: _ => fun _ => by simp
  | [], _ :: _ => fun h => by rw [SameUpToCollapsedList] at h; exact h.elim
  | _ :: _, [] => fun h => by rw [SameUpToCollapsedList] at h; exact h.elim

mutual
theorem HandleNodeSections_collapsed (w : FSequencerEntityWalker) :
    ∀ (a b : FSequencerDisplayNode), SameUpToCollapsed a b →
      ∀ InSections, w.HandleNodeSections a InSections = w.HandleNodeSections b InSections
  | .mk t h e top bot ss k ka g cs, .mk t' h' e' top' bot' ss' k' ka' g' cs' => by
    intro hab InSections
    rw [SameUpToCollapsed] at hab
    obtain ⟨⟨rfl, rfl, rfl, rfl, rfl, rfl, rfl, rfl, rfl⟩, hcs⟩ := hab
    rcases hcs with ⟨rfl, h1, h2⟩ | hcs
    · rw [HandleNodeSections, HandleNodeSections,
        HandleNodeSelf_children w t h false top bot ss k ka g cs cs'
          ⟨fun h0 => absurd h0 h1, fun h0 => absurd h0 h2⟩ InSections]
      rfl
    · rw [HandleNodeSections, HandleNodeSections,
        HandleNodeSelf_children w t h e top bot ss k ka g cs cs'
          (SameUpToCollapsedList_nil_iff cs cs' hcs) InSections,
        HandleChildrenSections_collapsed w cs cs' hcs InSections]
theorem HandleChildrenSections_collapsed (w : FSequencerEntityWalker) :
    ∀ (cs cs' : List FSequencerDisplayNode), SameUpToCollapsedList cs cs' →
      ∀ InSections, w.HandleChildrenSections cs InSections =
        w.HandleChildrenSections cs' InSections
  | [], [] => fun _ _ => rfl
  | a :: as, b :: bs => by
    intro hab InSections
    rw [SameUpToCollapsedList] at hab
    rw [HandleChildrenSections, HandleChildrenSections,
      HandleChildrenSections_collapsed w as bs hab.2 InSections,
      ← SameUpToCollapsed_IsHidden a b hab.1,
      HandleNodeSections_collapsed w a b hab.1 InSections]
  | [], _ :: _ => fun h => by rw [SameUpToCollapsedList] at h; exact h.elim
  | _ :: _, [] => fun h => by rw [SameUpToCollapsedList] at h; exact h.elim
end

mutual
theorem HandleNode_collapsed (w : FSequencerEntityWalker) :
    ∀ (a b : FSequencerDisplayNode), SameUpToCollapsed a b →
      w.HandleNode a = w.HandleNode b
  | .mk t h e top bot ss k ka g cs, .mk t' h' e' top' bot' ss' k' ka' g' cs' => by
    intro hab
    have hsec := HandleNodeSections_collapsed w _ _ hab
    rw [SameUpToCollapsed] at hab
    obtain ⟨⟨rfl, rfl, rfl, rfl, rfl, rfl, rfl, rfl, rfl⟩, hcs⟩ := hab
    rcases hcs with ⟨rfl, -, -⟩ | hcs
    · rw [HandleNode, HandleNode, hsec ss]
      rfl
    · rw [HandleNode, HandleNode, hsec ss, Traverse_collapsed w cs cs' hcs]
theorem Traverse_collapsed (w : FSequencerEntityWalker) :
    ∀ (cs cs' : List FSequencerDisplayNode), SameUpToCollapsedList cs cs' →
      w.Traverse cs = w.Traverse cs'
  | [], [] => fun _ => rfl
  | a :: as, b :: bs => by
    intro hab
    rw [SameUpToCollapsedList] at hab
    rw [Traverse, Traverse, Traverse_collapsed w as bs hab.2,
      ← SameUpToCollapsed_IsHidden a b hab.1, HandleNode_collapsed w a b hab.1]
  | [], _ :: _ => fun h => by rw [SameUpToCollapsedList] at h; exact h.elim
  | _ :: _, [] => fun h => by rw [SameUpToCollapsedList] at h; exact h.elim
end

/-- C8: the calls made by `Traverse` are the same on two forests that differ only in the
child lists of collapsed nodes, each replaced by another non-empty child list while the
node keeps its own data and its key grouping `UpdateKeyGrouping`. -/
theorem Traverse_ignores_collapsed_children (w : FSequencerEntityWalker)
    (Nodes Nodes' : List FSequencerDisplayNode) (h : SameUpToCollapsedList Nodes Nodes') :
    w.Traverse Nodes = w.Traverse Nodes' :=
  Traverse_collapsed w Nodes Nodes' h

/-- Witness for C8: the child list of a collapsed track is replaced by a longer one. -/
theorem Traverse_ignores_collapsed_children_witness :
    SameUpToCollapsedList [collapsedTrackOver [keyedTrack]]
      [collapsedTrackOver [hiddenFolder, collapsedTrack]] ∧
    sampleWalker.Traverse [collapsedTrackOver [keyedTrack]] =
      sampleWalker.Traverse [collapsedTrackOver [hiddenFolder, collapsedTrack]] :=
  have hsame : SameUpToCollapsedList [collapsedTrackOver [keyedTrack]]
      [collapsedTrackOver [hiddenFolder, collapsedTrack]] := by
    simp [SameUpToCollapsedList, SameUpToCollapsed, collapsedTrackOver]
  ⟨hsame, Traverse_ignores_collapsed_children sampleWalker _ _ hsame⟩

/-! ## Completeness for sections -/

theorem VisitSection_mem_HandleKeyAreaNodeFrom (w : FSequencerEntityWalker)
    (KeyAreaNode : FSequencerDisplayNode) (s : ISequencerSection)
    (hsec : w.Range.IntersectSection s.GetSectionObject = true)
    (InSections : List ISequencerSection) (hs : s ∈ InSections) :
    ∀ i : Nat, Call.VisitSection s.GetSectionObject ∈
      HandleKeyAreaNodeFrom w KeyAreaNode i InSections := by
  induction InSections with
  | nil => cases hs
  | cons s' rest ih =>
    intro i
    rw [HandleKeyAreaNodeFrom, List.mem_append]
    rcases List.mem_cons.mp hs with rfl | hs'
    · left
      rw [if_pos hsec]
      exact List.mem_cons_self _ _
    · right
      exact ih hs' (i + 1)

theorem VisitSection_mem_HandleFallbackFrom (w : FSequencerEntityWalker)
    (InNode : FSequencerDisplayNode) (s : ISequencerSection)
    (hsec : w.Range.IntersectSection s.GetSectionObject = true)
    (InSections : List ISequencerSection) (hs : s ∈ InSections) :
    ∀ i : Nat, Call.VisitSection s.GetSectionObject ∈
      HandleFallbackFrom w InNode i InSections := by
  induction InSections with
  | nil => cases hs
  | cons s' rest ih =>
    intro i
    rw [HandleFallbackFrom, List.mem_append]
    rcases List.mem_cons.mp hs with rfl | hs'
    · left
      rw [if_pos hsec]
      exact List.mem_cons_self _ _
    · right
      exact ih hs' (i + 1)

/-- The node itself reports every intersecting section when it intersects the range
vertically and either is handled as a key area node or takes the fallback branch. -/
theorem VisitSection_mem_HandleNodeSelf (w : FSequencerEntityWalker)
    (InNode : FSequencerDisplayNode) (s : ISequencerSection)
    (hsec : w.Range.IntersectSection s.GetSectionObject = true)
    (InSections : List ISequencerSection) (hs : s ∈ InSections)
    (hI : w.Range.IntersectNode InNode = true)
    (hR : InNode.GetType = ESequencerNode.KeyArea ∨
      (InNode.GetType = ESequencerNode.Track ∧
        (InNode.HasTopLevelKeyNode = true ∨ InNode.IsExpanded = false ∨
          InNode.GetChildNodes = []))) :
    Call.VisitSection s.GetSectionObject ∈ w.HandleNodeSelf InNode InSections := by
  unfold HandleNodeSelf
  rw [if_pos hI, List.mem_append]
  rcases hR with hA | ⟨hT, hK | hF⟩
  · left
    rw [if_pos hA, if_pos rfl]
    exact VisitSection_mem_HandleKeyAreaNodeFrom w InNode s hsec InSections hs 0
  · have hb : (if InNode.GetType = ESequencerNode.KeyArea then true
        else if InNode.GetType = ESequencerNode.Track then InNode.HasTopLevelKeyNode
        else false) = true := by
      simp [hT, hK]
    left
    rw [hb, if_pos rfl]
    exact VisitSection_mem_HandleKeyAreaNodeFrom w InNode s hsec InSections hs 0
  · by_cases hK : InNode.HasTopLevelKeyNode = true
    · have hb : (if InNode.GetType = ESequencerNode.KeyArea then true
          else if InNode.GetType = ESequencerNode.Track then InNode.HasTopLevelKeyNode
          else false) = true := by
        simp [hT, hK]
      left
      rw [hb, if_pos rfl]
      exact VisitSection_mem_HandleKeyAreaNodeFrom w InNode s hsec InSections hs 0
    · have hb : (if InNode.GetType = ESequencerNode.KeyArea then true
          else if InNode.GetType = ESequencerNode.Track then InNode.HasTopLevelKeyNode
          else false) = false := by
        simp [hT, hK]
      have hF' : (!InNode.IsExpanded || InNode.GetChildNodes.length == 0) = true := by
        rcases hF with hF | hF
        · simp [hF]
        · simp [hF]
      right
      rw [hb, hF', if_pos (by decide)]
      exact VisitSection_mem_HandleFallbackFrom w InNode s hsec InSections hs 0

theorem HandleNodeSelf_subset_HandleNodeSections (w : FSequencerEntityWalker)
    (InNode : FSequencerDisplayNode) (InSections : List ISequencerSection) (c : Call)
    (hc : c ∈ w.HandleNodeSelf InNode InSections) :
    c ∈ w.HandleNodeSections InNode InSections := by
  cases InNode with
  | mk t h e top bot ss k ka g cs =>
    rw [HandleNodeSections]
    exact List.mem_append_left _ hc

theorem HandleNodeSections_subset_HandleChildrenSections (w : FSequencerEntityWalker)
    (InSections : List ISequencerSection) (c : Call) (Child : FSequencerDisplayNode)
    (hvis : Child.IsHidden = false) (hc : c ∈ w.HandleNodeSections Child InSections) :
    ∀ (Nodes : List FSequencerDisplayNode), Child ∈ Nodes →
      c ∈ w.HandleChildrenSections Nodes InSections
  | [], hmem => by cases hmem
  | a :: rest, hmem => by
    rw [HandleChildrenSections, List.mem_append]
    rcases List.mem_cons.mp hmem with rfl | hmem'
    · left
      rw [hvis]
      exact hc
    · right
      exact HandleNodeSections_subset_HandleChildrenSections w InSections c Child hvis hc
        rest hmem'

theorem HandleChildrenSections_subset_HandleNodeSections (w : FSequencerEntityWalker)
    (InNode : FSequencerDisplayNode) (InSections : List ISequencerSection) (c : Call)
    (hE : InNode.IsExpanded = true)
    (hc : c ∈ w.HandleChildrenSections InNode.GetChildNodes InSections) :
    c ∈ w.HandleNodeSections InNode InSections := by
  cases InNode with
  | mk t h e top bot ss k ka g cs =>
    have he : e = true := hE
    rw [HandleNodeSections, he]
    exact List.mem_append_right _ hc

theorem HandleNodeSections_subset_HandleNode (w : FSequencerEntityWalker)
    (InNode : FSequencerDisplayNode) (c : Call)
    (hT : InNode.GetType = ESequencerNode.Track)
    (hc : c ∈ w.HandleNodeSections InNode InNode.GetSections) :
    c ∈ w.HandleNode InNode := by
  cases InNode with
  | mk t h e top bot ss k ka g cs =>
    have ht : t = ESequencerNode.Track := hT
    rw [HandleNode, if_pos ht]
    exact List.mem_append_left _ hc

theorem Traverse_subset_HandleNode (w : FSequencerEntityWalker)
    (InNode : FSequencerDisplayNode) (c : Call) (hE : InNode.IsExpanded = true)
    (hc : c ∈ w.Traverse InNode.GetChildNodes) : c ∈ w.HandleNode InNode := by
  cases InNode with
  | mk t h e top bot ss k ka g cs =>
    have he : e = true := hE
    rw [HandleNode, he]
    exact List.mem_append_right _ hc

theorem HandleNode_subset_Traverse (w : FSequencerEntityWalker) (c : Call)
    (Child : FSequencerDisplayNode) (hvis : Child.IsHidden = false)
    (hc : c ∈ w.HandleNode Child) :
    ∀ (Nodes : List FSequencerDisplayNode), Child ∈ Nodes → c ∈ w.Traverse Nodes
  | [], hmem => by cases hmem
  | a :: rest, hmem => by
    rw [Traverse, List.mem_append]
    rcases List.mem_cons.mp hmem with rfl | hmem'
    · left
      rw [hvis]
      exact hc
    · right
      exact HandleNode_subset_Traverse w c Child hvis hc rest hmem'

/-- Every call made for a visible node is a call of the whole traversal. -/
theorem HandleNode_subset_Traverse_of_Visible (w : FSequencerEntityWalker)
    (Nodes : List FSequencerDisplayNode) (InNode : FSequencerDisplayNode)
    (hv : Visible Nodes InNode) : ∀ c ∈ w.HandleNode InNode, c ∈ w.Traverse Nodes := by
  induction hv with
  | top hmem hvis =>
    intro c hc
    exact HandleNode_subset_Traverse w c _ hvis hc Nodes hmem
  | child _ hE hmem hvis ih =>
    intro c hc
    exact ih c (Traverse_subset_HandleNode w _ c hE
      (HandleNode_subset_Traverse w c _ hvis hc _ hmem))

/-- C2, as stated, fails: `expandedTrack` is a visible track on the rows `[0, 10]`, inside the
vertical extent `[0, 5]`, and its section `[0, 10]` meets the time interval `[1, 5]`; its
only child lies outside the extent, and `Traverse` makes no call at all. -/
theorem Traverse_misses_section_of_expanded_track :
    Visible [expandedTrack] expandedTrack ∧
    expandedTrack.GetType = ESequencerNode.Track ∧
    marqueeWalker.Range.IntersectNode expandedTrack = true ∧
    sampleSection ∈ expandedTrack.GetSections ∧
    marqueeWalker.Range.IntersectSection sampleSection.GetSectionObject = true ∧
    marqueeWalker.Traverse [expandedTrack] = [] ∧
    Call.VisitSection sampleSection.GetSectionObject ∉ marqueeWalker.Traverse [expandedTrack] := by
  have htrav : marqueeWalker.Traverse [expandedTrack] = [] := by
    norm_num [Traverse, HandleNode, HandleNodeSections, HandleNodeSelf, HandleKeyAreaNode,
      HandleKeyAreaNodeFrom, HandleFallbackFrom, HandleChildrenSections, expandedTrack,
      lowKeyArea, marqueeWalker, sampleSection, GetValue,
      FSequencerEntityRange.IntersectNode, FSequencerEntityRange.IntersectSection,
      FSequencerDisplayNode.IsHidden, FSequencerDisplayNode.GetType,
      FSequencerDisplayNode.HasTopLevelKeyNode, FSequencerDisplayNode.IsExpanded,
      FSequencerDisplayNode.GetChildNodes, FSequencerDisplayNode.GetVirtualTop,
      FSequencerDisplayNode.GetVirtualBottom,
      (by decide : ¬ ESequencerNode.Track = ESequencerNode.KeyArea)]
  refine ⟨Visible.top (List.mem_singleton.mpr rfl) rfl, rfl, ?_, ?_, ?_, htrav, ?_⟩
  · norm_num [FSequencerEntityRange.IntersectNode, marqueeWalker, expandedTrack, GetValue,
      FSequencerDisplayNode.GetVirtualTop, FSequencerDisplayNode.GetVirtualBottom]
  · simp [expandedTrack, FSequencerDisplayNode.GetSections]
  · norm_num [FSequencerEntityRange.IntersectSection, marqueeWalker, sampleSection]
  · rw [htrav]
    exact List.not_mem_nil _

mutual
theorem VisitSection_mem_of_ReportsSections (w : FSequencerEntityWalker)
    (s : ISequencerSection) (hsec : w.Range.IntersectSection s.GetSectionObject = true)
    (InSections : List ISequencerSection) (hs : s ∈ InSections) :
    ∀ (InNode : FSequencerDisplayNode), ReportsSections w InNode = true →
      Call.VisitSection s.GetSectionObject ∈ w.HandleNodeSections InNode InSections
  | .mk t h e top bot ss k ka g cs => by
    intro hR
    rw [ReportsSections, Bool.or_eq_true, Bool.and_eq_true, Bool.and_eq_true] at hR
    rcases hR with ⟨hI, hself⟩ | ⟨he, hchild⟩
    · apply HandleNodeSelf_subset_HandleNodeSections
      by_cases hA : t = ESequencerNode.KeyArea
      · exact VisitSection_mem_HandleNodeSelf w _ s hsec InSections hs hI (Or.inl hA)
      · by_cases hK : t = ESequencerNode.Track ∧ k = true
        · exact VisitSection_mem_HandleNodeSelf w _ s hsec InSections hs hI
            (Or.inr ⟨hK.1, Or.inl hK.2⟩)
        · have hF : e = false ∨ cs = [] := by
            simp only [Bool.or_eq_true, Bool.and_eq_true, decide_eq_true_iff,
              Bool.not_eq_true', beq_iff_eq, List.length_eq_zero] at hself
            rcases hself with ((hA' | hK') | he) | hcs
            · exact absurd hA' hA
            · exact absurd hK' hK
            · exact Or.inl he
            · exact Or.inr hcs
          have hfall := HandleNodeSelf_fallback w (.mk t h e top bot ss k ka g cs)
            InSections hI hA
            (by
              intro hT
              have ht : t = ESequencerNode.Track := hT
              cases hk : k
              · rfl
              · exact absurd ⟨ht, hk⟩ hK)
            hF
          rw [hfall]
          exact VisitSection_mem_HandleFallbackFrom w _ s hsec InSections hs 0
    · rw [HandleNodeSections, he]
      exact List.mem_append_right _
        (VisitSection_mem_of_AnyChildReportsSections w s hsec InSections hs cs hchild)
theorem VisitSection_mem_of_AnyChildReportsSections (w : FSequencerEntityWalker)
    (s : ISequencerSection) (hsec : w.Range.IntersectSection s.GetSectionObject = true)
    (InSections : List ISequencerSection) (hs : s ∈ InSections) :
    ∀ (Nodes : List FSequencerDisplayNode), AnyChildReportsSections w Nodes = true →
      Call.VisitSection s.GetSectionObject ∈ w.HandleChildrenSections Nodes InSections
  | [], hR => by
    rw [AnyChildReportsSections] at hR
    cases hR
  | Child :: rest, hR => by
    rw [AnyChildReportsSections, Bool.or_eq_true, Bool.and_eq_true] at hR
    rw [HandleChildrenSections, List.mem_append]
    rcases hR with ⟨hvis, hchild⟩ | hrest
    · left
      rw [if_pos hvis]
      exact VisitSection_mem_of_ReportsSections w s hsec InSections hs Child hchild
    · right
      exact VisitSection_mem_of_AnyChildReportsSections w s hsec InSections hs rest hrest
end

/-- A node that does not report makes no call for itself. -/
theorem HandleNodeSelf_of_not_reporting (w : FSequencerEntityWalker)
    (InNode : FSequencerDisplayNode) (InSections : List ISequencerSection)
    (h : (w.Range.IntersectNode InNode &&
      (decide (InNode.GetType = ESequencerNode.KeyArea) ||
        (decide (InNode.GetType = ESequencerNode.Track) && InNode.HasTopLevelKeyNode) ||
        !InNode.IsExpanded || InNode.GetChildNodes.length == 0)) = false) :
    w.HandleNodeSelf InNode InSections = [] := by
  unfold HandleNodeSelf
  by_cases hI : w.Range.IntersectNode InNode = true
  · rw [hI, Bool.true_and] at h
    simp only [Bool.or_eq_false_iff, Bool.and_eq_false_iff, decide_eq_false_iff_not,
      Bool.not_eq_false', beq_eq_false_iff_ne] at h
    obtain ⟨⟨⟨hA, hK⟩, hE⟩, hcs⟩ := h
    have hb : (if InNode.GetType = ESequencerNode.KeyArea then true
        else if InNode.GetType = ESequencerNode.Track then InNode.HasTopLevelKeyNode
        else false) = false := by
      rw [if_neg hA]
      split
      · next hT =>
        rcases hK with hK | hK
        · exact absurd hT hK
        · exact hK
      · rfl
    have hlen : (InNode.GetChildNodes.length == 0) = false := by
      simpa using hcs
    rw [if_pos hI, hb, hE, hlen]
    rfl
  · rw [if_neg hI]

mutual
theorem VisitedSections_of_not_ReportsSections (w : FSequencerEntityWalker)
    (InSections : List ISequencerSection) :
    ∀ (InNode : FSequencerDisplayNode), ReportsSections w InNode = false →
      VisitedSections (w.HandleNodeSections InNode InSections) = []
  | .mk t h e top bot ss k ka g cs => by
    intro hR
    rw [ReportsSections, Bool.or_eq_false_iff] at hR
    obtain ⟨hself, hchild⟩ := hR
    rw [HandleNodeSections, VisitedSections_append,
      HandleNodeSelf_of_not_reporting w _ InSections hself]
    cases e with
    | false => rfl
    | true =>
      rw [Bool.true_and] at hchild
      simp only [if_true]
      rw [VisitedSections_of_not_AnyChildReportsSections w InSections cs hchild]
      rfl
theorem VisitedSections_of_not_AnyChildReportsSections (w : FSequencerEntityWalker)
    (InSections : List ISequencerSection) :
    ∀ (Nodes : List FSequencerDisplayNode), AnyChildReportsSections w Nodes = false →
      VisitedSections (w.HandleChildrenSections Nodes InSections) = []
  | [], _ => rfl
  | Child :: rest, hR => by
    rw [AnyChildReportsSections, Bool.or_eq_false_iff] at hR
    obtain ⟨hchild, hrest⟩ := hR
    rw [HandleChildrenSections, VisitedSections_append,
      VisitedSections_of_not_AnyChildReportsSections w InSections rest hrest]
    cases hvis : Child.IsHidden with
    | true => rfl
    | false =>
      rw [hvis, Bool.not_false, Bool.true_and] at hchild
      simp only [Bool.not_false, if_true]
      rw [VisitedSections_of_not_ReportsSections w InSections Child hchild]
      rfl
end

/-- C2, amended: on a forest on which `Traverse` never executes line 149 on a track (the
read through the cast of line 95), for a track node visible to `Traverse` that intersects
the range vertically, every section of the track that intersects the time interval is
passed to `VisitSection` during `Traverse`, provided the track itself, or a node reached
from it through expanded, non-hidden nodes, intersects the range vertically and is a key
area node, a track with a valid top-level key node, or a collapsed or childless node.
When there is no such node, `HandleNode(Visitor, Track, Sections)` passes no section to
`VisitSection`. -/
theorem Traverse_reports_sections (w : FSequencerEntityWalker)
    (Nodes : List FSequencerDisplayNode) (InNode : FSequencerDisplayNode) :
    (ReadsKeyAreaOfTrackInForest w Nodes = false → Visible Nodes InNode →
      InNode.GetType = ESequencerNode.Track → w.Range.IntersectNode InNode = true →
      ReportsSections w InNode = true →
      ∀ s ∈ InNode.GetSections, w.Range.IntersectSection s.GetSectionObject = true →
        Call.VisitSection s.GetSectionObject ∈ w.Traverse Nodes) ∧
    (ReportsSections w InNode = false →
      VisitedSections (w.HandleNodeSections InNode InNode.GetSections) = []) := by
  refine ⟨?_, VisitedSections_of_not_ReportsSections w InNode.GetSections InNode⟩
  intro _ hv hT _ hR s hs hsec
  apply HandleNode_subset_Traverse_of_Visible w Nodes InNode hv
  apply HandleNodeSections_subset_HandleNode w InNode _ hT
  exact VisitSection_mem_of_ReportsSections w s hsec InNode.GetSections hs InNode hR

/-- Witness for C2 (amended): `trackOverCategory` is an expanded track over a visible
collapsed category inside the extent `[0, 5]`; its section `[0, 10]` is reported on the
interval `[1, 5]`.  On `expandedTrack` no node reports, and no section is passed on. -/
theorem Traverse_reports_sections_witness :
    ReadsKeyAreaOfTrackInForest marqueeWalker [trackOverCategory] = false ∧
    Visible [trackOverCategory] trackOverCategory ∧
    ReportsSections marqueeWalker trackOverCategory = true ∧
    Call.VisitSection sampleSection.GetSectionObject ∈
      marqueeWalker.Traverse [trackOverCategory] ∧
    ReportsSections marqueeWalker expandedTrack = false ∧
    VisitedSections (marqueeWalker.HandleNodeSections expandedTrack
      expandedTrack.GetSections) = [] := by
  have hclear : ReadsKeyAreaOfTrackInForest marqueeWalker [trackOverCategory] = false := by
    simp [ReadsKeyAreaOfTrackInForest, ReadsKeyAreaOfTrackInNode,
      ReadsKeyAreaOfTrackInSections, ReadsKeyAreaOfTrackInChildren, ReadsKeyAreaOfTrack,
      trackOverCategory, categoryRow, keyAreaRow, FSequencerDisplayNode.IsHidden,
      FSequencerDisplayNode.GetType, FSequencerDisplayNode.HasTopLevelKeyNode]
  have hv : Visible [trackOverCategory] trackOverCategory :=
    Visible.top (List.mem_singleton.mpr rfl) rfl
  have hI : marqueeWalker.Range.IntersectNode trackOverCategory = true := by
    norm_num [FSequencerEntityRange.IntersectNode, marqueeWalker, trackOverCategory, GetValue,
      FSequencerDisplayNode.GetVirtualTop, FSequencerDisplayNode.GetVirtualBottom]
  have hR : ReportsSections marqueeWalker trackOverCategory = true := by
    norm_num [ReportsSections, AnyChildReportsSections, trackOverCategory, categoryRow,
      marqueeWalker, GetValue, FSequencerEntityRange.IntersectNode,
      FSequencerDisplayNode.IsHidden, FSequencerDisplayNode.GetVirtualTop,
      FSequencerDisplayNode.GetVirtualBottom]
  have hN : ReportsSections marqueeWalker expandedTrack = false := by
    norm_num [ReportsSections, AnyChildReportsSections, expandedTrack, lowKeyArea,
      marqueeWalker, GetValue, FSequencerEntityRange.IntersectNode,
      FSequencerDisplayNode.IsHidden, FSequencerDisplayNode.GetVirtualTop,
      FSequencerDisplayNode.GetVirtualBottom,
      (by decide : ¬ ESequencerNode.Track = ESequencerNode.KeyArea)]
  exact ⟨hclear, hv, hR, (Traverse_reports_sections marqueeWalker [trackOverCategory]
    trackOverCategory).1 hclear hv rfl hI hR sampleSection
    (by simp [trackOverCategory, FSequencerDisplayNode.GetSections])
    (by norm_num [FSequencerEntityRange.IntersectSection, marqueeWalker, sampleSection]),
    hN, (Traverse_reports_sections marqueeWalker [expandedTrack] expandedTrack).2 hN⟩

/-! ## Order and multiplicity of the key calls -/

/-- C13, as stated, fails: with key width `2` and range `[2 ^ 24, 2 ^ 25]`, the key at time
`2 ^ 24` lies strictly inside the widened interval (`2 ^ 24 - 1 < t < 2 ^ 25 + 1`), yet
`HandleKeyArea` makes no call: the float32 sum `2 ^ 24 + 1` is `2 ^ 24`, which is not
greater than `StartTime`. -/
theorem HandleKeyArea_rounding_misses_key :
    ((16777216 : ℚ) - 2 / 2 < 16777216 ∧ (16777216 : ℚ) < 33554432 + 2 / 2) ∧
    FSequencerEntityWalker.HandleKeyArea ⟨⟨16777216, 33554432, none, none⟩, ⟨2, 2⟩⟩
      ⟨[7], fun _ => 16777216⟩ ⟨0, 10⟩ = [] := by
  refine ⟨by norm_num, ?_⟩
  norm_num [HandleKeyArea, FloatAdd, FloatSub, FloatDiv, RoundFloat_one, RoundFloat_16777217]

/-- C13, amended: the `VisitKey` calls of `HandleKeyArea` are the image, in order, of a
subsequence of `GetUnsortedKeyHandles`, one call per retained handle with that handle's
own key time, the same key area and the same section; a key whose float32 sum `t + w/2`
is greater than `StartTime` and whose float32 difference `t - w/2` is less than `EndTime`
is retained; for float32 values `StartTime`, `EndTime` and `w`, a key strictly outside
the widened interval (`t < StartTime - w/2` or `t > EndTime + w/2`) is not; and for
`w ≥ 0` a key whose float32 time lies strictly inside the interval itself
(`StartTime < t < EndTime`) is retained. -/
theorem HandleKeyArea_subsequence (w : FSequencerEntityWalker) (KeyArea : IKeyArea)
    (Section : UMovieSceneSection) :
    ∃ visited : List FKeyHandle,
      visited.Sublist KeyArea.GetUnsortedKeyHandles ∧
      w.HandleKeyArea KeyArea Section =
        visited.map (fun h => Call.VisitKey h (KeyArea.GetKeyTime h) KeyArea Section) ∧
      (∀ h ∈ KeyArea.GetUnsortedKeyHandles,
        FloatAdd (KeyArea.GetKeyTime h) (FloatDiv w.VirtualKeySize.X 2)
          > w.Range.StartTime →
        FloatSub (KeyArea.GetKeyTime h) (FloatDiv w.VirtualKeySize.X 2)
          < w.Range.EndTime → h ∈ visited) ∧
      (FloatInputs w →
        ∀ h, (KeyArea.GetKeyTime h < w.Range.StartTime - w.VirtualKeySize.X / 2 ∨
            KeyArea.GetKeyTime h > w.Range.EndTime + w.VirtualKeySize.X / 2) →
          h ∉ visited ∧
          Call.VisitKey h (KeyArea.GetKeyTime h) KeyArea Section ∉
            w.HandleKeyArea KeyArea Section) ∧
      (0 ≤ w.VirtualKeySize.X →
        ∀ h ∈ KeyArea.GetUnsortedKeyHandles, IsFloat (KeyArea.GetKeyTime h) →
          w.Range.StartTime < KeyArea.GetKeyTime h →
          KeyArea.GetKeyTime h < w.Range.EndTime → h ∈ visited) := by
  refine ⟨KeyArea.GetUnsortedKeyHandles.filter (fun h =>
      decide (FloatAdd (KeyArea.GetKeyTime h) (FloatDiv w.VirtualKeySize.X 2)
          > w.Range.StartTime ∧
        FloatSub (KeyArea.GetKeyTime h) (FloatDiv w.VirtualKeySize.X 2)
          < w.Range.EndTime)),
    List.filter_sublist _, ?_, ?_, ?_, ?_⟩
  · unfold HandleKeyArea
    induction KeyArea.GetUnsortedKeyHandles with
    | nil => rfl
    | cons h rest ih =>
      rw [List.flatMap_cons, ih]
      by_cases hc :
          FloatAdd (KeyArea.GetKeyTime h) (FloatDiv w.VirtualKeySize.X 2)
              > w.Range.StartTime ∧
            FloatSub (KeyArea.GetKeyTime h) (FloatDiv w.VirtualKeySize.X 2)
              < w.Range.EndTime
      · rw [List.filter_cons_of_pos (by simpa using hc)]
        simp only [if_pos hc]
        rfl
      · rw [List.filter_cons_of_neg (by simpa using hc)]
        simp only [if_neg hc]
        rfl
  · intro h hh h1 h2
    rw [List.mem_filter]
    exact ⟨hh, decide_eq_true ⟨h1, h2⟩⟩
  · rintro ⟨hS, hE, hX⟩ h hout
    have hnot : ¬ (FloatAdd (KeyArea.GetKeyTime h) (FloatDiv w.VirtualKeySize.X 2)
          > w.Range.StartTime ∧
        FloatSub (KeyArea.GetKeyTime h) (FloatDiv w.VirtualKeySize.X 2)
          < w.Range.EndTime) := by
      rintro ⟨h1, h2⟩
      have e1 := le_of_lt_FloatAdd_FloatDiv hS hX h1
      have e2 := le_of_FloatSub_FloatDiv_lt hE hX h2
      rcases hout with hout | hout
      · linarith
      · linarith
    constructor
    · rw [List.mem_filter]
      rintro ⟨-, hd⟩
      exact hnot (of_decide_eq_true hd)
    · rw [VisitKey_mem_HandleKeyArea_iff]
      rintro ⟨-, hd⟩
      exact hnot hd
  · intro hX h hh ht hlo hhi
    have hd : 0 ≤ FloatDiv w.VirtualKeySize.X 2 := RoundFloat_nonneg (by linarith)
    have hup : KeyArea.GetKeyTime h ≤
        FloatAdd (KeyArea.GetKeyTime h) (FloatDiv w.VirtualKeySize.X 2) := by
      have hm : RoundFloat (KeyArea.GetKeyTime h) ≤
          RoundFloat (KeyArea.GetKeyTime h + FloatDiv w.VirtualKeySize.X 2) :=
        RoundFloat_mono (by linarith)
      rw [ht] at hm
      exact hm
    have hdown : FloatSub (KeyArea.GetKeyTime h) (FloatDiv w.VirtualKeySize.X 2) ≤
        KeyArea.GetKeyTime h := by
      have hm : RoundFloat (KeyArea.GetKeyTime h - FloatDiv w.VirtualKeySize.X 2) ≤
          RoundFloat (KeyArea.GetKeyTime h) :=
        RoundFloat_mono (by linarith)
      rw [ht] at hm
      exact hm
    rw [List.mem_filter]
    exact ⟨hh, decide_eq_true ⟨lt_of_lt_of_le hlo hup, lt_of_le_of_lt hdown hhi⟩⟩

/-- Witness for C13 (amended): on `sampleWalker` (interval `[1, 5]`, key width `2`) the key
`7` of `twoKeys` at time `3` lies inside the interval and is among the visited handles, the
key `8` at time `9` lies outside the widened interval `[0, 6]` and is not. -/
theorem HandleKeyArea_subsequence_witness :
    FloatInputs sampleWalker ∧
    ∃ visited : List FKeyHandle,
      visited.Sublist twoKeys.GetUnsortedKeyHandles ∧
      sampleWalker.HandleKeyArea twoKeys ⟨0, 10⟩ =
        visited.map (fun h => Call.VisitKey h (twoKeys.GetKeyTime h) twoKeys ⟨0, 10⟩) ∧
      7 ∈ visited ∧ 8 ∉ visited := by
  have hw : FloatInputs sampleWalker := by
    norm_num [FloatInputs, IsFloat, sampleWalker, RoundFloat_one, RoundFloat_two,
      RoundFloat_five]
  have h3 : RoundFloat 3 = 3 := by
    simpa using RoundFloat_intCast 3 (by norm_num)
  obtain ⟨visited, h1, h2, -, hout, hin⟩ :=
    HandleKeyArea_subsequence sampleWalker twoKeys ⟨0, 10⟩
  refine ⟨hw, visited, h1, h2, ?_, ?_⟩
  · exact hin (by norm_num [sampleWalker]) 7 (by simp [twoKeys])
      (by simpa [IsFloat, twoKeys] using h3)
      (by norm_num [sampleWalker, twoKeys]) (by norm_num [sampleWalker, twoKeys])
  · exact (hout hw 8 (Or.inr (by norm_num [sampleWalker, twoKeys]))).1

/-! ## Expanded nodes outside the vertical extent -/

/-- C16: for an expanded node outside the vertical extent (`IntersectNode` false), the
three-argument `HandleNode` makes no call for the node itself and handles its non-hidden
children with the same sections; hence a non-hidden `KeyArea` child inside the extent gets
`VisitSection` for every section that intersects the time interval. -/
theorem HandleNodeSections_expanded_outside (w : FSequencerEntityWalker)
    (InNode : FSequencerDisplayNode) (InSections : List ISequencerSection)
    (hE : InNode.IsExpanded = true) (hI : w.Range.IntersectNode InNode = false) :
    w.HandleNodeSelf InNode InSections = [] ∧
    w.HandleNodeSections InNode InSections =
      w.HandleChildrenSections InNode.GetChildNodes InSections ∧
    (∀ Child ∈ InNode.GetChildNodes, Child.IsHidden = false →
      ∀ c ∈ w.HandleNodeSections Child InSections,
        c ∈ w.HandleNodeSections InNode InSections) ∧
    (∀ Child ∈ InNode.GetChildNodes, Child.IsHidden = false →
      Child.GetType = ESequencerNode.KeyArea → w.Range.IntersectNode Child = true →
      ∀ s ∈ InSections, w.Range.IntersectSection s.GetSectionObject = true →
        Call.VisitSection s.GetSectionObject ∈ w.HandleNodeSections InNode InSections) := by
  have hself : w.HandleNodeSelf InNode InSections = [] := by
    unfold HandleNodeSelf
    rw [hI]
    rfl
  have hchildren : ∀ Child ∈ InNode.GetChildNodes, Child.IsHidden = false →
      ∀ c ∈ w.HandleNodeSections Child InSections,
        c ∈ w.HandleNodeSections InNode InSections := by
    intro Child hmem hvis c hc
    exact HandleChildrenSections_subset_HandleNodeSections w InNode InSections c hE
      (HandleNodeSections_subset_HandleChildrenSections w InSections c Child hvis hc _ hmem)
  refine ⟨hself, ?_, hchildren, ?_⟩
  · cases InNode with
    | mk t h e top bot ss k ka g cs =>
      have he : e = true := hE
      rw [HandleNodeSections, hself, he]
      rfl
  · intro Child hmem hvis hA hIc s hs hsec
    exact hchildren Child hmem hvis _
      (HandleNodeSelf_subset_HandleNodeSections w Child InSections _
        (VisitSection_mem_HandleNodeSelf w Child s hsec InSections hs hIc (Or.inl hA)))

/-- Witness for C16: `outsideFolder` lies outside the extent `[0, 5]`, its key area child
inside, and the section `[0, 10]` is reported on the interval `[1, 5]`. -/
theorem HandleNodeSections_expanded_outside_witness :
    marqueeWalker.Range.IntersectNode outsideFolder = false ∧
    Call.VisitSection sampleSection.GetSectionObject ∈
      marqueeWalker.HandleNodeSections outsideFolder [sampleSection] := by
  have hI : marqueeWalker.Range.IntersectNode outsideFolder = false := by
    norm_num [FSequencerEntityRange.IntersectNode, marqueeWalker, outsideFolder, GetValue,
      FSequencerDisplayNode.GetVirtualTop, FSequencerDisplayNode.GetVirtualBottom]
  refine ⟨hI, (HandleNodeSections_expanded_outside marqueeWalker outsideFolder [sampleSection]
    rfl hI).2.2.2 (keyAreaRow 0 2) ?_ rfl rfl ?_ sampleSection (List.mem_singleton.mpr rfl) ?_⟩
  · simp [outsideFolder, FSequencerDisplayNode.GetChildNodes]
  · norm_num [FSequencerEntityRange.IntersectNode, marqueeWalker, keyAreaRow, GetValue,
      FSequencerDisplayNode.GetVirtualTop, FSequencerDisplayNode.GetVirtualBottom]
  · norm_num [FSequencerEntityRange.IntersectSection, marqueeWalker, sampleSection]

/-! ## Independence from the key height -/

theorem HandleKeyArea_keyHeight (r : FSequencerEntityRange) (x y₁ y₂ : ℚ)
    (KeyArea : IKeyArea) (Section : UMovieSceneSection) :
    HandleKeyArea ⟨r, ⟨x, y₁⟩⟩ KeyArea Section = HandleKeyArea ⟨r, ⟨x, y₂⟩⟩ KeyArea Section :=
  rfl

theorem HandleKeyAreaNodeFrom_keyHeight (r : FSequencerEntityRange) (x y₁ y₂ : ℚ)
    (KeyAreaNode : FSequencerDisplayNode) (InSections : List ISequencerSection) :
    ∀ i : Nat, HandleKeyAreaNodeFrom ⟨r, ⟨x, y₁⟩⟩ KeyAreaNode i InSections =
      HandleKeyAreaNodeFrom ⟨r, ⟨x, y₂⟩⟩ KeyAreaNode i InSections := by
  induction InSections with
  | nil => intro i; rfl
  | cons s rest ih =>
    intro i
    rw [HandleKeyAreaNodeFrom, HandleKeyAreaNodeFrom, ih (i + 1)]
    rfl

theorem HandleFallbackFrom_keyHeight (r : FSequencerEntityRange) (x y₁ y₂ : ℚ)
    (InNode : FSequencerDisplayNode) (InSections : List ISequencerSection) :
    ∀ i : Nat, HandleFallbackFrom ⟨r, ⟨x, y₁⟩⟩ InNode i InSections =
      HandleFallbackFrom ⟨r, ⟨x, y₂⟩⟩ InNode i InSections := by
  induction InSections with
  | nil => intro i; rfl
  | cons s rest ih =>
    intro i
    rw [HandleFallbackFrom, HandleFallbackFrom, ih (i + 1)]
    rfl

theorem HandleNodeSelf_keyHeight (r : FSequencerEntityRange) (x y₁ y₂ : ℚ)
    (InNode : FSequencerDisplayNode) (InSections : List ISequencerSection) :
    HandleNodeSelf ⟨r, ⟨x, y₁⟩⟩ InNode InSections =
      HandleNodeSelf ⟨r, ⟨x, y₂⟩⟩ InNode InSections := by
  unfold HandleNodeSelf HandleKeyAreaNode
  rw [HandleKeyAreaNodeFrom_keyHeight r x y₁ y₂ InNode InSections 0,
    HandleFallbackFrom_keyHeight r x y₁ y₂ InNode InSections 0]

mutual
theorem HandleNodeSections_keyHeight (r : FSequencerEntityRange) (x y₁ y₂ : ℚ) :
    ∀ (InNode : FSequencerDisplayNode) (InSections : List ISequencerSection),
      HandleNodeSections ⟨r, ⟨x, y₁⟩⟩ InNode InSections =
        HandleNodeSections ⟨r, ⟨x, y₂⟩⟩ InNode InSections
  | .mk t h e top bot ss k ka g cs, InSections => by
    rw [HandleNodeSections, HandleNodeSections, HandleNodeSelf_keyHeight r x y₁ y₂,
      HandleChildrenSections_keyHeight r x y₁ y₂ cs InSections]
theorem HandleChildrenSections_keyHeight (r : FSequencerEntityRange) (x y₁ y₂ : ℚ) :
    ∀ (Nodes : List FSequencerDisplayNode) (InSections : List ISequencerSection),
      HandleChildrenSections ⟨r, ⟨x, y₁⟩⟩ Nodes InSections =
        HandleChildrenSections ⟨r, ⟨x, y₂⟩⟩ Nodes InSections
  | [], _ => rfl
  | Child :: rest, InSections => by
    rw [HandleChildrenSections, HandleChildrenSections,
      HandleNodeSections_keyHeight r x y₁ y₂ Child InSections,
      HandleChildrenSections_keyHeight r x y₁ y₂ rest InSections]
end

mutual
theorem HandleNode_keyHeight (r : FSequencerEntityRange) (x y₁ y₂ : ℚ) :
    ∀ (InNode : FSequencerDisplayNode),
      HandleNode ⟨r, ⟨x, y₁⟩⟩ InNode = HandleNode ⟨r, ⟨x, y₂⟩⟩ InNode
  | .mk t h e top bot ss k ka g cs => by
    rw [HandleNode, HandleNode, HandleNodeSections_keyHeight r x y₁ y₂,
      Traverse_keyHeight r x y₁ y₂ cs]
theorem Traverse_keyHeight (r : FSequencerEntityRange) (x y₁ y₂ : ℚ) :
    ∀ (Nodes : List FSequencerDisplayNode),
      Traverse ⟨r, ⟨x, y₁⟩⟩ Nodes = Traverse ⟨r, ⟨x, y₂⟩⟩ Nodes
  | [] => rfl
  | Child :: rest => by
    rw [Traverse, Traverse, HandleNode_keyHeight r x y₁ y₂ Child,
      Traverse_keyHeight r x y₁ y₂ rest]
end

/-- C18: `Traverse` makes the same calls with `VirtualKeySize (x, y₁)` as with `(x, y₂)`:
the key height is never read.  What `HandleNode` does for a node, the `IntersectKeyArea`
tests of lines 113 and 147 included, is computed from the key width `x` alone. -/
theorem Traverse_independent_of_key_height (r : FSequencerEntityRange) (x y₁ y₂ : ℚ)
    (Nodes : List FSequencerDisplayNode) :
    Traverse ⟨r, ⟨x, y₁⟩⟩ Nodes = Traverse ⟨r, ⟨x, y₂⟩⟩ Nodes ∧
    (∀ (InNode : FSequencerDisplayNode) (InSections : List ISequencerSection),
      HandleNodeSelf ⟨r, ⟨x, y₁⟩⟩ InNode InSections =
        HandleNodeSelf ⟨r, ⟨x, y₂⟩⟩ InNode InSections) :=
  ⟨Traverse_keyHeight r x y₁ y₂ Nodes, HandleNodeSelf_keyHeight r x y₁ y₂⟩

/-! ## Sections are reported once per key area row -/

theorem VisitedSections_HandleKeyAreaNodeFrom (w : FSequencerEntityWalker)
    (KeyAreaNode : FSequencerDisplayNode) (InSections : List ISequencerSection) :
    ∀ i : Nat, VisitedSections (HandleKeyAreaNodeFrom w KeyAreaNode i InSections) =
      (InSections.map ISequencerSection.GetSectionObject).filter w.Range.IntersectSection := by
  induction InSections with
  | nil => intro i; rfl
  | cons s rest ih =>
    intro i
    rw [HandleKeyAreaNodeFrom, VisitedSections_append, ih (i + 1), List.map_cons]
    by_cases hsec : w.Range.IntersectSection s.GetSectionObject = true
    · rw [if_pos hsec, List.filter_cons_of_pos hsec]
      split
      · simp [VisitedSections, VisitedSections_HandleKeyArea]
      · simp [VisitedSections]
    · rw [if_neg hsec, List.filter_cons_of_neg hsec]
      rfl

/-- The sections reported for a key area node without expanded children. -/
theorem VisitedSections_HandleNodeSections_keyArea (w : FSequencerEntityWalker)
    (Child : FSequencerDisplayNode) (InSections : List ISequencerSection)
    (hA : Child.GetType = ESequencerNode.KeyArea)
    (hL : Child.IsExpanded = false ∨ Child.GetChildNodes = []) :
    VisitedSections (w.HandleNodeSections Child InSections) =
      if w.Range.IntersectNode Child then
        (InSections.map ISequencerSection.GetSectionObject).filter w.Range.IntersectSection
      else [] := by
  have hself : VisitedSections (w.HandleNodeSelf Child InSections) =
      if w.Range.IntersectNode Child then
        (InSections.map ISequencerSection.GetSectionObject).filter w.Range.IntersectSection
      else [] := by
    unfold HandleNodeSelf
    by_cases hI : w.Range.IntersectNode Child = true
    · rw [if_pos hI, if_pos hI, if_pos hA]
      simp [VisitedSections_append, HandleKeyAreaNode, VisitedSections_HandleKeyAreaNodeFrom,
        VisitedSections]
    · rw [if_neg hI, if_neg hI]
      rfl
  cases Child with
  | mk t h e top bot ss k ka g cs =>
    rw [HandleNodeSections, VisitedSections_append, hself]
    rcases hL with hL | hL
    · have he : e = false := hL
      rw [he]
      simp [VisitedSections]
    · have hcs : cs = [] := hL
      rw [hcs]
      cases e <;> simp [VisitedSections, HandleChildrenSections]

theorem VisitedSections_HandleChildrenSections_keyAreas (w : FSequencerEntityWalker)
    (InSections : List ISequencerSection) :
    ∀ (Nodes : List FSequencerDisplayNode),
      (∀ c ∈ Nodes, c.IsHidden = false → c.GetType = ESequencerNode.KeyArea ∧
        (c.IsExpanded = false ∨ c.GetChildNodes = [])) →
      VisitedSections (w.HandleChildrenSections Nodes InSections) =
        (Nodes.filter (fun c => !c.IsHidden && w.Range.IntersectNode c)).flatMap
          (fun _ => (InSections.map ISequencerSection.GetSectionObject).filter
            w.Range.IntersectSection)
  | [], _ => rfl
  | Child :: rest, hC => by
    have ih := VisitedSections_HandleChildrenSections_keyAreas w InSections rest
      (fun c hc => hC c (List.mem_cons_of_mem _ hc))
    rw [HandleChildrenSections, VisitedSections_append, ih]
    cases hvis : Child.IsHidden
    · obtain ⟨hA, hL⟩ := hC Child (List.mem_cons_self _ _) hvis
      simp only [Bool.not_false, if_true]
      rw [VisitedSections_HandleNodeSections_keyArea w Child InSections hA hL]
      by_cases hI : w.Range.IntersectNode Child = true
      · rw [if_pos hI, List.filter_cons_of_pos (by simp [hvis, hI]), List.flatMap_cons]
      · rw [if_neg hI, List.filter_cons_of_neg (by simp [hvis, hI])]
        rfl
    · rw [List.filter_cons_of_neg (by simp [hvis])]
      rfl

theorem HandleNode_keyArea_leaf (w : FSequencerEntityWalker) (Child : FSequencerDisplayNode)
    (hA : Child.GetType = ESequencerNode.KeyArea)
    (hL : Child.IsExpanded = false ∨ Child.GetChildNodes = []) :
    w.HandleNode Child = [] := by
  cases Child with
  | mk t h e top bot ss k ka g cs =>
    have ht : t = ESequencerNode.KeyArea := hA
    rw [HandleNode, ht, if_neg (by decide)]
    rcases hL with hL | hL
    · have he : e = false := hL
      rw [he]
      rfl
    · have hcs : cs = [] := hL
      rw [hcs]
      cases e <;> rfl

theorem Traverse_keyArea_leaves (w : FSequencerEntityWalker) :
    ∀ (Nodes : List FSequencerDisplayNode),
      (∀ c ∈ Nodes, c.IsHidden = false → c.GetType = ESequencerNode.KeyArea ∧
        (c.IsExpanded = false ∨ c.GetChildNodes = [])) →
      w.Traverse Nodes = []
  | [], _ => rfl
  | Child :: rest, hC => by
    rw [Traverse, Traverse_keyArea_leaves w rest (fun c hc => hC c (List.mem_cons_of_mem _ hc))]
    cases hvis : Child.IsHidden
    · obtain ⟨hA, hL⟩ := hC Child (List.mem_cons_self _ _) hvis
      rw [HandleNode_keyArea_leaf w Child hA hL]
      rfl
    · rfl

/-- C17: `VisitSection` is not once per section.  On `twoRowTrack` (an expanded track without
top-level key node, two visible key area children inside the range, one section meeting
the time interval) `Traverse` passes the same section to `VisitSection` twice.  In general,
for an expanded track without top-level key node whose visible children are key area nodes
without expanded children, the sections passed to `VisitSection` are the intersecting
sections of the track, repeated once per visible child that intersects the range
vertically. -/
theorem VisitSection_once_per_key_area_child :
    VisitedSections (marqueeWalker.Traverse [twoRowTrack]) =
      [sampleSection.GetSectionObject, sampleSection.GetSectionObject] ∧
    (∀ (w : FSequencerEntityWalker) (InNode : FSequencerDisplayNode),
      InNode.GetType = ESequencerNode.Track → InNode.IsExpanded = true →
      InNode.HasTopLevelKeyNode = false → InNode.GetChildNodes ≠ [] →
      (∀ c ∈ InNode.GetChildNodes, c.IsHidden = false →
        c.GetType = ESequencerNode.KeyArea ∧
        (c.IsExpanded = false ∨ c.GetChildNodes = [])) →
      VisitedSections (w.HandleNode InNode) =
        (InNode.GetChildNodes.filter
            (fun c => !c.IsHidden && w.Range.IntersectNode c)).flatMap
          (fun _ => (InNode.GetSections.map ISequencerSection.GetSectionObject).filter
            w.Range.IntersectSection)) := by
  have general : ∀ (w : FSequencerEntityWalker) (InNode : FSequencerDisplayNode),
      InNode.GetType = ESequencerNode.Track → InNode.IsExpanded = true →
      InNode.HasTopLevelKeyNode = false → InNode.GetChildNodes ≠ [] →
      (∀ c ∈ InNode.GetChildNodes, c.IsHidden = false →
        c.GetType = ESequencerNode.KeyArea ∧
        (c.IsExpanded = false ∨ c.GetChildNodes = [])) →
      VisitedSections (w.HandleNode InNode) =
        (InNode.GetChildNodes.filter
            (fun c => !c.IsHidden && w.Range.IntersectNode c)).flatMap
          (fun _ => (InNode.GetSections.map ISequencerSection.GetSectionObject).filter
            w.Range.IntersectSection) := by
    intro w InNode hT hE hK h0 hC
    have hself : w.HandleNodeSelf InNode InNode.GetSections = [] := by
      unfold HandleNodeSelf
      have hb : (if InNode.GetType = ESequencerNode.KeyArea then true
          else if InNode.GetType = ESequencerNode.Track then InNode.HasTopLevelKeyNode
          else false) = false := by
        simp [hT, hK]
      have hlen : (InNode.GetChildNodes.length == 0) = false := by
        simpa using h0
      rw [hb, hE, hlen]
      split <;> rfl
    cases InNode with
    | mk t h e top bot ss k ka g cs =>
      have ht : t = ESequencerNode.Track := hT
      have he : e = true := hE
      have hss : (FSequencerDisplayNode.mk t h e top bot ss k ka g cs).GetSections = ss := rfl
      have hcs : (FSequencerDisplayNode.mk t h e top bot ss k ka g cs).GetChildNodes = cs := rfl
      rw [hss] at hself
      rw [hcs] at hC
      rw [hss, hcs, HandleNode, if_pos ht, HandleNodeSections, hself, he,
        Traverse_keyArea_leaves w cs hC]
      simp only [if_true, List.nil_append, List.append_nil]
      exact VisitedSections_HandleChildrenSections_keyAreas w ss cs hC
  refine ⟨?_, general⟩
  have hnode := general marqueeWalker twoRowTrack rfl rfl rfl
    (by simp [twoRowTrack, FSequencerDisplayNode.GetChildNodes])
    (by
      intro c hc hvis
      simp only [twoRowTrack, FSequencerDisplayNode.GetChildNodes, List.mem_cons,
        List.mem_singleton, List.not_mem_nil, or_false] at hc
      rcases hc with rfl | rfl
      · exact ⟨rfl, Or.inl rfl⟩
      · exact ⟨rfl, Or.inl rfl⟩)
  have htrav : marqueeWalker.Traverse [twoRowTrack] = marqueeWalker.HandleNode twoRowTrack := by
    rw [Traverse, Traverse]
    simp [twoRowTrack, FSequencerDisplayNode.IsHidden]
  rw [htrav, hnode]
  norm_num [List.filter, twoRowTrack, keyAreaRow, marqueeWalker, sampleSection, GetValue,
    FSequencerDisplayNode.GetChildNodes, FSequencerDisplayNode.GetSections,
    FSequencerDisplayNode.IsHidden, FSequencerEntityRange.IntersectNode,
    FSequencerEntityRange.IntersectSection, FSequencerDisplayNode.GetVirtualTop,
    FSequencerDisplayNode.GetVirtualBottom]

/-- Witness for C17: the general statement applied to `twoRowTrack`. -/
theorem VisitSection_once_per_key_area_child_witness :
    VisitedSections (marqueeWalker.HandleNode twoRowTrack) =
      (twoRowTrack.GetChildNodes.filter
          (fun c => !c.IsHidden && marqueeWalker.Range.IntersectNode c)).flatMap
        (fun _ => (twoRowTrack.GetSections.map ISequencerSection.GetSectionObject).filter
          marqueeWalker.Range.IntersectSection) :=
  VisitSection_once_per_key_area_child.2 marqueeWalker twoRowTrack rfl rfl rfl
    (by simp [twoRowTrack, FSequencerDisplayNode.GetChildNodes])
    (by
      intro c hc hvis
      simp only [twoRowTrack, FSequencerDisplayNode.GetChildNodes, List.mem_cons,
        List.mem_singleton, List.not_mem_nil, or_false] at hc
      rcases hc with rfl | rfl
      · exact ⟨rfl, Or.inl rfl⟩
      · exact ⟨rfl, Or.inl rfl⟩)

/-! ## Object binding node: class lookup -/

/-- C11: `GetClassForObjectBinding` passes its first check exactly when one of
`FindSpawnable` and `FindPossessable` finds an entry and the other does not; it fails that
assertion when both or neither is found; when it succeeds it returns the superclass of the
spawnable's class for a spawnable and the possessed object class for a possessable. -/
theorem GetClassForObjectBinding_exactly_one (MovieScene : UMovieScene)
    (ObjectBinding : FGuid) :
    (GetClassForObjectBinding MovieScene ObjectBinding ≠ .error .ExactlyOneBinding ↔
      ((MovieScene.FindSpawnable ObjectBinding).isSome = true ∧
          (MovieScene.FindPossessable ObjectBinding).isSome = false) ∨
        ((MovieScene.FindSpawnable ObjectBinding).isSome = false ∧
          (MovieScene.FindPossessable ObjectBinding).isSome = true)) ∧
    ((MovieScene.FindSpawnable ObjectBinding).isSome =
        (MovieScene.FindPossessable ObjectBinding).isSome →
      GetClassForObjectBinding MovieScene ObjectBinding = .error .ExactlyOneBinding) ∧
    (∀ (sp : FMovieSceneSpawnable) (c : UClass),
      MovieScene.FindSpawnable ObjectBinding = some sp →
      MovieScene.FindPossessable ObjectBinding = none → sp.GetClass = some c →
      GetClassForObjectBinding MovieScene ObjectBinding = .ok c.GetSuperClass) ∧
    (∀ (p : FMovieScenePossessable),
      MovieScene.FindSpawnable ObjectBinding = none →
      MovieScene.FindPossessable ObjectBinding = some p →
      GetClassForObjectBinding MovieScene ObjectBinding = .ok p.GetPossessedObjectClass) := by
  unfold GetClassForObjectBinding
  cases hs : MovieScene.FindSpawnable ObjectBinding with
  | none =>
    cases hp : MovieScene.FindPossessable ObjectBinding with
    | none => simp
    | some p => simp
  | some sp =>
    cases hp : MovieScene.FindPossessable ObjectBinding with
    | none =>
      cases hc : sp.GetClass with
      | none =>
        simp only [hc]
        simp
        rintro sp' c rfl hc'
        rw [hc] at hc'
        cases hc'
      | some c =>
        simp only [hc]
        simp
        rintro sp' c' rfl hc'
        rw [hc] at hc'
        cases hc'
        rfl
    | some p => simp

/-- Witness for C11: binding `1` of `sampleMovieScene` is a spawnable only, and the class
returned is the superclass `10` of its class `11`. -/
theorem GetClassForObjectBinding_exactly_one_witness :
    GetClassForObjectBinding sampleMovieScene 1 = .ok (some (.mk 10 none)) :=
  (GetClassForObjectBinding_exactly_one sampleMovieScene 1).2.2.1
    ⟨some (.mk 11 (some (.mk 10 none)))⟩ (.mk 11 (some (.mk 10 none))) rfl rfl rfl

/-! ## Level sequence editor module -/

theorem IsRegistered_Register_self (m : FLevelEditorModule) (InName : String)
    (Definition : FCustomViewportLayoutDefinition) :
    (m.RegisterCustomViewportLayout InName Definition).IsRegistered InName = true := by
  simp [FLevelEditorModule.RegisterCustomViewportLayout, FLevelEditorModule.IsRegistered]

theorem IsRegistered_Register_other (m : FLevelEditorModule) (InName Other : String)
    (Definition : FCustomViewportLayoutDefinition) (h : Other ≠ InName) :
    (m.RegisterCustomViewportLayout InName Definition).IsRegistered Other =
      m.IsRegistered Other := by
  simp only [FLevelEditorModule.RegisterCustomViewportLayout, FLevelEditorModule.IsRegistered,
    List.any_cons, List.any_filter]
  have h1 : (InName == Other) = false := by simpa using fun e => h e.symm
  rw [h1, Bool.false_or]
  congr 1
  funext e
  by_cases he : e.1 = Other
  · simp [he, h]
  · simp [he]

theorem IsRegistered_UnRegister_other (m : FLevelEditorModule) (InName Other : String)
    (h : Other ≠ InName) :
    (m.UnRegisterCustomViewportLayout InName).IsRegistered Other = m.IsRegistered Other := by
  simp only [FLevelEditorModule.UnRegisterCustomViewportLayout,
    FLevelEditorModule.IsRegistered, List.any_filter]
  congr 1
  funext e
  by_cases he : e.1 = Other
  · simp [he, h]
  · simp [he]

/-- C12 fails on the code: whatever the state of the `LevelEditor` module before, after
`StartupModule` followed by `ShutdownModule` the module is loaded and both layouts
registered at startup, `OnePaneCinematic` and `TwoPaneCinematic`, are still registered:
shutdown unregisters the name `Cinematic`, under which nothing was registered. -/
theorem ShutdownModule_leaves_layouts_registered (mgr : FModuleManager) :
    ∃ m : FLevelEditorModule,
      (ShutdownModule (StartupModule mgr)).LevelEditor = some m ∧
      m.IsRegistered "OnePaneCinematic" = true ∧
      m.IsRegistered "TwoPaneCinematic" = true := by
  refine ⟨_, rfl, ?_, ?_⟩
  · rw [IsRegistered_UnRegister_other _ _ _ (by decide),
      IsRegistered_Register_other _ _ _ _ (by decide), IsRegistered_Register_self]
  · rw [IsRegistered_UnRegister_other _ _ _ (by decide), IsRegistered_Register_self]

/-! ## Object binding node: the add-track property menu -/

theorem EqualsIgnoreCase_iff (A B : String) :
    EqualsIgnoreCase A B = true ↔ ToLower A = ToLower B := by
  simp [EqualsIgnoreCase]

/-- The inner loop takes a prefix of the remaining entries, all carrying the menu name of
the current entry up to letter case, appends their paths and leaves the other entries. -/
theorem GatherSameName_spec :
    ∀ (Rest : List PropertyMenuData) (Current : PropertyMenuData)
      (Paths : List (List UProperty)),
      ∃ taken : List PropertyMenuData,
        Rest = taken ++ (GatherSameName Current Rest Paths).2.2 ∧
        (GatherSameName Current Rest Paths).2.1 =
          Paths ++ taken.map PropertyMenuData.PropertyPath ∧
        (∀ d ∈ taken, ToLower d.MenuName = ToLower Current.MenuName) ∧
        ToLower (GatherSameName Current Rest Paths).1.MenuName = ToLower Current.MenuName
  | [], Current, Paths => ⟨[], by simp [GatherSameName]⟩
  | Next :: Rest, Current, Paths => by
    rw [GatherSameName]
    by_cases hname : EqualsIgnoreCase Current.MenuName Next.MenuName = true
    · rw [if_pos hname]
      have hlow := (EqualsIgnoreCase_iff _ _).mp hname
      obtain ⟨taken, h1, h2, h3, h4⟩ :=
        GatherSameName_spec Rest Next (Paths ++ [Next.PropertyPath])
      refine ⟨Next :: taken, ?_, ?_, ?_, ?_⟩
      · rw [List.cons_append, ← h1]
      · rw [h2]
        simp
      · intro d hd
        rcases List.mem_cons.mp hd with rfl | hd
        · exact hlow.symm
        · rw [hlow]
          exact h3 d hd
      · rw [h4, hlow]
    · rw [if_neg hname]
      exact ⟨[], by simp⟩

theorem SubMenuLoop_paths :
    ∀ (n : Nat) (Data : List PropertyMenuData), Data.length ≤ n →
      (SubMenuLoop Data).flatMap MenuEntry.Paths = Data.map PropertyMenuData.PropertyPath := by
  intro n
  induction n with
  | zero =>
    intro Data hlen
    have h0 : Data = [] := List.length_eq_zero.mp (Nat.le_zero.mp hlen)
    subst h0
    rw [SubMenuLoop]
    rfl
  | succ n ih =>
    intro Data hlen
    cases Data with
    | nil =>
      rw [SubMenuLoop]
      rfl
    | cons First Rest =>
      rw [SubMenuLoop]
      obtain ⟨taken, h1, h2, -, -⟩ := GatherSameName_spec Rest First [First.PropertyPath]
      have hrest : (GatherSameName First Rest [First.PropertyPath]).2.2.length ≤ n := by
        have hl : Rest.length ≤ n := Nat.le_of_succ_le_succ hlen
        have := congrArg List.length h1
        rw [List.length_append] at this
        omega
      simp only [List.flatMap_cons, MenuEntry.Paths]
      rw [ih _ hrest, h2]
      conv_rhs => rw [h1]
      simp

theorem ComboMenuLoop_paths (bUseSubMenus : Bool) :
    ∀ (n : Nat) (Data : List PropertyMenuData), Data.length ≤ n →
      (ComboMenuLoop bUseSubMenus Data).flatMap MenuEntry.Paths =
        Data.map PropertyMenuData.PropertyPath := by
  intro n
  induction n with
  | zero =>
    intro Data hlen
    have h0 : Data = [] := List.length_eq_zero.mp (Nat.le_zero.mp hlen)
    subst h0
    rw [ComboMenuLoop]
    rfl
  | succ n ih =>
    intro Data hlen
    cases Data with
    | nil =>
      rw [ComboMenuLoop]
      rfl
    | cons First Rest =>
      have hl : Rest.length ≤ n := Nat.le_of_succ_le_succ hlen
      rw [ComboMenuLoop]
      by_cases hitem : First.PropertyPath.length = 1 ∨ bUseSubMenus = false
      · rw [if_pos hitem]
        simp only [List.flatMap_cons, MenuEntry.Paths]
        rw [ih Rest hl]
        simp
      · rw [if_neg hitem]
        obtain ⟨taken, h1, h2, -, -⟩ := GatherSameName_spec Rest First [First.PropertyPath]
        have hrest : (GatherSameName First Rest [First.PropertyPath]).2.2.length ≤ n := by
          have := congrArg List.length h1
          rw [List.length_append] at this
          omega
        simp only [List.flatMap_cons, MenuEntry.Paths]
        rw [ih _ hrest, h2]
        conv_rhs => rw [h1]
        simp

theorem CollectMenuData_spec :
    ∀ (KeyablePropertyPaths : List (List UProperty)),
      (∀ p ∈ KeyablePropertyPaths, p ≠ []) →
      ∃ Data : List PropertyMenuData,
        CollectMenuData KeyablePropertyPaths = some Data ∧
        Data.map PropertyMenuData.PropertyPath = KeyablePropertyPaths ∧
        ∀ d ∈ Data,
          d.PropertyPath.head?.map UProperty.GetDisplayNameText = some d.MenuName
  | [], _ => ⟨[], rfl, rfl, fun d hd => by cases hd⟩
  | [] :: Rest, hne => absurd rfl (hne [] (List.mem_cons_self _ _))
  | (Property :: Tail) :: Rest, hne => by
    obtain ⟨Data, h1, h2, h3⟩ :=
      CollectMenuData_spec Rest (fun p hp => hne p (List.mem_cons_of_mem _ hp))
    refine ⟨⟨Property.GetDisplayNameText, Property :: Tail⟩ :: Data, ?_, ?_, ?_⟩
    · rw [CollectMenuData, h1]
    · rw [List.map_cons, h2]
    · intro d hd
      rcases List.mem_cons.mp hd with rfl | hd
      · rfl
      · exact h3 d hd

theorem ComboMenuLoop_labels (bUseSubMenus : Bool) :
    ∀ (n : Nat) (Data : List PropertyMenuData), Data.length ≤ n →
      (∀ d ∈ Data,
        d.PropertyPath.head?.map UProperty.GetDisplayNameText = some d.MenuName) →
      ∀ (Label : String) (ps : List (List UProperty)),
        MenuEntry.SubMenuNew Label ps ∈ ComboMenuLoop bUseSubMenus Data →
        ∀ p ∈ ps, ∃ Property : UProperty, p.head? = some Property ∧
          ToLower Property.GetDisplayNameText = ToLower Label := by
  intro n
  induction n with
  | zero =>
    intro Data hlen _ Label ps hmem
    have h0 : Data = [] := List.length_eq_zero.mp (Nat.le_zero.mp hlen)
    subst h0
    rw [ComboMenuLoop] at hmem
    cases hmem
  | succ n ih =>
    intro Data hlen hnamed Label ps hmem
    cases Data with
    | nil =>
      rw [ComboMenuLoop] at hmem
      cases hmem
    | cons First Rest =>
      have hl : Rest.length ≤ n := Nat.le_of_succ_le_succ hlen
      rw [ComboMenuLoop] at hmem
      by_cases hitem : First.PropertyPath.length = 1 ∨ bUseSubMenus = false
      · rw [if_pos hitem] at hmem
        rcases List.mem_cons.mp hmem with heq | hmem
        · cases heq
        · exact ih Rest hl (fun d hd => hnamed d (List.mem_cons_of_mem _ hd)) Label ps hmem
      · rw [if_neg hitem] at hmem
        obtain ⟨taken, h1, h2, h3, h4⟩ := GatherSameName_spec Rest First [First.PropertyPath]
        have hsub : ∀ d ∈ (GatherSameName First Rest [First.PropertyPath]).2.2, d ∈ Rest := by
          intro d hd
          rw [h1]
          exact List.mem_append_right _ hd
        have htaken : ∀ d ∈ taken, d ∈ Rest := by
          intro d hd
          rw [h1]
          exact List.mem_append_left _ hd
        rcases List.mem_cons.mp hmem with heq | hmem
        · injection heq with hLabel hps
          intro p hp
          rw [hps, h2] at hp
          rw [hLabel, h4]
          have hhead : ∀ d : PropertyMenuData,
              d.PropertyPath.head?.map UProperty.GetDisplayNameText = some d.MenuName →
              ToLower d.MenuName = ToLower First.MenuName →
              ∃ Property : UProperty, d.PropertyPath.head? = some Property ∧
                ToLower Property.GetDisplayNameText = ToLower First.MenuName := by
            intro d hd hlow
            cases hp0 : d.PropertyPath.head? with
            | none =>
              rw [hp0] at hd
              cases hd
            | some Property =>
              rw [hp0] at hd
              refine ⟨Property, rfl, ?_⟩
              have : Property.GetDisplayNameText = d.MenuName := by simpa using hd
              rw [this, hlow]
          rcases List.mem_append.mp hp with hp | hp
          · rw [List.mem_singleton.mp hp]
            exact hhead First (hnamed First (List.mem_cons_self _ _)) rfl
          · obtain ⟨d, hd, rfl⟩ := List.mem_map.mp hp
            exact hhead d (hnamed d (List.mem_cons_of_mem _ (htaken d hd))) (h3 d hd)
        · have hrest : (GatherSameName First Rest [First.PropertyPath]).2.2.length ≤ n := by
            have := congrArg List.length h1
            rw [List.length_append] at this
            omega
          exact ih _ hrest
            (fun d hd => hnamed d (List.mem_cons_of_mem _ (hsub d hd))) Label ps hmem

theorem ComboMenuLoop_without_sub_menus :
    ∀ (Data : List PropertyMenuData),
      ComboMenuLoop false Data =
        Data.map (fun d => MenuEntry.PropertyMenuItems [d.PropertyPath])
  | [] => by
    rw [ComboMenuLoop]
    rfl
  | First :: Rest => by
    rw [ComboMenuLoop, if_pos (Or.inr rfl), ComboMenuLoop_without_sub_menus Rest]
    rfl

theorem PropertyNamesFrom_inside (KeyableProperty : List UProperty) :
    ∀ (Count k : Nat), k + Count ≤ KeyableProperty.length →
      ∃ Names : List String, PropertyNamesFrom KeyableProperty Count (k : Int) = some Names
  | 0, _, _ => ⟨[], rfl⟩
  | Count + 1, k, hk => by
    obtain ⟨Names, hNames⟩ :=
      PropertyNamesFrom_inside KeyableProperty Count (k + 1) (by omega)
    have hlt : k < KeyableProperty.length := by omega
    refine ⟨(KeyableProperty[k]).GetDisplayNameText :: Names, ?_⟩
    rw [PropertyNamesFrom, if_neg (by omega), Int.toNat_ofNat, List.getElem?_eq_getElem hlt]
    have hcast : ((k : Int) + 1) = ((k + 1 : Nat) : Int) := by push_cast; rfl
    simp only [hcast, hNames]

/-- A direct call of `AddPropertyMenuItems` with one non-empty path, from index `0` to the
end of the path (`-1`), adds one menu entry, bound to that path. -/
theorem AddPropertyMenuItems_single
    (ArraySort : (PropertyMenuData → PropertyMenuData → Bool) → List PropertyMenuData →
      List PropertyMenuData)
    (hSort : ∀ Less Data, (ArraySort Less Data).Perm Data)
    (Path : List UProperty) (hne : Path ≠ []) :
    ∃ Label : String, AddPropertyMenuItems ArraySort [Path] 0 (-1) = some [⟨Label, Path⟩] := by
  have hlen : 0 < Path.length := List.length_pos.mpr hne
  obtain ⟨Names, hNames⟩ := PropertyNamesFrom_inside Path Path.length 0 (by omega)
  have hdata : CollectPropertyMenuData [Path] 0 (-1) =
      some [⟨".".intercalate Names, Path⟩] := by
    rw [CollectPropertyMenuData]
    simp only [if_true]
    rw [if_neg (by omega)]
    have h0 : ((Path.length : Int) - 0).toNat = Path.length := by simp
    rw [h0]
    have hN : PropertyNamesFrom Path Path.length 0 = some Names := by
      simpa using hNames
    rw [hN]
    simp [CollectPropertyMenuData]
  refine ⟨".".intercalate Names, ?_⟩
  rw [AddPropertyMenuItems, hdata]
  simp only []
  rw [List.perm_singleton.mp (hSort MenuNameLess _)]
  rfl

/-- C15, as stated, fails: the display names `Settings` and `settings` differ, yet with
sub-menus the two paths of `caseClashPaths` are gathered in one sub-menu, labelled
`settings`: line 473 compares the menu names with `==`, which ignores letter case. -/
theorem HandleAddTrackComboButtonGetMenuContent_case_clash :
    HandleAddTrackComboButtonGetMenuContent insertionArraySort true caseClashPaths =
      some [MenuEntry.SubMenuNew "settings"
        [[propSettingsUpper, propX], [propSettingsLower, propY]]] ∧
    [propSettingsUpper, propX].head?.map UProperty.GetDisplayNameText ≠ some "settings" := by
  constructor
  · have hsort : insertionArraySort MenuNameLess
        [⟨"Settings", [propSettingsUpper, propX]⟩, ⟨"settings", [propSettingsLower, propY]⟩] =
        [⟨"Settings", [propSettingsUpper, propX]⟩,
          ⟨"settings", [propSettingsLower, propY]⟩] := by
      have hlt : "Settings" < "settings" := by
        rw [String.lt_iff_toList_lt]
        decide
      simp [insertionArraySort, List.insertionSort, List.orderedInsert, MenuNameLess,
        Compare, hlt]
    have hdata : CollectMenuData caseClashPaths =
        some [⟨"Settings", [propSettingsUpper, propX]⟩,
          ⟨"settings", [propSettingsLower, propY]⟩] := by
      decide
    have hgather : GatherSameName ⟨"Settings", [propSettingsUpper, propX]⟩
        [⟨"settings", [propSettingsLower, propY]⟩] [[propSettingsUpper, propX]] =
        (⟨"settings", [propSettingsLower, propY]⟩,
          [[propSettingsUpper, propX], [propSettingsLower, propY]], []) := by
      decide
    rw [HandleAddTrackComboButtonGetMenuContent, hdata]
    simp only [hsort]
    rw [ComboMenuLoop, if_neg (by decide)]
    simp only [hgather]
    rw [ComboMenuLoop]
  · decide

/-- C15, amended: for non-empty keyable paths and a `Sort` that permutes its input, the
grouping loop of `HandleAddTrackComboButtonGetMenuContent` ends and consumes every entry of
the sorted menu data once, in order: the path lists passed to `AddPropertyMenuItems` and to
the `HandleAddTrackSubMenuNew` sub-menus, concatenated, are the paths of the sorted menu
data, hence a permutation of the keyable paths; all paths of one sub-menu start with a
property whose display name is the label of the sub-menu up to letter case; and when
`bUseSubMenus` is false every entry of the sorted data is passed to `AddPropertyMenuItems`
on its own, which adds one menu entry for it. -/
theorem HandleAddTrackComboButtonGetMenuContent_partition
    (ArraySort : (PropertyMenuData → PropertyMenuData → Bool) → List PropertyMenuData →
      List PropertyMenuData)
    (hSort : ∀ Less Data, (ArraySort Less Data).Perm Data)
    (bUseSubMenus : Bool) (KeyablePropertyPaths : List (List UProperty))
    (hne : ∀ p ∈ KeyablePropertyPaths, p ≠ []) :
    ∃ (Data : List PropertyMenuData) (entries : List MenuEntry),
      CollectMenuData KeyablePropertyPaths = some Data ∧
      Data.map PropertyMenuData.PropertyPath = KeyablePropertyPaths ∧
      HandleAddTrackComboButtonGetMenuContent ArraySort bUseSubMenus KeyablePropertyPaths
        = some entries ∧
      entries.flatMap MenuEntry.Paths =
        (ArraySort MenuNameLess Data).map PropertyMenuData.PropertyPath ∧
      (entries.flatMap MenuEntry.Paths).Perm KeyablePropertyPaths ∧
      (∀ (Label : String) (ps : List (List UProperty)),
        MenuEntry.SubMenuNew Label ps ∈ entries →
        ∀ p ∈ ps, ∃ Property : UProperty, p.head? = some Property ∧
          ToLower Property.GetDisplayNameText = ToLower Label) ∧
      (bUseSubMenus = false →
        entries = (ArraySort MenuNameLess Data).map
          (fun d => MenuEntry.PropertyMenuItems [d.PropertyPath])) ∧
      (∀ p ∈ KeyablePropertyPaths,
        ∃ Label : String, AddPropertyMenuItems ArraySort [p] 0 (-1) = some [⟨Label, p⟩]) := by
  obtain ⟨Data, h1, h2, h3⟩ := CollectMenuData_spec KeyablePropertyPaths hne
  have hperm := hSort MenuNameLess Data
  have hpaths := ComboMenuLoop_paths bUseSubMenus _ (ArraySort MenuNameLess Data) (Nat.le_refl _)
  refine ⟨Data, ComboMenuLoop bUseSubMenus (ArraySort MenuNameLess Data), h1, h2, ?_, hpaths,
    ?_, ?_, ?_, fun p hp => AddPropertyMenuItems_single ArraySort hSort p (hne p hp)⟩
  · rw [HandleAddTrackComboButtonGetMenuContent, h1]
  · rw [hpaths, ← h2]
    exact hperm.map _
  · exact ComboMenuLoop_labels bUseSubMenus _ _ (Nat.le_refl _)
      (fun d hd => h3 d (hperm.mem_iff.mp hd))
  · intro hb
    rw [hb, ComboMenuLoop_without_sub_menus]

/-- Witness for C15 (amended): the sample paths, sorted by insertion sort, with sub-menus. -/
theorem HandleAddTrackComboButtonGetMenuContent_partition_witness :
    ∃ entries : List MenuEntry,
      HandleAddTrackComboButtonGetMenuContent insertionArraySort true samplePaths
        = some entries ∧
      (entries.flatMap MenuEntry.Paths).Perm samplePaths := by
  obtain ⟨Data, entries, -, -, h3, -, h5, -, -, -⟩ :=
    HandleAddTrackComboButtonGetMenuContent_partition insertionArraySort
      (fun Less Data => List.perm_insertionSort _ Data) true samplePaths
      (by simp [samplePaths])
  exact ⟨entries, h3, h5⟩

theorem CollectSubMenuData_short (Rest : List (List UProperty)) (T : List UProperty)
    (Path : List UProperty) (hshort : Path[1]? = none) :
    CollectSubMenuData (Path :: Rest) T = CollectSubMenuData Rest T := by
  match Path, hshort with
  | [], _ =>
    rw [CollectSubMenuData]
    intro _ _ _ h
    cases h
  | [_], _ =>
    rw [CollectSubMenuData]
    intro _ _ _ h
    cases h
  | _ :: _ :: _, h => simp at h

theorem CollectSubMenuData_long (Rest : List (List UProperty)) (T : List UProperty)
    (p0 p1 : UProperty) (tl : List UProperty) :
    CollectSubMenuData ((p0 :: p1 :: tl) :: Rest) T =
      if p1 ∈ T then CollectSubMenuData Rest T
      else ⟨p1.GetCategoryFName, p0 :: p1 :: tl⟩ :: CollectSubMenuData Rest (p1 :: T) := by
  rw [CollectSubMenuData]

/-- Every entry kept by the first loop of `HandleAddTrackSubMenuNew` has a second-level
property that was not traversed before, and its path is the first input path with that
second-level property. -/
theorem CollectSubMenuData_mem :
    ∀ (Paths : List (List UProperty)) (T : List UProperty) (d : PropertyMenuData),
      d ∈ CollectSubMenuData Paths T →
      ∃ (p0 p1 : UProperty) (tl : List UProperty),
        d.PropertyPath = p0 :: p1 :: tl ∧ p1 ∉ T ∧
        Paths.find? (fun p => p[1]? == some p1) = some d.PropertyPath
  | [], T, d, hd => by
    rw [CollectSubMenuData] at hd
    cases hd
  | [] :: Rest, T, d, hd => by
    rw [CollectSubMenuData_short Rest T [] rfl] at hd
    obtain ⟨p0, p1, tl, h1, h2, h3⟩ := CollectSubMenuData_mem Rest T d hd
    refine ⟨p0, p1, tl, h1, h2, ?_⟩
    rw [List.find?_cons_of_neg _ (by simp), h3]
  | [a] :: Rest, T, d, hd => by
    rw [CollectSubMenuData_short Rest T [a] rfl] at hd
    obtain ⟨p0, p1, tl, h1, h2, h3⟩ := CollectSubMenuData_mem Rest T d hd
    refine ⟨p0, p1, tl, h1, h2, ?_⟩
    rw [List.find?_cons_of_neg _ (by simp), h3]
  | (a :: P :: tl') :: Rest, T, d, hd => by
    rw [CollectSubMenuData_long] at hd
    by_cases hP : P ∈ T
    · rw [if_pos hP] at hd
      obtain ⟨p0, p1, tl, h1, h2, h3⟩ := CollectSubMenuData_mem Rest T d hd
      refine ⟨p0, p1, tl, h1, h2, ?_⟩
      have hne : P ≠ p1 := fun e => h2 (e ▸ hP)
      rw [List.find?_cons_of_neg _ (by simpa using hne), h3]
    · rw [if_neg hP] at hd
      rcases List.mem_cons.mp hd with rfl | hd
      · refine ⟨a, P, tl', rfl, hP, ?_⟩
        rw [List.find?_cons_of_pos _ (by simp)]
      · obtain ⟨p0, p1, tl, h1, h2, h3⟩ := CollectSubMenuData_mem Rest (P :: T) d hd
        have hne : P ≠ p1 := fun e => h2 (e ▸ List.mem_cons_self _ _)
        refine ⟨p0, p1, tl, h1, fun h => h2 (List.mem_cons_of_mem _ h), ?_⟩
        rw [List.find?_cons_of_neg _ (by simpa using hne), h3]

theorem mem_SecondProperties (Paths : List (List UProperty)) (p1 : UProperty) :
    p1 ∈ SecondProperties Paths ↔ ∃ q ∈ Paths, q[1]? = some p1 := by
  simp [SecondProperties, List.mem_filterMap]

/-- The second-level properties of the kept entries are pairwise distinct. -/
theorem CollectSubMenuData_nodup :
    ∀ (Paths : List (List UProperty)) (T : List UProperty),
      (SecondProperties
        ((CollectSubMenuData Paths T).map PropertyMenuData.PropertyPath)).Nodup
  | [], T => by
    rw [CollectSubMenuData]
    exact List.nodup_nil
  | [] :: Rest, T => by
    rw [CollectSubMenuData_short Rest T [] rfl]
    exact CollectSubMenuData_nodup Rest T
  | [a] :: Rest, T => by
    rw [CollectSubMenuData_short Rest T [a] rfl]
    exact CollectSubMenuData_nodup Rest T
  | (a :: P :: tl') :: Rest, T => by
    rw [CollectSubMenuData_long]
    by_cases hP : P ∈ T
    · rw [if_pos hP]
      exact CollectSubMenuData_nodup Rest T
    · rw [if_neg hP]
      have ih := CollectSubMenuData_nodup Rest (P :: T)
      have hnot : P ∉ SecondProperties
          ((CollectSubMenuData Rest (P :: T)).map PropertyMenuData.PropertyPath) := by
        rw [mem_SecondProperties]
        rintro ⟨q, hq, hq1⟩
        obtain ⟨d, hd, rfl⟩ := List.mem_map.mp hq
        obtain ⟨p0, p1, tl, h1, h2, -⟩ := CollectSubMenuData_mem Rest (P :: T) d hd
        rw [h1] at hq1
        have : p1 = P := by simpa using hq1
        exact h2 (this ▸ List.mem_cons_self _ _)
      simp only [SecondProperties, List.map_cons, List.filterMap_cons,
        List.getElem?_cons_succ, List.getElem?_cons_zero]
      exact List.nodup_cons.mpr ⟨hnot, ih⟩

/-- Every second-level property of an input path was traversed before or is kept. -/
theorem CollectSubMenuData_covers :
    ∀ (Paths : List (List UProperty)) (T : List UProperty) (p : List UProperty)
      (p1 : UProperty), p ∈ Paths → p[1]? = some p1 →
      p1 ∈ T ∨ p1 ∈ SecondProperties
        ((CollectSubMenuData Paths T).map PropertyMenuData.PropertyPath)
  | [], T, p, p1, hp, _ => by cases hp
  | [] :: Rest, T, p, p1, hp, h1 => by
    rw [CollectSubMenuData_short Rest T [] rfl]
    rcases List.mem_cons.mp hp with rfl | hp
    · simp at h1
    · exact CollectSubMenuData_covers Rest T p p1 hp h1
  | [a] :: Rest, T, p, p1, hp, h1 => by
    rw [CollectSubMenuData_short Rest T [a] rfl]
    rcases List.mem_cons.mp hp with rfl | hp
    · simp at h1
    · exact CollectSubMenuData_covers Rest T p p1 hp h1
  | (a :: P :: tl') :: Rest, T, p, p1, hp, h1 => by
    rw [CollectSubMenuData_long]
    by_cases hP : P ∈ T
    · rw [if_pos hP]
      rcases List.mem_cons.mp hp with rfl | hp
      · have : P = p1 := by simpa using h1
        exact Or.inl (this ▸ hP)
      · exact CollectSubMenuData_covers Rest T p p1 hp h1
    · rw [if_neg hP]
      have hhead : P ∈ SecondProperties
          ((⟨P.GetCategoryFName, a :: P :: tl'⟩ :: CollectSubMenuData Rest (P :: T)).map
            PropertyMenuData.PropertyPath) := by
        rw [mem_SecondProperties]
        exact ⟨a :: P :: tl', by simp, by simp⟩
      rcases List.mem_cons.mp hp with rfl | hp
      · have : P = p1 := by simpa using h1
        exact Or.inr (this ▸ hhead)
      · rcases CollectSubMenuData_covers Rest (P :: T) p p1 hp h1 with h | h
        · rcases List.mem_cons.mp h with rfl | h
          · exact Or.inr hhead
          · exact Or.inl h
        · right
          rw [mem_SecondProperties] at h ⊢
          obtain ⟨q, hq, hq1⟩ := h
          exact ⟨q, by simp only [List.map_cons, List.mem_cons]; exact Or.inr hq, hq1⟩

/-- C14: with a `Sort` that permutes its input, the property paths that
`HandleAddTrackSubMenuNew` hands on to `AddPropertyMenuItems` all have length greater than 1
and each is the first input path with its second-level property `PropertyPath[1]`; no
second-level property belongs to more than one of them; and the second-level property of
every input path of length greater than 1 belongs to exactly one of them. -/
theorem HandleAddTrackSubMenuNew_properties_once
    (ArraySort : (PropertyMenuData → PropertyMenuData → Bool) → List PropertyMenuData →
      List PropertyMenuData)
    (hSort : ∀ Less Data, (ArraySort Less Data).Perm Data)
    (KeyablePropertyPaths : List (List UProperty)) :
    (∀ q ∈ (HandleAddTrackSubMenuNew ArraySort KeyablePropertyPaths).flatMap MenuEntry.Paths,
      ∃ (p0 p1 : UProperty) (tl : List UProperty), q = p0 :: p1 :: tl ∧
        KeyablePropertyPaths.find? (fun p => p[1]? == some p1) = some q) ∧
    (SecondProperties
      ((HandleAddTrackSubMenuNew ArraySort KeyablePropertyPaths).flatMap
        MenuEntry.Paths)).Nodup ∧
    (∀ p ∈ KeyablePropertyPaths, ∀ p1 : UProperty, p[1]? = some p1 →
      (SecondProperties
        ((HandleAddTrackSubMenuNew ArraySort KeyablePropertyPaths).flatMap
          MenuEntry.Paths)).count p1 = 1) := by
  have hperm := hSort MenuNameLess (CollectSubMenuData KeyablePropertyPaths [])
  have hhanded : (HandleAddTrackSubMenuNew ArraySort KeyablePropertyPaths).flatMap
      MenuEntry.Paths =
      (ArraySort MenuNameLess (CollectSubMenuData KeyablePropertyPaths [])).map
        PropertyMenuData.PropertyPath := by
    rw [HandleAddTrackSubMenuNew]
    exact SubMenuLoop_paths _ _ (Nat.le_refl _)
  have hsecond : (SecondProperties
      ((HandleAddTrackSubMenuNew ArraySort KeyablePropertyPaths).flatMap
        MenuEntry.Paths)).Perm
      (SecondProperties ((CollectSubMenuData KeyablePropertyPaths []).map
        PropertyMenuData.PropertyPath)) := by
    rw [hhanded]
    exact (hperm.map _).filterMap _
  have hnodup := hsecond.nodup_iff.mpr (CollectSubMenuData_nodup KeyablePropertyPaths [])
  refine ⟨?_, hnodup, ?_⟩
  · intro q hq
    rw [hhanded] at hq
    obtain ⟨d, hd, rfl⟩ := List.mem_map.mp hq
    obtain ⟨p0, p1, tl, h1, -, h3⟩ :=
      CollectSubMenuData_mem KeyablePropertyPaths [] d (hperm.mem_iff.mp hd)
    exact ⟨p0, p1, tl, h1, h3⟩
  · intro p hp p1 h1
    apply List.count_eq_one_of_mem hnodup
    rw [hsecond.mem_iff]
    rcases CollectSubMenuData_covers KeyablePropertyPaths [] p p1 hp h1 with h | h
    · cases h
    · exact h

/-- Witness for C14: of the sample paths, `Bloom1Tint` is the second-level property of two
paths, and of exactly one path handed on. -/
theorem HandleAddTrackSubMenuNew_properties_once_witness :
    (SecondProperties
      ((HandleAddTrackSubMenuNew insertionArraySort samplePaths).flatMap
        MenuEntry.Paths)).count propBloomTint = 1 :=
  (HandleAddTrackSubMenuNew_properties_once insertionArraySort
    (fun Less Data => List.perm_insertionSort _ Data) samplePaths).2.2
    [propPostProcess, propBloomTint, propY] (by simp [samplePaths]) propBloomTint rfl

end Sequencer
